import Mathlib

/-!
# Nyquist `trigger` suspension (`nyqsrc/trigger.c`)

A shallow embedding of `trigger_fetch`, `snd_make_trigger` and `snd_trigger`.

Conventions of the embedding.

* `sample_type` (C `float`), `time_type` and `rate_type` (C `double`) are exact
  rationals; rounding of floating point arithmetic is not modelled.
* C `int` / `int64_t` counters are `Int`; every counter of a call is bounded by
  `max_sample_block_len`, so wrap-around plays no role.
* A pointer into a sample block (`s1_ptr`) is the list of the samples from the
  pointer to the end of the block; `NULL` is the empty list.  Reading through a
  pointer that has run off its block is the status `fault`.
* The node is mutated in place by the C code; here every routine returns the
  new node value together with what it handed to its caller.
* Non-local exits (`xlerror`, `xlfail`) are statuses of the result.
* Constants, macros and routines that live in headers or files other than
  `trigger.c` are fields of `Env` or are modelled from the specification and
  marked so.
-/

namespace Trigger

abbrev sample_type := Rat

abbrev time_type := Rat

abbrev rate_type := Rat

/-- The fetch routines a (former) trigger node can point to. -/
inductive fetch_routine where
  | trigger_fetch
  | add_s1_nn_fetch
  | add_s1_s2_nn_fetch
  deriving DecidableEq, Repr

/-- The mark routines stored in `susp.mark`. -/
inductive mark_routine where
  | trigger_mark
  | add_mark
  deriving DecidableEq, Repr

/-- The print routines stored in `susp.print_tree`. -/
inductive print_tree_routine where
  | trigger_print_tree
  | add_print_tree
  deriving DecidableEq, Repr

/-- The free routine stored in `susp.free`. -/
inductive free_routine where
  | trigger_free
  deriving DecidableEq, Repr

/-- The generic suspension header `snd_susp_node` (fields used by `trigger.c`). -/
structure snd_susp_node where
  fetch : fetch_routine
  free : free_routine
  mark : mark_routine
  print_tree : print_tree_routine
  name : String
  t0 : time_type
  sr : rate_type
  current : Int
  log_stop_cnt : Int

/-- The lazy sample list behind a sound: either blocks that are already
determined (followed by the end of the stream) or a suspension that will
compute them. -/
inductive snd_list (σ : Type) where
  | blocks (bs : List (List sample_type))
  | susp (node : σ)

/-- Modelled from the spec: `sound_node` is declared in `sound.h`, which is not
part of the sources.  A SoundStream is a handle {node, sampleRate, startTime,
scale}; `current` counts the samples the handle has delivered and
`logical_stop_cnt` is read by `snd_make_trigger`. -/
structure sound_node (σ : Type) where
  list : snd_list σ
  t0 : time_type
  sr : rate_type
  scale : Rat
  current : Int
  logical_stop_cnt : Int

/-- The struct `trigger_susp_struct`.  The block pointers `s1_bptr`, `s2_bptr`
and `s2_ptr` are never read or written by `trigger.c` and are left out. -/
structure trigger_susp_struct (σ : Type) where
  susp : snd_susp_node
  started : Bool
  terminate_bits : Int
  terminate_cnt : Int
  logical_stop_bits : Int
  logically_stopped : Bool
  s1 : sound_node σ
  s1_cnt : Int
  s1_ptr : List sample_type
  s2 : Option (sound_node σ)
  s2_cnt : Int
  previous : sample_type
  closure : Option Nat

/-- A reference to a trigger suspension held by a sound (`snd_susp_type`). -/
inductive susp_ref where
  | mk (node : trigger_susp_struct susp_ref)

abbrev trigger_susp_node := trigger_susp_struct susp_ref

abbrev sound_type := sound_node susp_ref

/-- The values `xleval` can return, as far as `trigger_fetch` distinguishes
them: `exttypep(result, a_sound)` holds exactly for `sound`. -/
inductive LVAL where
  | NIL
  | sound (s : sound_type)
  | other (tag : Nat)

/-- The output list node `snd_list` handed to a fetch routine: the block it
points to (the samples written so far), `block_len`, and whether
`snd_list_terminate` was applied. -/
structure snd_list_node where
  block : List sample_type
  block_len : Int
  terminated : Bool

/-- What `trigger.c` takes from the rest of Nyquist and XLISP: the constants
`max_sample_block_len` and `UNKNOWN`, the evaluator applied to the form
`(closure now)`, `snd_make_normalize`, the fetch routines of `add.c` (called
through `susp.fetch`), and the fetch of a suspension that backs an input
sound. -/
structure Env where
  max_sample_block_len : Nat
  UNKNOWN : Int
  xleval : Option Nat → time_type → LVAL
  snd_make_normalize : sound_type → sound_type
  add_fetch : fetch_routine → trigger_susp_node → trigger_susp_node × snd_list_node
  susp_get_next : trigger_susp_node → List sample_type × Bool × trigger_susp_node

/-- How a call of `trigger_fetch` ended. -/
inductive fetch_status where
  | returned
  | xlerror
  | xlfail
  | fault
  | no_progress
  deriving DecidableEq, Repr

/-- The record of one call of `trigger_fetch`: how it ended, the node and the
output list node as the statements of `trigger_fetch` left them, the times at
which `xleval` was called, and the result of the call through `susp.fetch` in
the case `cnt == 0` of a firing. -/
structure fetch_result where
  status : fetch_status
  susp : trigger_susp_node
  snd_list : snd_list_node
  evals : List time_type
  delegated : Option (trigger_susp_node × snd_list_node)

/-- Modelled from the spec: `ROUNDBIG` is a macro of a header that is not part
of the sources.  The spec's `round`, computed the way a C integer cast does:
add one half and truncate toward zero. -/
def ROUNDBIG (x : Rat) : Int :=
  Int.tdiv (x + 1 / 2).num (x + 1 / 2).den

/-- Modelled from the spec: `sound_copy` is defined in `sound.c`, not part of
the sources.  A private copy of a stream handle; the copy has the same
contents and the original is left as it was. -/
def sound_copy (snd : sound_type) : sound_type :=
  snd

/-- Modelled from the spec: `sound_create` is defined in `sound.c`, not part of
the sources.  A new stream handle {node, sampleRate, startTime, scale} that has
delivered nothing yet. -/
def sound_create (env : Env) (susp : trigger_susp_node) (t0 : time_type)
    (sr : rate_type) (scale : Rat) : sound_type :=
  { list := snd_list.susp (susp_ref.mk susp), t0 := t0, sr := sr, scale := scale,
    current := 0, logical_stop_cnt := env.UNKNOWN }

/-- Modelled from the spec: `snd_list_terminate` is defined in `sound.c`, not
part of the sources.  The terminal block: length 0, no successor. -/
def snd_list_terminate : snd_list_node :=
  { block := [], block_len := 0, terminated := true }

/-- Modelled from the spec: `min_cnt` is defined in `sound.c`, not part of the
sources.  Records a termination index: the stored index becomes `c` when it was
unknown or larger. -/
def min_cnt (env : Env) (cnt_ptr : Int) (c : Int) : Int :=
  if cnt_ptr = env.UNKNOWN ∨ cnt_ptr > c then c else cnt_ptr

/-- Modelled from the spec: `sound_get_next` is defined in `sound.c`, not part
of the sources.  Hands out the input's next available block and whether it is
the end-of-stream signal (the shared block of zeros of full length, which a
finished stream supplies from then on).  A sound backed by a suspension asks
that suspension. -/
def sound_get_next (env : Env) (snd : sound_type) :
    List sample_type × Bool × sound_type :=
  match snd.list with
  | snd_list.blocks (b :: rest) =>
      (b, false, { snd with list := snd_list.blocks rest,
                            current := snd.current + b.length })
  | snd_list.blocks [] =>
      (List.replicate env.max_sample_block_len 0, true,
        { snd with current := snd.current + env.max_sample_block_len })
  | snd_list.susp (susp_ref.mk node) =>
      ((env.susp_get_next node).1, (env.susp_get_next node).2.1,
        { snd with list := snd_list.susp (susp_ref.mk (env.susp_get_next node).2.2),
                   current := snd.current + (env.susp_get_next node).1.length })

/-- Modelled from the spec: the macro `susp_check_term_samples(s1, s1_ptr,
s1_cnt)` of `sound.h`, not part of the sources.  When the current input block
is used up, take the input's next block; when that is the end-of-stream signal,
record as termination index the number of samples the input had delivered
before it (the input and the node share sample rate and start time, so no
conversion is involved). -/
def susp_check_term_samples (env : Env) (susp : trigger_susp_node) :
    trigger_susp_node :=
  if susp.s1_cnt = 0 then
    if (sound_get_next env susp.s1).2.1 then
      { susp with
        s1 := (sound_get_next env susp.s1).2.2
        s1_ptr := (sound_get_next env susp.s1).1
        s1_cnt := (sound_get_next env susp.s1).1.length
        terminate_cnt := min_cnt env susp.terminate_cnt
          ((sound_get_next env susp.s1).2.2.current - (sound_get_next env susp.s1).1.length) }
    else
      { susp with
        s1 := (sound_get_next env susp.s1).2.2
        s1_ptr := (sound_get_next env susp.s1).1
        s1_cnt := (sound_get_next env susp.s1).1.length }
  else susp

/-- How the inner sample loop of `trigger_fetch` ended: at an edge (with the
triggering sample and the value of `n` at that moment), by `--n` reaching
zero (with the last sample stored in `previous`), or by reading past the
block.  `out` is what has been written through `out_ptr_reg`. -/
inductive inner_result where
  | edge (s : sample_type) (n : Int) (out : List sample_type)
  | done (previous : sample_type) (out : List sample_type)
  | fault

/-- The inner sample computation loop `do { ... } while (--n)` of
`trigger_fetch`, entered with `n` nonzero. -/
def inner_loop : sample_type → Int → List sample_type → List sample_type → inner_result
  | _, _, [], _ => inner_result.fault
  | previous, n, s :: rest, out =>
    if previous ≤ 0 ∧ s > 0 then inner_result.edge s n out
    else if n - 1 ≠ 0 then inner_loop s (n - 1) rest (out ++ [0])
    else inner_result.done s (out ++ [0])

/-- The node after `susp->susp.current += cnt`. -/
def advance_current (susp : trigger_susp_node) (cnt : Int) : trigger_susp_node :=
  { susp with susp := { susp.susp with current := susp.susp.current + cnt } }

/-- The statements of `trigger_fetch` after the outer loop. -/
def trigger_finish (susp : trigger_susp_node) (cnt togo : Int)
    (out : List sample_type) : fetch_result :=
  if togo = 0 ∧ cnt = 0 then
    { status := fetch_status.returned, susp := susp, snd_list := snd_list_terminate,
      evals := [], delegated := none }
  else
    { status := fetch_status.returned,
      susp := advance_current susp cnt,
      snd_list := { block := out, block_len := cnt, terminated := false },
      evals := [], delegated := none }

/-- The node after the statements "close off block" of the edge branch:
`previous = s`, the input pointer and count moved by `togo - n`, and
`susp.current` advanced by the new `cnt`. -/
def close_off_block (susp : trigger_susp_node) (s : sample_type) (cnt togo n : Int) :
    trigger_susp_node :=
  { susp with
    previous := s
    s1_ptr := susp.s1_ptr.drop (togo - n).toNat
    s1_cnt := susp.s1_cnt - (togo - n)
    susp := { susp.susp with current := susp.susp.current + (cnt + (togo - n)) } }

/-- The time `now = susp->susp.t0 + susp->susp.current / susp->susp.sr`. -/
def now_of (susp : trigger_susp_node) : time_type :=
  susp.susp.t0 + (susp.susp.current : Rat) / susp.susp.sr

/-- The clone `new_trigger`: a `memcpy` of the node with `s2` reset. -/
def clone_trigger (susp : trigger_susp_node) : trigger_susp_node :=
  { susp with s2 := none }

/-- The node after "cloan this trigger to become s1" and "convert to add", up
to the sample rate check. -/
def convert_to_add (env : Env) (susp : trigger_susp_node) (now : time_type)
    (snd : sound_type) : trigger_susp_node :=
  { susp with
    s2 := some (sound_copy snd)
    s1 := sound_create env (clone_trigger { susp with s2 := some (sound_copy snd) })
            now susp.susp.sr 1
    s1_cnt := 0
    s1_ptr := []
    susp := { susp.susp with mark := mark_routine.add_mark
                             log_stop_cnt := env.UNKNOWN
                             print_tree := print_tree_routine.add_print_tree } }

/-- The secondary sound after "take care of scale factor, if any". -/
def normalized_s2 (env : Env) (s2 : sound_type) : sound_type :=
  if s2.scale ≠ 1 then env.snd_make_normalize s2 else s2

/-- The node after "figure out which add fetch routine to use" and
`susp->closure = NULL`. -/
def select_add_fetch (susp : trigger_susp_node) (s2 : sound_type) (now : time_type) :
    trigger_susp_node :=
  if ROUNDBIG ((s2.t0 - now) * susp.s1.sr) > 0 then
    { susp with
      s2 := some s2
      closure := none
      susp := { susp.susp with fetch := fetch_routine.add_s1_nn_fetch
                               name := "trigger:add_s1_nn_fetch" } }
  else
    { susp with
      s2 := some s2
      closure := none
      susp := { susp.susp with fetch := fetch_routine.add_s1_s2_nn_fetch
                               name := "trigger:add_s1_s2_nn_fetch" } }

/-- The node at the end of a successful firing: cloned, converted to an add,
with the (normalized) closure result as `s2`, the add fetch routine selected
and the closure cleared.  `susp` is the node after "close off block". -/
def transmuted (env : Env) (susp : trigger_susp_node) (snd : sound_type) :
    trigger_susp_node :=
  select_add_fetch (convert_to_add env susp (now_of susp) snd)
    (normalized_s2 env (sound_copy snd)) (now_of susp)

/-- The statements "eval closure and add result" to the `return` of the edge
branch of `trigger_fetch`: `susp` is the node after "close off block", `cnt`
the number of samples computed in the call and `out` the samples written. -/
def trigger_fire (env : Env) (susp : trigger_susp_node) (cnt : Int)
    (out : List sample_type) : fetch_result :=
  match env.xleval susp.closure (now_of susp) with
  | LVAL.sound snd =>
    if (convert_to_add env susp (now_of susp) snd).s1.sr ≠ (sound_copy snd).sr then
      { status := fetch_status.xlfail,
        susp := convert_to_add env susp (now_of susp) snd,
        snd_list := { block := out, block_len := cnt, terminated := false },
        evals := [now_of susp], delegated := none }
    else
      { status := fetch_status.returned,
        susp := transmuted env susp snd,
        snd_list := { block := out, block_len := cnt, terminated := false },
        evals := [now_of susp],
        delegated :=
          if cnt = 0 then
            some (env.add_fetch (transmuted env susp snd).susp.fetch (transmuted env susp snd))
          else none }
  | _ =>
    { status := fetch_status.xlerror,
      susp := susp,
      snd_list := { block := out, block_len := cnt, terminated := false },
      evals := [now_of susp], delegated := none }

/-- The edge branch of the inner loop of `trigger_fetch`: `s` is the triggering
sample, `cnt` and `togo` are the locals on entry to the inner loop, `n` is the
loop counter at the edge and `out` the samples written so far. -/
def trigger_edge (env : Env) (susp : trigger_susp_node) (s : sample_type)
    (cnt togo n : Int) (out : List sample_type) : fetch_result :=
  trigger_fire env (close_off_block susp s cnt togo n) (cnt + (togo - n)) out

/-- The run length `togo` of one pass of the outer loop, after "don't overflow
the output sample block", "don't run past the input sample block" and "don't
run past terminate time"; `susp` is the node after `susp_check_term_samples`. -/
def run_length (env : Env) (susp : trigger_susp_node) (cnt : Int) : Int :=
  if susp.terminate_cnt ≠ env.UNKNOWN ∧
      susp.terminate_cnt ≤ susp.susp.current + cnt +
        min ((env.max_sample_block_len : Int) - cnt) susp.s1_cnt then
    susp.terminate_cnt - (susp.susp.current + cnt)
  else min ((env.max_sample_block_len : Int) - cnt) susp.s1_cnt

/-- Whether the pass leaves the outer loop through `if (togo == 0) break;`. -/
def at_terminate (env : Env) (susp : trigger_susp_node) (cnt : Int) : Bool :=
  decide (susp.terminate_cnt ≠ env.UNKNOWN ∧
      susp.terminate_cnt ≤ susp.susp.current + cnt +
        min ((env.max_sample_block_len : Int) - cnt) susp.s1_cnt ∧
      susp.terminate_cnt - (susp.susp.current + cnt) = 0)

/-- The node after the statements that follow the inner loop (`s1_ptr += togo`,
`susp_took(s1_cnt, togo)`), with the `previous` the inner loop stored. -/
def advance_input (susp : trigger_susp_node) (previous : sample_type) (togo : Int) :
    trigger_susp_node :=
  { susp with
    previous := previous
    s1_ptr := susp.s1_ptr.drop togo.toNat
    s1_cnt := susp.s1_cnt - togo }

/-- The outer loop of `trigger_fetch` followed by the statements after it.
`cnt`, `togo` and `out` are the locals of the call; the first argument bounds
the number of passes. -/
def trigger_outer_loop (env : Env) :
    Nat → trigger_susp_node → Int → Int → List sample_type → fetch_result
  | 0, susp, cnt, _, out =>
    { status := fetch_status.no_progress, susp := susp,
      snd_list := { block := out, block_len := cnt, terminated := false },
      evals := [], delegated := none }
  | fuel + 1, susp, cnt, togo, out =>
    if cnt < (env.max_sample_block_len : Int) then
      if at_terminate env (susp_check_term_samples env susp) cnt then
        trigger_finish (susp_check_term_samples env susp) cnt 0 out
      else if run_length env (susp_check_term_samples env susp) cnt ≠ 0 then
        match inner_loop (susp_check_term_samples env susp).previous
            (run_length env (susp_check_term_samples env susp) cnt)
            (susp_check_term_samples env susp).s1_ptr out with
        | inner_result.edge s n out1 =>
          trigger_edge env (susp_check_term_samples env susp) s cnt
            (run_length env (susp_check_term_samples env susp) cnt) n out1
        | inner_result.done previous out1 =>
          trigger_outer_loop env fuel
            (advance_input (susp_check_term_samples env susp) previous
              (run_length env (susp_check_term_samples env susp) cnt))
            (cnt + run_length env (susp_check_term_samples env susp) cnt)
            (run_length env (susp_check_term_samples env susp) cnt) out1
        | inner_result.fault =>
          { status := fetch_status.fault, susp := susp_check_term_samples env susp,
            snd_list := { block := out, block_len := cnt, terminated := false },
            evals := [], delegated := none }
      else
        trigger_outer_loop env fuel
          (advance_input (susp_check_term_samples env susp)
            (susp_check_term_samples env susp).previous 0)
          (cnt + 0) 0 out
    else trigger_finish susp cnt togo out

/-- The number of blocks an input sound still holds. -/
def pending_blocks (snd : sound_type) : Nat :=
  match snd.list with
  | snd_list.blocks bs => bs.length
  | snd_list.susp _ => 0

/-- The routine `trigger_fetch`: `cnt = 0`, a fresh output block, the outer
loop and the statements after it.  The number of passes followed is enough
for every input whose blocks are determined (each pass produces a sample,
takes a block from the input, or leaves the loop). -/
def trigger_fetch (env : Env) (susp : trigger_susp_node) : fetch_result :=
  trigger_outer_loop env (env.max_sample_block_len + pending_blocks susp.s1 + 2) susp 0 0 []

/-- The input `snd_make_trigger` stores: the caller's sound, normalized when
its scale is not 1. -/
def trigger_input (env : Env) (s1 : sound_type) : sound_type :=
  if s1.scale ≠ 1 then env.snd_make_normalize s1 else s1

/-- The node `snd_make_trigger` allocates and initializes. -/
def trigger_susp_init (env : Env) (s1 : sound_type) (closure : Option Nat) :
    trigger_susp_node :=
  { susp := { fetch := fetch_routine.trigger_fetch
              free := free_routine.trigger_free
              mark := mark_routine.trigger_mark
              print_tree := print_tree_routine.trigger_print_tree
              name := "trigger"
              t0 := (trigger_input env s1).t0
              sr := (trigger_input env s1).sr
              current := 0
              log_stop_cnt := (trigger_input env s1).logical_stop_cnt }
    started := false
    terminate_bits := 0
    terminate_cnt := env.UNKNOWN
    logical_stop_bits := 0
    logically_stopped := false
    s1 := trigger_input env s1
    s1_cnt := 0
    s1_ptr := []
    s2 := none
    s2_cnt := 0
    previous := 0
    closure := closure }

/-- The routine `snd_make_trigger`. -/
def snd_make_trigger (env : Env) (s1 : sound_type) (closure : Option Nat) : sound_type :=
  sound_create env (trigger_susp_init env s1 closure)
    (trigger_susp_init env s1 closure).susp.t0 (trigger_susp_init env s1 closure).susp.sr 1

/-- The routine `snd_trigger`. -/
def snd_trigger (env : Env) (s1 : sound_type) (closure : Option Nat) : sound_type :=
  snd_make_trigger env (sound_copy s1) closure

/-- The suspension a sound handle wraps, if its samples are not yet
determined. -/
def sound_susp (snd : sound_type) : Option trigger_susp_node :=
  match snd.list with
  | snd_list.susp (susp_ref.mk node) => some node
  | snd_list.blocks _ => none

/-- The index of the first rising edge of a sample sequence: the first sample
that is `> 0` while its predecessor is `≤ 0`, where `previous` is the
predecessor of the first sample. -/
def first_edge : sample_type → List sample_type → Option Nat
  | _, [] => none
  | previous, s :: rest =>
    if previous ≤ 0 ∧ s > 0 then some 0 else (first_edge s rest).map (fun i => i + 1)

/-- The last sample of a sequence, or `previous` when it is empty. -/
def last_sample : sample_type → List sample_type → sample_type
  | previous, [] => previous
  | _, s :: rest => last_sample s rest

/-- The blocks an input sound has not handed out yet. -/
def blocks_of (snd : sound_type) : List (List sample_type) :=
  match snd.list with
  | snd_list.blocks bs => bs
  | snd_list.susp _ => []

/-- The input samples a node has not consumed yet: the rest of its current
block followed by the blocks its input still holds. -/
def remaining_input (susp : trigger_susp_node) : List sample_type :=
  susp.s1_ptr ++ (blocks_of susp.s1).flatten

/-- The position of the input cursor: samples delivered by the input minus the
samples of the current block not consumed yet. -/
def input_cursor (susp : trigger_susp_node) : Int :=
  susp.s1.current - susp.s1_cnt

/-- The assumptions on the constants of `sound.h`: blocks have room for a
sample and `UNKNOWN` is a negative sentinel. -/
def env_ok (env : Env) : Prop :=
  0 < env.max_sample_block_len ∧ env.UNKNOWN < 0

/-- A trigger node in the middle of its input, inside a call that has computed
`cnt` samples (`cnt = 0` between calls): the input's blocks are determined,
`s1_cnt` is the number of samples left in the current block, the end of the
input has not been seen, and `susp.current + cnt` is the position of the input
cursor. -/
structure in_stream (env : Env) (susp : trigger_susp_node) (cnt : Nat) : Prop where
  blocks : susp.s1.list = snd_list.blocks (blocks_of susp.s1)
  cnt_ok : susp.s1_cnt = susp.s1_ptr.length
  unknown : susp.terminate_cnt = env.UNKNOWN
  aligned : susp.susp.current + cnt = input_cursor susp
  nonneg : 0 ≤ susp.susp.current

/-- A trigger node that has seen the end of its input: the input has no block
left, the current block is the end-of-stream block, and the termination index
is the current sample index. -/
structure at_end (env : Env) (susp : trigger_susp_node) : Prop where
  blocks : susp.s1.list = snd_list.blocks []
  cnt_ok : susp.s1_cnt = env.max_sample_block_len
  ptr_ok : susp.s1_ptr = List.replicate env.max_sample_block_len 0
  known : susp.terminate_cnt = susp.susp.current
  nonneg : 0 ≤ susp.susp.current

/-- How a sequence of calls of `trigger_fetch` on one node ended: the calls ran
out (`more`), the node fired and is an add from then on, the terminal block was
returned, or a call failed. -/
inductive run_end where
  | more
  | fired
  | terminated
  | failed
  deriving DecidableEq, Repr

/-- The record of successive calls of `trigger_fetch` on one node: the blocks
the trigger itself returned, the samples of the block that the last call had
closed off when it failed (empty when no call failed), the times at which the
closure was evaluated, how the sequence ended and the node after the last
call. -/
structure run_result where
  blocks : List (List sample_type)
  unreturned : List sample_type
  evals : List time_type
  ending : run_end
  susp : trigger_susp_node

/-- The block a call of `trigger_fetch` returns from its own statements, if
any: none when the call fails, returns the terminal block or leaves the block
to the add fetch. -/
def own_block (r : fetch_result) : Option (List sample_type) :=
  if r.status = fetch_status.returned ∧ r.snd_list.terminated = false ∧ r.delegated.isNone then
    some r.snd_list.block
  else none

/-- The node that holds the input after a call of `trigger_fetch`: the clone
wrapped by `s1` when the call cloned the node, the node itself otherwise. -/
def input_holder (r : fetch_result) : trigger_susp_node :=
  match sound_susp r.susp.s1 with
  | some clone => clone
  | none => r.susp

/-- At most `calls` successive calls of `trigger_fetch` by a caller that
dispatches on `susp.fetch`: the sequence stops when a call fails, when the
node has become an add, or when the terminal block is returned. -/
def trigger_run (env : Env) : Nat → trigger_susp_node → run_result
  | 0, susp =>
    { blocks := [], unreturned := [], evals := [], ending := run_end.more, susp := susp }
  | calls + 1, susp =>
    if (trigger_fetch env susp).status ≠ fetch_status.returned then
      { blocks := [], unreturned := (trigger_fetch env susp).snd_list.block,
        evals := (trigger_fetch env susp).evals, ending := run_end.failed,
        susp := (trigger_fetch env susp).susp }
    else if (trigger_fetch env susp).susp.susp.fetch ≠ fetch_routine.trigger_fetch then
      { blocks := (own_block (trigger_fetch env susp)).toList, unreturned := [],
        evals := (trigger_fetch env susp).evals, ending := run_end.fired,
        susp := (trigger_fetch env susp).susp }
    else if (trigger_fetch env susp).snd_list.terminated then
      { blocks := [], unreturned := [],
        evals := (trigger_fetch env susp).evals, ending := run_end.terminated,
        susp := (trigger_fetch env susp).susp }
    else
      { blocks := (trigger_fetch env susp).snd_list.block ::
          (trigger_run env calls (trigger_fetch env susp).susp).blocks,
        unreturned := (trigger_run env calls (trigger_fetch env susp).susp).unreturned,
        evals := (trigger_fetch env susp).evals ++
          (trigger_run env calls (trigger_fetch env susp).susp).evals,
        ending := (trigger_run env calls (trigger_fetch env susp).susp).ending,
        susp := (trigger_run env calls (trigger_fetch env susp).susp).susp }

/-- The node handed to `trigger_fire` when a call that started with header
`h0`, closure `c0` and unconsumed input `R0` meets an edge at index `j` of
`R0`: a node in the middle of its input whose cursor stands on the triggering
sample, with `previous` already set to it and `susp.current` advanced by
`j`. -/
structure edge_node (env : Env) (h0 : snd_susp_node) (c0 : Option Nat)
    (R0 : List sample_type) (j : Nat) (A : trigger_susp_node) : Prop where
  stream : in_stream env A 0
  input : remaining_input A = R0.drop j
  previous : A.previous = R0.getD j 0
  at_sample : A.s1_ptr.head? = some (R0.getD j 0)
  header : A.susp = { h0 with current := h0.current + j }
  closure : A.closure = c0

/-- The node handed to `trigger_finish` when a call that started with header
`h0`, closure `c0`, previous sample `p0` and unconsumed input `R0` has filled
its block without meeting an edge. -/
structure full_node (env : Env) (h0 : snd_susp_node) (c0 : Option Nat)
    (p0 : sample_type) (R0 : List sample_type) (S : trigger_susp_node) : Prop where
  stream : in_stream env S env.max_sample_block_len
  input : remaining_input S = R0.drop env.max_sample_block_len
  previous : S.previous = last_sample p0 (R0.take env.max_sample_block_len)
  header : S.susp = h0
  closure : S.closure = c0

/-- The node handed to `trigger_finish` when a call that started with header
`h0`, closure `c0`, previous sample `p0` and unconsumed input `R0` has consumed
all of `R0` without meeting an edge and has then been given the end-of-stream
signal. -/
structure end_node (env : Env) (h0 : snd_susp_node) (c0 : Option Nat)
    (p0 : sample_type) (R0 : List sample_type) (S : trigger_susp_node) : Prop where
  blocks : S.s1.list = snd_list.blocks []
  cnt_ok : S.s1_cnt = env.max_sample_block_len
  ptr_ok : S.s1_ptr = List.replicate env.max_sample_block_len 0
  known : S.terminate_cnt = h0.current + R0.length
  cursor : input_cursor S = h0.current + R0.length
  previous : S.previous = last_sample p0 R0
  header : S.susp = h0
  closure : S.closure = c0

/-- The three ways a call of `trigger_fetch` can go on a node in the middle of
its input, in terms of the header `h0`, closure `c0` and previous sample `p0`
of the node and of the input `R0` it has not consumed: an edge at an index `j`
below the block size, which leads to `trigger_fire` after `j` zeros; a full
block of zeros; or the end of the input after `R0.length` zeros. -/
def call_post (env : Env) (h0 : snd_susp_node) (c0 : Option Nat) (p0 : sample_type)
    (R0 : List sample_type) (r : fetch_result) : Prop :=
  (∃ j A, first_edge p0 R0 = some j ∧ j < env.max_sample_block_len ∧
      r = trigger_fire env A (j : Int) (List.replicate j 0) ∧ edge_node env h0 c0 R0 j A)
  ∨ (first_edge p0 (R0.take env.max_sample_block_len) = none ∧
      env.max_sample_block_len ≤ R0.length ∧
      ∃ S togo, r = trigger_finish S (env.max_sample_block_len : Int) togo
          (List.replicate env.max_sample_block_len 0) ∧ full_node env h0 c0 p0 R0 S)
  ∨ (first_edge p0 R0 = none ∧ R0.length < env.max_sample_block_len ∧
      ∃ S, r = trigger_finish S (R0.length : Int) 0 (List.replicate R0.length 0) ∧
        end_node env h0 c0 p0 R0 S)

/-- A closure result used in the examples: a sound of four ones that starts at
`t0` with sample rate `sr`. -/
def example_sound (t0 : time_type) (sr : rate_type) : sound_type :=
  { list := snd_list.blocks [[1, 1, 1, 1]], t0 := t0, sr := sr, scale := 1, current := 0,
    logical_stop_cnt := -14 }

/-- An environment used in the examples: blocks of at most 4 samples, a
closure evaluator that returns `example_sound now 10`, and an add fetch that
hands back one sample. -/
def example_env : Env :=
  { max_sample_block_len := 4
    UNKNOWN := -14
    xleval := fun _ now => LVAL.sound (example_sound now 10)
    snd_make_normalize := fun snd => { snd with scale := 1 }
    add_fetch := fun _ susp => (susp, { block := [1], block_len := 1, terminated := false })
    susp_get_next := fun susp => ([], true, susp) }

/-- An input sound used in the examples: the given blocks, start time 5,
sample rate 10, scale 1, nothing delivered yet. -/
def example_input (bs : List (List sample_type)) : sound_type :=
  { list := snd_list.blocks bs, t0 := 5, sr := 10, scale := 1, current := 0,
    logical_stop_cnt := -14 }

/-- An environment used in the examples whose closure returns a sound that
starts a quarter of a sample period after `now`. -/
def example_env_late : Env :=
  { example_env with
    xleval := fun _ now => LVAL.sound (example_sound (now + 1 / 40) 10) }

/-- An environment used in the examples whose closure returns a sound of
sample rate 20. -/
def example_env_rate : Env :=
  { example_env with xleval := fun _ now => LVAL.sound (example_sound now 20) }

/-- An environment used in the examples whose closure does not return a
sound. -/
def example_env_nil : Env :=
  { example_env with xleval := fun _ _ => LVAL.NIL }

/-- What the caller of `trigger_fetch` gets back when the call returns: the
node and the output list node as the add fetch left them when the call went
through `susp.fetch`, as the statements of `trigger_fetch` left them
otherwise. -/
def fetch_outcome (r : fetch_result) : trigger_susp_node × snd_list_node :=
  match r.delegated with
  | some d => d
  | none => (r.susp, r.snd_list)

/-- The indices of all rising edges of a sample sequence: the samples that are
`> 0` while their predecessor is `≤ 0`, where `previous` is the predecessor of
the first sample. -/
def rising_edges : sample_type → List sample_type → List Nat
  | _, [] => []
  | previous, s :: rest =>
    if previous ≤ 0 ∧ s > 0 then 0 :: (rising_edges s rest).map (fun i => i + 1)
    else (rising_edges s rest).map (fun i => i + 1)

/-- The times at which the closure is evaluated along the chain of clones: the
node is called (at most `calls` times) until it fires, then the clone it left
behind `s1` is called until it fires, and so on, for at most `clones` nodes. -/
def trigger_chain (env : Env) (calls : Nat) : Nat → trigger_susp_node → List time_type
  | 0, _ => []
  | clones + 1, susp =>
    if (trigger_run env calls susp).ending = run_end.fired then
      match sound_susp (trigger_run env calls susp).susp.s1 with
      | some clone =>
        (trigger_run env calls susp).evals ++ trigger_chain env calls clones clone
      | none => (trigger_run env calls susp).evals
    else (trigger_run env calls susp).evals

/-- How a pass of the outer loop of `trigger_fetch` ends: through
`if (togo == 0) break;`, through the `return` of the edge branch, by reading
past the input block, or by going on to the next test of the loop
condition. -/
inductive pass_exit where
  | break_at_terminate
  | edge_return
  | fault
  | continues
  deriving DecidableEq, Repr

/-- The record of one pass of the outer loop: `cnt` on entry, then, after
`susp_check_term_samples`, `s1_cnt`, the number of samples that can be read
at `s1_ptr`, `terminate_cnt` and `susp.current`, the run length `togo` of the
pass, and how the pass ended. -/
structure loop_pass where
  cnt : Int
  s1_cnt : Int
  avail : Nat
  terminate_cnt : Int
  current : Int
  togo : Int
  leaves : pass_exit

/-- The record of a pass on the node `susp` as it is after
`susp_check_term_samples`. -/
def pass_of (env : Env) (susp : trigger_susp_node) (cnt : Int) (leaves : pass_exit) :
    loop_pass :=
  { cnt := cnt, s1_cnt := susp.s1_cnt, avail := susp.s1_ptr.length,
    terminate_cnt := susp.terminate_cnt, current := susp.susp.current,
    togo := run_length env susp cnt, leaves := leaves }

/-- The passes of the outer loop of `trigger_fetch`, in order: the same
control flow as `trigger_outer_loop`, recording each pass instead of the
result of the call. -/
def outer_loop_passes (env : Env) :
    Nat → trigger_susp_node → Int → List sample_type → List loop_pass
  | 0, _, _, _ => []
  | fuel + 1, susp, cnt, out =>
    if cnt < (env.max_sample_block_len : Int) then
      if at_terminate env (susp_check_term_samples env susp) cnt then
        [pass_of env (susp_check_term_samples env susp) cnt pass_exit.break_at_terminate]
      else if run_length env (susp_check_term_samples env susp) cnt ≠ 0 then
        match inner_loop (susp_check_term_samples env susp).previous
            (run_length env (susp_check_term_samples env susp) cnt)
            (susp_check_term_samples env susp).s1_ptr out with
        | inner_result.edge _ _ _ =>
          [pass_of env (susp_check_term_samples env susp) cnt pass_exit.edge_return]
        | inner_result.done previous out1 =>
          pass_of env (susp_check_term_samples env susp) cnt pass_exit.continues ::
            outer_loop_passes env fuel
              (advance_input (susp_check_term_samples env susp) previous
                (run_length env (susp_check_term_samples env susp) cnt))
              (cnt + run_length env (susp_check_term_samples env susp) cnt) out1
        | inner_result.fault =>
          [pass_of env (susp_check_term_samples env susp) cnt pass_exit.fault]
      else
        pass_of env (susp_check_term_samples env susp) cnt pass_exit.continues ::
          outer_loop_passes env fuel
            (advance_input (susp_check_term_samples env susp)
              (susp_check_term_samples env susp).previous 0)
            (cnt + 0) out
    else []

/-- The passes of the outer loop in a call of `trigger_fetch`. -/
def trigger_fetch_passes (env : Env) (susp : trigger_susp_node) : List loop_pass :=
  outer_loop_passes env (env.max_sample_block_len + pending_blocks susp.s1 + 2) susp 0 []

/-- The preconditions of a pass: the input block has a sample, `s1_cnt` does
not exceed what can be read at `s1_ptr`, and a known termination index is not
below `susp.current + cnt`. -/
def pass_pre (env : Env) (p : loop_pass) : Prop :=
  1 ≤ p.s1_cnt ∧ p.s1_cnt ≤ p.avail ∧
  (p.terminate_cnt = env.UNKNOWN ∨ p.current + p.cnt ≤ p.terminate_cnt)

theorem first_edge_append (p : sample_type) (xs ys : List sample_type) :
    first_edge p (xs ++ ys) =
      match first_edge p xs with
      | some i => some i
      | none => (first_edge (last_sample p xs) ys).map (fun i => i + xs.length) := by
  induction xs generalizing p with
  | nil => simp [first_edge, last_sample]
  | cons s rest ih =>
    simp only [List.cons_append, first_edge]
    by_cases h : p ≤ 0 ∧ s > 0
    · simp [h]
    · simp only [h, if_false, List.append_eq]
      rw [ih s]
      cases hfe : first_edge s rest with
      | some i => simp
      | none => simp [last_sample, Option.map_map, Function.comp_def, Nat.add_assoc]

theorem inner_loop_spec (q : List sample_type) :
    ∀ (p : sample_type) (t : Nat) (out : List sample_type), 1 ≤ t → t ≤ q.length →
    inner_loop p (t : Int) q out =
      match first_edge p (q.take t) with
      | some i => inner_result.edge (q.getD i 0) ((t : Int) - i) (out ++ List.replicate i 0)
      | none => inner_result.done (last_sample p (q.take t)) (out ++ List.replicate t 0) := by
  induction q with
  | nil => intro p t out h1 h2; simp at h2; omega
  | cons s rest ih =>
    intro p t out h1 h2
    obtain ⟨t, rfl⟩ : ∃ u, t = u + 1 := ⟨t - 1, by omega⟩
    simp only [List.take_succ_cons, first_edge, inner_loop]
    by_cases h : p ≤ 0 ∧ s > 0
    · simp [h]
    · simp only [h, if_false]
      by_cases ht : t = 0
      · subst ht
        simp [first_edge, last_sample]
      · have h3 : ((t + 1 : Nat) : Int) - 1 = (t : Int) := by push_cast; ring
        have h4 : (t : Int) ≠ 0 := by exact_mod_cast ht
        rw [h3]
        simp only [ne_eq, h4, not_false_eq_true, if_true]
        rw [ih s t (out ++ [0]) (by omega) (by simpa using h2)]
        cases hfe : first_edge s (rest.take t) with
        | some i =>
          simp only [Option.map_some']
          simp [List.replicate_succ, List.getD_cons_succ]
        | none =>
          simp [last_sample, List.replicate_succ]

theorem first_edge_lt_length (xs : List sample_type) :
    ∀ (p : sample_type) (i : Nat), first_edge p xs = some i → i < xs.length := by
  induction xs with
  | nil => intro p i h; simp [first_edge] at h
  | cons s rest ih =>
    intro p i h
    simp only [first_edge] at h
    by_cases hc : p ≤ 0 ∧ s > 0
    · simp [hc] at h; subst h; simp
    · simp only [hc, if_false, Option.map_eq_some'] at h
      obtain ⟨j, hj, rfl⟩ := h
      have := ih s j hj
      simp; omega


theorem check_more (env : Env) (susp : trigger_susp_node) (k : Nat)
    (h : in_stream env susp k) (hne : ¬ (susp.s1_ptr = [] ∧ blocks_of susp.s1 = [])) :
    in_stream env (susp_check_term_samples env susp) k ∧
    remaining_input (susp_check_term_samples env susp) = remaining_input susp ∧
    (susp_check_term_samples env susp).previous = susp.previous ∧
    (susp_check_term_samples env susp).susp = susp.susp ∧
    (susp_check_term_samples env susp).closure = susp.closure ∧
    pending_blocks (susp_check_term_samples env susp).s1 ≤ pending_blocks susp.s1 ∧
    ((susp_check_term_samples env susp).s1_ptr = [] →
      pending_blocks (susp_check_term_samples env susp).s1 < pending_blocks susp.s1) := by
  obtain ⟨hb, hc, hu, ha, hn⟩ := h
  by_cases hz : susp.s1_cnt = 0
  · have hq : susp.s1_ptr = [] := by
      rw [hc] at hz
      exact List.length_eq_zero.mp (by exact_mod_cast hz)
    cases hbs : blocks_of susp.s1 with
    | nil => exact absurd ⟨hq, hbs⟩ hne
    | cons b rest =>
      rw [hbs] at hb
      have hg : sound_get_next env susp.s1 =
          (b, false, { susp.s1 with list := snd_list.blocks rest,
                                    current := susp.s1.current + b.length }) := by
        simp only [sound_get_next, hb]
      simp only [susp_check_term_samples, hz, if_true, hg]
      refine ⟨⟨?_, ?_, ?_, ?_, ?_⟩, ?_, ?_, ?_, ?_, ?_, ?_⟩
      · simp [blocks_of]
      · simp
      · simpa using hu
      · simp only [input_cursor] at ha ⊢
        simp only [hz, sub_zero] at ha
        simp [ha]
      · simpa using hn
      · simp only [remaining_input, hq, hbs]
        simp [blocks_of]
      · simp
      · simp
      · simp
      · simp [pending_blocks, hb]
      · intro _; simp [pending_blocks, hb]
  · simp only [susp_check_term_samples, hz, if_false]
    refine ⟨⟨hb, hc, hu, ha, hn⟩, ?_⟩
    simp only [le_refl, true_and]
    intro hq
    exfalso; apply hz; rw [hc, hq]; simp

theorem check_eos (env : Env) (susp : trigger_susp_node) (k : Nat)
    (h : in_stream env susp k) (hq : susp.s1_ptr = []) (hbl : blocks_of susp.s1 = []) :
    (susp_check_term_samples env susp).s1.list = snd_list.blocks [] ∧
    (susp_check_term_samples env susp).s1_cnt = env.max_sample_block_len ∧
    (susp_check_term_samples env susp).s1_ptr = List.replicate env.max_sample_block_len 0 ∧
    (susp_check_term_samples env susp).terminate_cnt = susp.susp.current + k ∧
    input_cursor (susp_check_term_samples env susp) = susp.susp.current + k ∧
    (susp_check_term_samples env susp).previous = susp.previous ∧
    (susp_check_term_samples env susp).susp = susp.susp ∧
    (susp_check_term_samples env susp).closure = susp.closure := by
  obtain ⟨hb, hc, hu, ha, hn⟩ := h
  have hz : susp.s1_cnt = 0 := by rw [hc, hq]; simp
  have hbs : susp.s1.list = snd_list.blocks [] := by
    rw [hb, hbl]
  have hg : sound_get_next env susp.s1 =
      (List.replicate env.max_sample_block_len 0, true,
        { susp.s1 with current := susp.s1.current + env.max_sample_block_len }) := by
    simp only [sound_get_next, hbs]
  simp only [susp_check_term_samples, hz, if_true, hg]
  simp only [input_cursor, hz, sub_zero] at ha
  refine ⟨?_, ?_, ?_, ?_, ?_, ?_, ?_, ?_⟩
  · simpa using hbs
  · simp
  · simp
  · simp [min_cnt, hu, ha]
  · simp [input_cursor, ha]
  · simp
  · simp
  · simp


theorem last_sample_append (xs : List sample_type) :
    ∀ (p : sample_type) (ys : List sample_type),
    last_sample p (xs ++ ys) = last_sample (last_sample p xs) ys := by
  induction xs with
  | nil => intro p ys; simp [last_sample]
  | cons s rest ih => intro p ys; simp [last_sample, ih]

theorem first_edge_append_some (p : sample_type) (xs ys : List sample_type) (i : Nat)
    (h : first_edge p xs = some i) : first_edge p (xs ++ ys) = some i := by
  rw [first_edge_append, h]

theorem first_edge_append_none (p : sample_type) (xs ys : List sample_type)
    (h : first_edge p xs = none) :
    first_edge p (xs ++ ys) = (first_edge (last_sample p xs) ys).map (fun i => i + xs.length) := by
  rw [first_edge_append, h]

theorem run_length_unknown (env : Env) (S : trigger_susp_node) (cnt : Int)
    (h : S.terminate_cnt = env.UNKNOWN) :
    run_length env S cnt = min ((env.max_sample_block_len : Int) - cnt) S.s1_cnt ∧
    at_terminate env S cnt = false := by
  simp [run_length, at_terminate, h]


theorem advance_input_zero (S : trigger_susp_node) : advance_input S S.previous 0 = S := by
  cases S; simp [advance_input]

theorem getD_append_drop (P q B : List sample_type) (i : Nat) (hi : i < q.length) :
    (P ++ (q ++ B)).getD (P.length + i) 0 = q.getD i 0 := by
  rw [List.getD_eq_getElem?_getD, List.getD_eq_getElem?_getD]
  rw [List.getElem?_append_right (by omega)]
  simp only [Nat.add_sub_cancel_left]
  rw [List.getElem?_append_left hi]

theorem outer_loop_post (env : Env) (hok : env_ok env) (h0 : snd_susp_node) (c0 : Option Nat)
    (p0 : sample_type) (R0 : List sample_type) :
    ∀ (fuel : Nat) (susp : trigger_susp_node) (k : Nat) (togo : Int) (P : List sample_type),
    in_stream env susp k → R0 = P ++ remaining_input susp → P.length = k →
    first_edge p0 P = none → susp.previous = last_sample p0 P →
    k ≤ env.max_sample_block_len →
    (env.max_sample_block_len - k) + pending_blocks susp.s1 + 2 ≤ fuel →
    susp.susp = h0 → susp.closure = c0 →
    call_post env h0 c0 p0 R0 (trigger_outer_loop env fuel susp k togo (List.replicate k 0)) := by
  intro fuel
  induction fuel with
  | zero => intro susp k togo P _ _ _ _ _ _ hf; omega
  | succ fuel ih =>
    intro susp k togo P hin hR hP hfe hprev hk hf hh hc
    by_cases hlt : k < env.max_sample_block_len
    · have hlt' : (k : Int) < (env.max_sample_block_len : Int) := by exact_mod_cast hlt
      simp only [trigger_outer_loop, hlt', if_true]
      by_cases heos : susp.s1_ptr = [] ∧ blocks_of susp.s1 = []
      · obtain ⟨hq, hbl⟩ := heos
        obtain ⟨e1, e2, e3, e4, e4c, e5, e6, e7⟩ := check_eos env susp k hin hq hbl
        have hat : at_terminate env (susp_check_term_samples env susp) k = true := by
          simp only [at_terminate, decide_eq_true_eq, e4, e6, e2]
          refine ⟨?_, ?_, by ring⟩
          · have := hin.nonneg; have := hok.2; omega
          · have : (0:Int) ≤ min ((env.max_sample_block_len : Int) - k) env.max_sample_block_len := by
              apply le_min <;> omega
            omega
        simp only [hat, if_true]
        right; right
        have hrem : remaining_input susp = [] := by simp [remaining_input, hq, hbl]
        have hRP : R0 = P := by rw [hR, hrem]; simp
        refine ⟨by rw [hRP]; exact hfe, by rw [hRP, hP]; exact hlt,
          susp_check_term_samples env susp, ?_, ?_⟩
        · rw [hRP, hP]
        · exact ⟨e1, e2, e3, by rw [e4, hh, hRP, hP], by rw [e4c, hh, hRP, hP],
            by rw [e5, hprev, hRP], by rw [e6, hh],
            by rw [e7, hc]⟩
      · obtain ⟨m1, m2, m3, m4, m5, m6, m7⟩ := check_more env susp k hin heos
        generalize hS1 : susp_check_term_samples env susp = S1 at m1 m2 m3 m4 m5 m6 m7 ⊢
        obtain ⟨hrl, hat⟩ := run_length_unknown env S1 k m1.unknown
        have hcnt := m1.cnt_ok
        have hrl2 : run_length env S1 k =
            ((min (env.max_sample_block_len - k) S1.s1_ptr.length : Nat) : Int) := by
          rw [hrl, hcnt]; push_cast [Nat.cast_sub hk]; rfl
        generalize ht : min (env.max_sample_block_len - k) S1.s1_ptr.length = t at hrl2
        have ht1 : t ≤ env.max_sample_block_len - k := by rw [← ht]; exact Nat.min_le_left _ _
        have ht2 : t ≤ S1.s1_ptr.length := by rw [← ht]; exact Nat.min_le_right _ _
        simp only [hat, hrl2, Bool.false_eq_true, if_false]
        by_cases ht0 : t = 0
        · subst ht0
          have hq : S1.s1_ptr = [] := by
            apply List.length_eq_zero.mp
            rcases Nat.min_eq_zero_iff.mp ht with h | h
            · omega
            · exact h
          simp only [Nat.cast_zero, ne_eq, not_true_eq_false, if_false, add_zero,
            advance_input_zero]
          have := m7 hq
          exact ih S1 k 0 P m1 (by rw [m2]; exact hR) hP hfe (by rw [m3]; exact hprev) hk
            (by omega) (by rw [m4]; exact hh) (by rw [m5]; exact hc)
        · have hne : (t : Int) ≠ 0 := by exact_mod_cast ht0
          simp only [ne_eq, hne, not_false_eq_true, if_true]
          rw [inner_loop_spec S1.s1_ptr S1.previous t _ (by omega) ht2]
          have hRq : R0 = P ++ (S1.s1_ptr ++ (blocks_of S1.s1).flatten) := by
            rw [hR, ← m2]; rfl
          cases hfe2 : first_edge S1.previous (S1.s1_ptr.take t) with
          | some i =>
            simp only
            have hi : i < t := by
              have := first_edge_lt_length _ _ _ hfe2
              simp at this; omega
            left
            refine ⟨k + i, close_off_block S1 (S1.s1_ptr.getD i 0) k t (t - i), ?_, by omega,
              ?_, ?_⟩
            · rw [hRq, first_edge_append_none _ _ _ hfe, ← hprev, ← m3]
              have : first_edge S1.previous (S1.s1_ptr ++ (blocks_of S1.s1).flatten) = some i := by
                conv_lhs => rw [← List.take_append_drop t S1.s1_ptr, List.append_assoc]
                exact first_edge_append_some _ _ _ _ hfe2
              rw [this, hP]; simp [Nat.add_comm]
            · simp only [trigger_edge, ← List.replicate_add]
              congr 1
              push_cast; ring
            · refine ⟨⟨?_, ?_, ?_, ?_, ?_⟩, ?_, ?_, ?_, ?_, ?_⟩
              · exact m1.blocks
              · simp only [close_off_block, List.length_drop, hcnt]
                have : ((t : Int) - (t - i)).toNat = i := by
                  have : (t : Int) - (t - i) = (i : Int) := by ring
                  rw [this]; simp
                rw [this]; push_cast [Nat.cast_sub (by omega : i ≤ S1.s1_ptr.length)]; ring
              · exact m1.unknown
              · have ha := m1.aligned
                simp only [input_cursor, close_off_block] at ha ⊢
                push_cast
                linarith
              · have := m1.nonneg
                simp only [close_off_block]
                omega
              · have htn : ((t : Int) - (t - i)).toNat = i := by
                  have : (t : Int) - (t - i) = (i : Int) := by ring
                  rw [this]; simp
                simp only [remaining_input, close_off_block, htn]
                have hsplit : R0 = (P ++ S1.s1_ptr.take i) ++
                    (S1.s1_ptr.drop i ++ (blocks_of S1.s1).flatten) := by
                  rw [hRq]
                  conv_lhs => rw [← List.take_append_drop i S1.s1_ptr]
                  simp only [List.append_assoc]
                rw [hsplit]
                exact (List.drop_left' (by simp; omega)).symm
              · simp only [close_off_block]
                rw [hRq, ← hP]
                exact (getD_append_drop P _ _ i (by omega)).symm
              · have htn : ((t : Int) - (t - i)).toNat = i := by
                  have : (t : Int) - (t - i) = (i : Int) := by ring
                  rw [this]; simp
                simp only [close_off_block, htn, List.head?_drop]
                rw [hRq, ← hP, getD_append_drop P _ _ i (by omega),
                  List.getD_eq_getElem?_getD, List.getElem?_eq_getElem (by omega)]
                rfl
              · simp only [close_off_block, m4, hh]
                congr 1
                push_cast; ring
              · simp only [close_off_block, m5, hc]
          | none =>
            simp only
            have hcast : (k : Int) + (t : Int) = ((k + t : Nat) : Int) := by push_cast; ring
            rw [hcast, ← List.replicate_add]
            apply ih _ (k + t) t (P ++ S1.s1_ptr.take t)
            · refine ⟨m1.blocks, ?_, m1.unknown, ?_, m1.nonneg⟩
              · simp only [advance_input, Int.toNat_ofNat, List.length_drop, hcnt]
                push_cast [Nat.cast_sub ht2]; ring
              · have ha := m1.aligned
                simp only [input_cursor, advance_input] at ha ⊢
                push_cast
                linarith
            · rw [hRq]
              simp only [remaining_input, advance_input, Int.toNat_ofNat]
              conv_lhs => rw [← List.take_append_drop t S1.s1_ptr]
              simp only [List.append_assoc]
            · simp; omega
            · rw [first_edge_append_none _ _ _ hfe, ← hprev, ← m3, hfe2]; rfl
            · simp only [advance_input]
              rw [last_sample_append, ← hprev, ← m3]
            · omega
            · have : pending_blocks (advance_input S1 (last_sample S1.previous (List.take t S1.s1_ptr)) t).s1
                  = pending_blocks S1.s1 := rfl
              rw [this]; omega
            · simp only [advance_input, m4, hh]
            · simp only [advance_input, m5, hc]
    · have hkm : k = env.max_sample_block_len := by omega
      have hlt' : ¬ ((k : Int) < (env.max_sample_block_len : Int)) := by
        intro h; exact hlt (by exact_mod_cast h)
      simp only [trigger_outer_loop, hlt', if_false]
      right; left
      have hRk : R0.take env.max_sample_block_len = P := by
        rw [hR]; exact List.take_left' (by omega)
      have hRd : R0.drop env.max_sample_block_len = remaining_input susp := by
        rw [hR]; exact List.drop_left' (by omega)
      refine ⟨by rw [hRk]; exact hfe, ?_, susp, togo, by rw [hkm], ?_⟩
      · rw [hR]; simp; omega
      · exact ⟨by rw [← hkm]; exact hin, hRd.symm, by rw [hRk]; exact hprev, hh, hc⟩

theorem fetch_post (env : Env) (hok : env_ok env) (susp : trigger_susp_node)
    (h : in_stream env susp 0) :
    call_post env susp.susp susp.closure susp.previous (remaining_input susp)
      (trigger_fetch env susp) := by
  have := outer_loop_post env hok susp.susp susp.closure susp.previous (remaining_input susp)
    (env.max_sample_block_len + pending_blocks susp.s1 + 2) susp 0 0 [] h (by simp) rfl
    (by simp [first_edge]) (by simp [last_sample]) (Nat.zero_le _) (by omega) rfl rfl
  simpa [trigger_fetch] using this

theorem fetch_at_end (env : Env) (hok : env_ok env) (susp : trigger_susp_node)
    (h : at_end env susp) :
    trigger_fetch env susp =
      { status := fetch_status.returned, susp := susp, snd_list := snd_list_terminate,
        evals := [], delegated := none } := by
  obtain ⟨hb, hc, hp, hk, hn⟩ := h
  obtain ⟨hm, hu⟩ := hok
  have hz : susp.s1_cnt ≠ 0 := by rw [hc]; exact_mod_cast (by omega : env.max_sample_block_len ≠ 0)
  have hchk : susp_check_term_samples env susp = susp := by
    simp [susp_check_term_samples, hz]
  have hat : at_terminate env susp 0 = true := by
    simp only [at_terminate, decide_eq_true_eq, hk, hc]
    refine ⟨by omega, ?_, by ring⟩
    simp
  have hlt : (0 : Int) < (env.max_sample_block_len : Int) := by exact_mod_cast hm
  simp [trigger_fetch, trigger_outer_loop, hlt, hchk, hat, trigger_finish]

theorem finish_full (env : Env) (hok : env_ok env) (S : trigger_susp_node) (togo : Int)
    (out : List sample_type) :
    trigger_finish S (env.max_sample_block_len : Int) togo out =
      { status := fetch_status.returned,
        susp := advance_current S env.max_sample_block_len,
        snd_list := { block := out, block_len := env.max_sample_block_len, terminated := false },
        evals := [], delegated := none } := by
  have : (env.max_sample_block_len : Int) ≠ 0 := by
    have := hok.1; exact_mod_cast (by omega : env.max_sample_block_len ≠ 0)
  simp [trigger_finish, this]

theorem full_next (env : Env) (h0 : snd_susp_node) (c0 : Option Nat) (p0 : sample_type)
    (R0 : List sample_type) (S : trigger_susp_node) (hS : full_node env h0 c0 p0 R0 S) :
    in_stream env (advance_current S env.max_sample_block_len) 0 ∧
    remaining_input (advance_current S env.max_sample_block_len) =
      R0.drop env.max_sample_block_len ∧
    (advance_current S env.max_sample_block_len).previous =
      last_sample p0 (R0.take env.max_sample_block_len) ∧
    (advance_current S env.max_sample_block_len).susp =
      { h0 with current := h0.current + env.max_sample_block_len } ∧
    (advance_current S env.max_sample_block_len).closure = c0 := by
  obtain ⟨⟨hb, hc, hu, ha, hn⟩, h2, h3, h4, h5⟩ := hS
  refine ⟨⟨hb, hc, hu, ?_, ?_⟩, h2, h3, ?_, h5⟩
  · simp only [input_cursor, advance_current] at ha ⊢
    push_cast; linarith
  · simp only [advance_current]; omega
  · simp only [advance_current, h4]

theorem end_next (env : Env) (h0 : snd_susp_node) (c0 : Option Nat) (p0 : sample_type)
    (R0 : List sample_type) (S : trigger_susp_node) (hS : end_node env h0 c0 p0 R0 S)
    (hn : 0 ≤ h0.current) :
    at_end env (advance_current S R0.length) ∧
    (advance_current S R0.length).susp = { h0 with current := h0.current + R0.length } ∧
    (advance_current S R0.length).closure = c0 ∧
    (advance_current S R0.length).previous = last_sample p0 R0 := by
  obtain ⟨hb, hc, hp, hk, _, hpr, hh, hcl⟩ := hS
  refine ⟨⟨hb, hc, hp, ?_, ?_⟩, ?_, hcl, hpr⟩
  · simp only [advance_current, hk, hh]
  · simp only [advance_current, hh]; omega
  · simp only [advance_current, hh]

theorem fire_evals (env : Env) (A : trigger_susp_node) (cnt : Int) (out : List sample_type) :
    (trigger_fire env A cnt out).evals = [now_of A] ∧
    (trigger_fire env A cnt out).snd_list.block = out ∧
    (trigger_fire env A cnt out).snd_list.block_len = cnt ∧
    (trigger_fire env A cnt out).snd_list.terminated = false := by
  unfold trigger_fire
  split
  · split <;> simp
  · simp

theorem transmuted_fetch (env : Env) (A : trigger_susp_node) (snd : sound_type) :
    ((transmuted env A snd).susp.fetch = fetch_routine.add_s1_nn_fetch ∨
     (transmuted env A snd).susp.fetch = fetch_routine.add_s1_s2_nn_fetch) ∧
    (transmuted env A snd).closure = none := by
  unfold transmuted select_add_fetch
  split <;> simp

theorem fire_returned (env : Env) (A : trigger_susp_node) (cnt : Int) (out : List sample_type)
    (h : (trigger_fire env A cnt out).status = fetch_status.returned) :
    ∃ snd, env.xleval A.closure (now_of A) = LVAL.sound snd ∧ A.susp.sr = snd.sr ∧
      (trigger_fire env A cnt out).susp = transmuted env A snd ∧
      (trigger_fire env A cnt out).delegated =
        (if cnt = 0 then
          some (env.add_fetch (transmuted env A snd).susp.fetch (transmuted env A snd))
        else none) := by
  unfold trigger_fire at h ⊢
  split at h
  · rename_i snd hx
    split at h
    · simp at h
    · rename_i hsr
      refine ⟨snd, hx, ?_, ?_, ?_⟩
      · simpa [convert_to_add, sound_create, sound_copy] using hsr
      · simp [hx, hsr]
      · simp [hx, hsr]
  · simp at h

theorem first_edge_split_some (p : sample_type) (R : List sample_type) (m k : Nat)
    (h : first_edge p R = some k) :
    (k < m → first_edge p (R.take m) = some k) ∧
    (m ≤ k → first_edge p (R.take m) = none ∧
      first_edge (last_sample p (R.take m)) (R.drop m) = some (k - m) ∧ m ≤ R.length) := by
  have hk := first_edge_lt_length R p k h
  have hs := first_edge_append p (R.take m) (R.drop m)
  rw [List.take_append_drop, h] at hs
  cases hfe : first_edge p (R.take m) with
  | some i =>
    rw [hfe] at hs
    simp only [Option.some.injEq] at hs
    have hi := first_edge_lt_length _ _ _ hfe
    simp only [List.length_take] at hi
    subst hs
    exact ⟨fun _ => rfl, fun hm => by omega⟩
  | none =>
    rw [hfe] at hs
    simp only at hs
    cases hfe2 : first_edge (last_sample p (R.take m)) (R.drop m) with
    | none => rw [hfe2] at hs; simp at hs
    | some i =>
      rw [hfe2] at hs
      simp only [Option.map_some', Option.some.injEq, List.length_take] at hs
      constructor
      · intro hkm
        have : min m R.length = m := by omega
        omega
      · intro hmk
        have : min m R.length = m := by omega
        refine ⟨rfl, ?_, by omega⟩
        congr 1; omega

theorem first_edge_split_none (p : sample_type) (R : List sample_type) (m : Nat)
    (h : first_edge p R = none) :
    first_edge p (R.take m) = none ∧
    first_edge (last_sample p (R.take m)) (R.drop m) = none := by
  have hs := first_edge_append p (R.take m) (R.drop m)
  rw [List.take_append_drop, h] at hs
  cases hfe : first_edge p (R.take m) with
  | some i => rw [hfe] at hs; simp at hs
  | none =>
    rw [hfe] at hs
    simp only at hs
    refine ⟨rfl, ?_⟩
    cases hfe2 : first_edge (last_sample p (R.take m)) (R.drop m) with
    | none => rfl
    | some i => rw [hfe2] at hs; simp at hs

theorem call_edge (env : Env) (hok : env_ok env) (susp : trigger_susp_node)
    (h : in_stream env susp 0) (k : Nat)
    (hk : first_edge susp.previous (remaining_input susp) = some k)
    (hlt : k < env.max_sample_block_len) :
    ∃ A, trigger_fetch env susp = trigger_fire env A (k : Int) (List.replicate k 0) ∧
      edge_node env susp.susp susp.closure (remaining_input susp) k A := by
  rcases fetch_post env hok susp h with ⟨j, A, h1, _, h3, h4⟩ | ⟨h1, _, _⟩ | ⟨h1, _, _⟩
  · rw [hk] at h1
    simp only [Option.some.injEq] at h1
    subst h1
    exact ⟨A, h3, h4⟩
  · rw [(first_edge_split_some _ _ env.max_sample_block_len k hk).1 hlt] at h1
    simp at h1
  · rw [hk] at h1; simp at h1

theorem call_full (env : Env) (hok : env_ok env) (susp : trigger_susp_node)
    (h : in_stream env susp 0)
    (hk : first_edge susp.previous
      ((remaining_input susp).take env.max_sample_block_len) = none)
    (hlen : env.max_sample_block_len ≤ (remaining_input susp).length) :
    ∃ S, trigger_fetch env susp =
      { status := fetch_status.returned,
        susp := advance_current S env.max_sample_block_len,
        snd_list := { block := List.replicate env.max_sample_block_len 0,
                      block_len := env.max_sample_block_len, terminated := false },
        evals := [], delegated := none } ∧
      full_node env susp.susp susp.closure susp.previous (remaining_input susp) S := by
  rcases fetch_post env hok susp h with ⟨j, A, h1, h2, _, _⟩ | ⟨_, _, S, togo, h3, h4⟩ | ⟨_, h2, _⟩
  · rw [(first_edge_split_some _ _ env.max_sample_block_len j h1).1 h2] at hk
    simp at hk
  · exact ⟨S, by rw [h3, finish_full env hok], h4⟩
  · omega

theorem call_end (env : Env) (hok : env_ok env) (susp : trigger_susp_node)
    (h : in_stream env susp 0)
    (hk : first_edge susp.previous (remaining_input susp) = none)
    (hlen : (remaining_input susp).length < env.max_sample_block_len) :
    ∃ S, trigger_fetch env susp =
      trigger_finish S ((remaining_input susp).length : Int) 0
        (List.replicate (remaining_input susp).length 0) ∧
      end_node env susp.susp susp.closure susp.previous (remaining_input susp) S := by
  rcases fetch_post env hok susp h with ⟨j, A, h1, _, _, _⟩ | ⟨_, h2, _⟩ | ⟨_, _, S, h3, h4⟩
  · rw [hk] at h1; simp at h1
  · omega
  · exact ⟨S, h3, h4⟩

theorem run_fire (env : Env) (calls : Nat) (susp A : trigger_susp_node) (k : Nat)
    (htf : trigger_fetch env susp = trigger_fire env A (k : Int) (List.replicate k 0)) :
    (trigger_run env (calls + 1) susp).blocks.flatten ++
        (trigger_run env (calls + 1) susp).unreturned = List.replicate k 0 ∧
    (trigger_run env (calls + 1) susp).evals = [now_of A] ∧
    ((trigger_run env (calls + 1) susp).ending = run_end.fired ∨
      (trigger_run env (calls + 1) susp).ending = run_end.failed) ∧
    ((trigger_run env (calls + 1) susp).ending = run_end.fired →
      (trigger_run env (calls + 1) susp).unreturned = []) ∧
    ((trigger_run env (calls + 1) susp).ending = run_end.fired ↔
      (trigger_fetch env susp).status = fetch_status.returned) := by
  obtain ⟨e1, e2, e3, e4⟩ := fire_evals env A (k : Int) (List.replicate k 0)
  by_cases hst : (trigger_fire env A (k : Int) (List.replicate k 0)).status = fetch_status.returned
  · obtain ⟨snd, hx, hsr, hsusp, hdel⟩ := fire_returned env A _ _ hst
    have hf : (trigger_fire env A (k : Int) (List.replicate k 0)).susp.susp.fetch ≠
        fetch_routine.trigger_fetch := by
      rw [hsusp]
      rcases (transmuted_fetch env A snd).1 with h | h <;> rw [h] <;> simp
    simp only [trigger_run, htf, hst, ne_eq, not_true_eq_false, if_false, hf,
      not_false_eq_true, if_true, e1, List.append_nil, true_or, implies_true, and_true,
      true_and]
    simp only [own_block, hst, e4, hdel, true_and]
    by_cases hk : k = 0
    · subst hk; simp
    · have : (k : Int) ≠ 0 := by exact_mod_cast hk
      simp [this, e2]
  · simp only [trigger_run, htf, hst, ne_eq, not_false_eq_true, if_true, e1, e2,
      List.flatten_nil, List.nil_append, or_true, true_and]
    simp

theorem run_to_edge (env : Env) (hok : env_ok env) :
    ∀ (calls : Nat) (susp : trigger_susp_node) (k : Nat),
    in_stream env susp 0 → susp.susp.fetch = fetch_routine.trigger_fetch →
    first_edge susp.previous (remaining_input susp) = some k → k < calls →
    (trigger_run env calls susp).blocks.flatten ++
        (trigger_run env calls susp).unreturned = List.replicate k 0 ∧
    (trigger_run env calls susp).evals =
      [susp.susp.t0 + ((susp.susp.current + k : Int) : Rat) / susp.susp.sr] ∧
    ((trigger_run env calls susp).ending = run_end.fired ∨
      (trigger_run env calls susp).ending = run_end.failed) ∧
    ((trigger_run env calls susp).ending = run_end.fired →
      (trigger_run env calls susp).unreturned = []) := by
  intro calls
  induction calls with
  | zero => intro susp k _ _ _ h; omega
  | succ calls ih =>
    intro susp k hin hfetch hfe hk
    by_cases hlt : k < env.max_sample_block_len
    · obtain ⟨A, htf, hA⟩ := call_edge env hok susp hin k hfe hlt
      obtain ⟨r1, r2, r3, r4, _⟩ := run_fire env calls susp A k htf
      refine ⟨r1, ?_, r3, r4⟩
      rw [r2]
      simp only [now_of, hA.header]
    · have hge : env.max_sample_block_len ≤ k := by omega
      obtain ⟨f1, f2, f3⟩ := (first_edge_split_some _ _ env.max_sample_block_len k hfe).2 hge
      obtain ⟨S, htf, hS⟩ := call_full env hok susp hin f1 f3
      obtain ⟨n1, n2, n3, n4, n5⟩ := full_next env _ _ _ _ S hS
      have hm := hok.1
      generalize advance_current S env.max_sample_block_len = N at htf n1 n2 n3 n4 n5
      have hNf : N.susp.fetch = fetch_routine.trigger_fetch := by rw [n4]; exact hfetch
      obtain ⟨i1, i2, i3, i4⟩ := ih N (k - env.max_sample_block_len) n1 hNf
        (by rw [n2, n3]; exact f2) (by omega)
      simp only [trigger_run, htf, ne_eq, not_true_eq_false, if_false, hNf,
        Bool.false_eq_true, List.flatten_cons, List.nil_append, List.append_assoc]
      refine ⟨?_, ?_, i3, i4⟩
      · rw [i1, ← List.replicate_add]
        congr 1; omega
      · rw [i2, n4]
        simp only
        congr 2
        push_cast [Nat.cast_sub hge]
        ring

theorem check_frame (env : Env) (susp : trigger_susp_node) :
    (susp_check_term_samples env susp).susp = susp.susp ∧
    (susp_check_term_samples env susp).closure = susp.closure := by
  unfold susp_check_term_samples
  split
  · split <;> exact ⟨rfl, rfl⟩
  · exact ⟨rfl, rfl⟩

theorem finish_any (S : trigger_susp_node) (cnt togo : Int) (out : List sample_type) :
    (trigger_finish S cnt togo out).evals = [] ∧
    (trigger_finish S cnt togo out).delegated = none ∧
    (trigger_finish S cnt togo out).status = fetch_status.returned ∧
    (trigger_finish S cnt togo out).susp.closure = S.closure ∧
    (trigger_finish S cnt togo out).susp.susp.fetch = S.susp.fetch := by
  unfold trigger_finish
  split <;> simp [advance_current]

/-- What every call of the outer loop amounts to, whatever the node: either it
reaches `trigger_fire` on a node that has the closure and header of the
original (with `susp.current` advanced by the samples computed), or it ends
without evaluating the closure and without error. -/
theorem outer_loop_any (env : Env) :
    ∀ (fuel : Nat) (susp : trigger_susp_node) (cnt togo : Int) (out : List sample_type),
    (∃ A cnt1 out1, trigger_outer_loop env fuel susp cnt togo out = trigger_fire env A cnt1 out1 ∧
        A.closure = susp.closure ∧
        A.susp = { susp.susp with current := susp.susp.current + cnt1 })
    ∨ ((trigger_outer_loop env fuel susp cnt togo out).evals = [] ∧
       (trigger_outer_loop env fuel susp cnt togo out).delegated = none ∧
       (trigger_outer_loop env fuel susp cnt togo out).status ≠ fetch_status.xlerror ∧
       (trigger_outer_loop env fuel susp cnt togo out).status ≠ fetch_status.xlfail ∧
       (trigger_outer_loop env fuel susp cnt togo out).susp.closure = susp.closure ∧
       (trigger_outer_loop env fuel susp cnt togo out).susp.susp.fetch = susp.susp.fetch) := by
  intro fuel
  induction fuel with
  | zero =>
    intro susp cnt togo out
    right
    simp [trigger_outer_loop]
  | succ fuel ih =>
    intro susp cnt togo out
    obtain ⟨c1, c2⟩ := check_frame env susp
    unfold trigger_outer_loop
    split
    · split
      · right
        obtain ⟨f1, f2, f3, f4, f5⟩ := finish_any (susp_check_term_samples env susp) cnt 0 out
        refine ⟨f1, f2, by rw [f3]; simp, by rw [f3]; simp, by rw [f4, c2], by rw [f5, c1]⟩
      · split
        · split
          · rename_i s n out1 _
            left
            refine ⟨close_off_block (susp_check_term_samples env susp) s cnt
              (run_length env (susp_check_term_samples env susp) cnt) n, _, out1, rfl, ?_, ?_⟩
            · simp only [close_off_block, c2]
            · simp only [close_off_block, c1]
          · rename_i previous out1 _
            rcases ih (advance_input (susp_check_term_samples env susp) previous
              (run_length env (susp_check_term_samples env susp) cnt))
              (cnt + run_length env (susp_check_term_samples env susp) cnt)
              (run_length env (susp_check_term_samples env susp) cnt) out1 with
              ⟨A, cnt1, out2, h1, h2, h3⟩ | ⟨h1, h2, h3, h4, h5, h6⟩
            · left
              exact ⟨A, cnt1, out2, h1, by rw [h2]; simp only [advance_input, c2],
                by rw [h3]; simp only [advance_input, c1]⟩
            · right
              exact ⟨h1, h2, h3, h4, by rw [h5]; simp only [advance_input, c2],
                by rw [h6]; simp only [advance_input, c1]⟩
          · right
            simp [c1, c2]
        · rcases ih (advance_input (susp_check_term_samples env susp)
              (susp_check_term_samples env susp).previous 0) (cnt + 0) 0 out with
              ⟨A, cnt1, out2, h1, h2, h3⟩ | ⟨h1, h2, h3, h4, h5, h6⟩
          · left
            exact ⟨A, cnt1, out2, h1, by rw [h2]; simp only [advance_input, c2],
              by rw [h3]; simp only [advance_input, c1]⟩
          · right
            exact ⟨h1, h2, h3, h4, by rw [h5]; simp only [advance_input, c2],
              by rw [h6]; simp only [advance_input, c1]⟩
    · right
      obtain ⟨f1, f2, f3, f4, f5⟩ := finish_any susp cnt togo out
      exact ⟨f1, f2, by rw [f3]; simp, by rw [f3]; simp, f4, f5⟩

theorem fetch_any (env : Env) (susp : trigger_susp_node) :
    (∃ A cnt1 out1, trigger_fetch env susp = trigger_fire env A cnt1 out1 ∧
        A.closure = susp.closure ∧
        A.susp = { susp.susp with current := susp.susp.current + cnt1 })
    ∨ ((trigger_fetch env susp).evals = [] ∧
       (trigger_fetch env susp).delegated = none ∧
       (trigger_fetch env susp).status ≠ fetch_status.xlerror ∧
       (trigger_fetch env susp).status ≠ fetch_status.xlfail ∧
       (trigger_fetch env susp).susp.closure = susp.closure ∧
       (trigger_fetch env susp).susp.susp.fetch = susp.susp.fetch) :=
  outer_loop_any env _ susp 0 0 []

theorem transmuted_header (env : Env) (A : trigger_susp_node) (snd : sound_type) :
    (transmuted env A snd).susp.current = A.susp.current ∧
    (transmuted env A snd).susp.t0 = A.susp.t0 ∧
    (transmuted env A snd).susp.sr = A.susp.sr := by
  unfold transmuted select_add_fetch
  split <;> simp [convert_to_add]

theorem fire_header (env : Env) (A : trigger_susp_node) (cnt : Int) (out : List sample_type) :
    (trigger_fire env A cnt out).susp.susp.current = A.susp.current ∧
    (trigger_fire env A cnt out).susp.susp.t0 = A.susp.t0 ∧
    (trigger_fire env A cnt out).susp.susp.sr = A.susp.sr := by
  unfold trigger_fire
  split
  · split
    · simp [convert_to_add]
    · exact transmuted_header env A _
  · simp

theorem fire_status (env : Env) (A : trigger_susp_node) (cnt : Int) (out : List sample_type) :
    ((trigger_fire env A cnt out).status = fetch_status.xlerror ↔
      ∀ snd, env.xleval A.closure (now_of A) ≠ LVAL.sound snd) ∧
    (∀ snd, env.xleval A.closure (now_of A) = LVAL.sound snd →
      (snd.sr ≠ A.susp.sr → (trigger_fire env A cnt out).status = fetch_status.xlfail ∧
        (trigger_fire env A cnt out).delegated = none) ∧
      (snd.sr = A.susp.sr → (trigger_fire env A cnt out).status = fetch_status.returned)) ∧
    ((trigger_fire env A cnt out).status = fetch_status.xlfail →
      ∃ snd, env.xleval A.closure (now_of A) = LVAL.sound snd ∧ snd.sr ≠ A.susp.sr) ∧
    ((trigger_fire env A cnt out).status = fetch_status.xlerror →
      (trigger_fire env A cnt out).delegated = none ∧
      (trigger_fire env A cnt out).susp = A) ∧
    (trigger_fire env A cnt out).status ≠ fetch_status.fault ∧
    (trigger_fire env A cnt out).status ≠ fetch_status.no_progress := by
  unfold trigger_fire
  split
  · rename_i snd hx
    have hsr : (convert_to_add env A (now_of A) snd).s1.sr = A.susp.sr := rfl
    have hcp : (sound_copy snd).sr = snd.sr := rfl
    by_cases h : A.susp.sr = snd.sr
    · simp only [hx]
      simp [hsr, hcp, h]
    · have h2 : snd.sr ≠ A.susp.sr := fun e => h e.symm
      simp only [hx]
      simp [hsr, hcp, h, h2]
  · rename_i hx
    refine ⟨?_, ?_, ?_, ?_, ?_, ?_⟩
    · simp only [true_iff]
      intro snd hs
      exact hx snd hs
    · intro snd hs
      exact absurd hs (hx snd)
    · simp
    · simp
    · simp
    · simp

theorem init_in_stream (env : Env) (s1 : sound_type) (closure : Option Nat)
    (bs : List (List sample_type)) (node : trigger_susp_node)
    (hs1 : s1.list = snd_list.blocks bs) (hscale : s1.scale = 1) (hcur : s1.current = 0)
    (hnode : sound_susp (snd_make_trigger env s1 closure) = some node) :
    in_stream env node 0 ∧ remaining_input node = bs.flatten ∧ node.previous = 0 ∧
    node.susp.fetch = fetch_routine.trigger_fetch ∧ node.susp.t0 = s1.t0 ∧
    node.susp.sr = s1.sr ∧ node.susp.current = 0 ∧ node.closure = closure := by
  simp only [snd_make_trigger, sound_create, sound_susp, Option.some.injEq] at hnode
  subst hnode
  have hin : trigger_input env s1 = s1 := by simp [trigger_input, hscale]
  refine ⟨⟨?_, ?_, ?_, ?_, ?_⟩, ?_, ?_, ?_, ?_, ?_, ?_, ?_⟩ <;>
    simp [trigger_susp_init, hin, blocks_of, hs1, input_cursor, hcur, remaining_input]


theorem call_edge_summary (env : Env) (hok : env_ok env) (susp : trigger_susp_node)
    (hin : in_stream env susp 0) (j : Nat)
    (hedge : first_edge susp.previous (remaining_input susp) = some j)
    (hj : j < env.max_sample_block_len) :
    (trigger_fetch env susp).susp.susp.current = susp.susp.current + j ∧
    (trigger_fetch env susp).snd_list.block = List.replicate j 0 ∧
    (trigger_fetch env susp).snd_list.block_len = j ∧
    (trigger_fetch env susp).evals =
      [susp.susp.t0 + ((susp.susp.current + j : Int) : Rat) / susp.susp.sr] := by
  obtain ⟨A, htf, hA⟩ := call_edge env hok susp hin j hedge hj
  obtain ⟨e1, e2, e3, _⟩ := fire_evals env A (j : Int) (List.replicate j 0)
  obtain ⟨g1, _, _⟩ := fire_header env A (j : Int) (List.replicate j 0)
  rw [htf]
  refine ⟨by rw [g1, hA.header], e2, e3, ?_⟩
  rw [e1]
  simp only [now_of, hA.header]

theorem example_node_in_stream (env : Env) (bs : List (List sample_type)) :
    in_stream env (trigger_susp_init env (example_input bs) (some 0)) 0 ∧
    remaining_input (trigger_susp_init env (example_input bs) (some 0)) = bs.flatten ∧
    (trigger_susp_init env (example_input bs) (some 0)).previous = 0 ∧
    (trigger_susp_init env (example_input bs) (some 0)).susp.fetch
      = fetch_routine.trigger_fetch ∧
    (trigger_susp_init env (example_input bs) (some 0)).susp.t0 = 5 ∧
    (trigger_susp_init env (example_input bs) (some 0)).susp.sr = 10 ∧
    (trigger_susp_init env (example_input bs) (some 0)).susp.current = 0 ∧
    (trigger_susp_init env (example_input bs) (some 0)).closure = some 0 :=
  init_in_stream env (example_input bs) (some 0) bs _ rfl rfl rfl rfl

theorem ROUNDBIG_pos_iff (x : Rat) : 0 < ROUNDBIG x ↔ 1 / 2 ≤ x := by
  unfold ROUNDBIG
  generalize hy : x + 1 / 2 = y
  have hx : 1 / 2 ≤ x ↔ 1 ≤ y := by rw [← hy]; constructor <;> intro h <;> linarith
  rw [hx, Rat.le_def]
  simp only [Rat.num_one, one_mul, Rat.den_one, Nat.cast_one, mul_one]
  have hd : (0 : Int) < y.den := by exact_mod_cast y.den_pos
  by_cases hn : 0 ≤ y.num
  · rw [Int.tdiv_eq_ediv hn (le_of_lt hd)]
    constructor
    · intro h
      have : (1 : Int) ≤ y.num / y.den := h
      simpa using (Int.le_ediv_iff_mul_le hd).mp this
    · intro h
      have : (1 : Int) ≤ y.num / y.den := (Int.le_ediv_iff_mul_le hd).mpr (by simpa using h)
      exact this
  · have hneg : y.num = -(-y.num) := by ring
    constructor
    · intro h
      rw [hneg, Int.neg_tdiv] at h
      have := Int.tdiv_nonneg (by omega : 0 ≤ -y.num) (le_of_lt hd)
      omega
    · intro h; omega


theorem transmuted_select (env : Env) (A : trigger_susp_node) (snd : sound_type) :
    (transmuted env A snd).susp.fetch =
      if 1 / 2 ≤ ((normalized_s2 env snd).t0 - now_of A) * A.susp.sr then
        fetch_routine.add_s1_nn_fetch
      else fetch_routine.add_s1_s2_nn_fetch := by
  have hsr : (convert_to_add env A (now_of A) snd).s1.sr = A.susp.sr := rfl
  unfold transmuted select_add_fetch
  simp only [sound_copy, hsr, gt_iff_lt, ROUNDBIG_pos_iff]
  split <;> rfl

/-- What a call that evaluated the closure at `now` amounts to, whatever the
node: it is `trigger_fire` on a node with the closure and header of the
original whose time is `now`. -/
theorem fetch_fired (env : Env) (susp : trigger_susp_node) (now : time_type)
    (hev : (trigger_fetch env susp).evals = [now]) :
    ∃ A cnt1 out1, trigger_fetch env susp = trigger_fire env A cnt1 out1 ∧
      A.closure = susp.closure ∧
      A.susp = { susp.susp with current := susp.susp.current + cnt1 } ∧ now_of A = now := by
  rcases fetch_any env susp with ⟨A, cnt1, out1, h1, h2, h3⟩ | ⟨h1, _⟩
  · refine ⟨A, cnt1, out1, h1, h2, h3, ?_⟩
    rw [h1, (fire_evals env A cnt1 out1).1] at hev
    simpa using hev
  · rw [h1] at hev; simp at hev

theorem fetch_select (env : Env) (susp : trigger_susp_node) (now : time_type)
    (snd : sound_type) (hev : (trigger_fetch env susp).evals = [now])
    (hx : env.xleval susp.closure now = LVAL.sound snd)
    (hst : (trigger_fetch env susp).status = fetch_status.returned) :
    (trigger_fetch env susp).susp.susp.fetch =
      if 1 / 2 ≤ ((normalized_s2 env snd).t0 - now) * susp.susp.sr then
        fetch_routine.add_s1_nn_fetch
      else fetch_routine.add_s1_s2_nn_fetch := by
  obtain ⟨A, cnt1, out1, h1, h2, h3, h4⟩ := fetch_fired env susp now hev
  rw [h1] at hst ⊢
  obtain ⟨snd1, hx1, _, hsusp, _⟩ := fire_returned env A cnt1 out1 hst
  rw [h2, h4, hx] at hx1
  simp only [LVAL.sound.injEq] at hx1
  subst hx1
  rw [hsusp, transmuted_select, h4, h3]

theorem call_edge_status (env : Env) (hok : env_ok env) (susp : trigger_susp_node)
    (hin : in_stream env susp 0) (j : Nat)
    (hedge : first_edge susp.previous (remaining_input susp) = some j)
    (hj : j < env.max_sample_block_len) :
    ((trigger_fetch env susp).status = fetch_status.xlerror ↔
      ∀ snd, env.xleval susp.closure
        (susp.susp.t0 + ((susp.susp.current + j : Int) : Rat) / susp.susp.sr)
          ≠ LVAL.sound snd) ∧
    (∀ snd, env.xleval susp.closure
        (susp.susp.t0 + ((susp.susp.current + j : Int) : Rat) / susp.susp.sr)
          = LVAL.sound snd →
      (snd.sr ≠ susp.susp.sr → (trigger_fetch env susp).status = fetch_status.xlfail) ∧
      (snd.sr = susp.susp.sr → (trigger_fetch env susp).status = fetch_status.returned)) := by
  obtain ⟨A, htf, hA⟩ := call_edge env hok susp hin j hedge hj
  have hnow : now_of A =
      susp.susp.t0 + ((susp.susp.current + j : Int) : Rat) / susp.susp.sr := by
    simp only [now_of, hA.header]
  have hsr : A.susp.sr = susp.susp.sr := by rw [hA.header]
  obtain ⟨s1, s2, _⟩ := fire_status env A (j : Int) (List.replicate j 0)
  rw [htf, ← hnow, ← hA.closure, ← hsr]
  refine ⟨s1, ?_⟩
  intro snd hs
  exact ⟨fun h => ((s2 snd hs).1 h).1, (s2 snd hs).2⟩

theorem holder_of_blocks (r : fetch_result) (bs : List (List sample_type))
    (h : r.susp.s1.list = snd_list.blocks bs) : input_holder r = r.susp := by
  simp [input_holder, sound_susp, h]

/-- The clone a firing leaves behind `s1`: it has the input, the cursor, the
previous sample, the header, the termination index and the closure of the
node as it was after "close off block". -/
theorem fire_clone (env : Env) (A : trigger_susp_node) (cnt : Int) (out : List sample_type)
    (h : (trigger_fire env A cnt out).status ≠ fetch_status.xlerror) :
    ∃ clone, sound_susp (trigger_fire env A cnt out).susp.s1 = some clone ∧
      clone.s1 = A.s1 ∧ clone.s1_ptr = A.s1_ptr ∧ clone.s1_cnt = A.s1_cnt ∧
      clone.previous = A.previous ∧ clone.susp = A.susp ∧
      clone.terminate_cnt = A.terminate_cnt ∧ clone.closure = A.closure ∧
      clone.s2 = none := by
  unfold trigger_fire at h ⊢
  split at h
  · rename_i snd hx
    split
    · exact ⟨_, rfl, rfl, rfl, rfl, rfl, rfl, rfl, rfl, rfl⟩
    · refine ⟨clone_trigger { A with s2 := some (sound_copy snd) }, ?_, rfl, rfl, rfl, rfl,
        rfl, rfl, rfl, rfl⟩
      simp only [transmuted, select_add_fetch]
      split <;> rfl
  · simp at h

theorem fire_holder (env : Env) (A : trigger_susp_node) (cnt : Int) (out : List sample_type)
    (bs : List (List sample_type)) (hA : A.s1.list = snd_list.blocks bs) :
    (input_holder (trigger_fire env A cnt out)).s1 = A.s1 ∧
    (input_holder (trigger_fire env A cnt out)).s1_ptr = A.s1_ptr ∧
    (input_holder (trigger_fire env A cnt out)).s1_cnt = A.s1_cnt ∧
    (input_holder (trigger_fire env A cnt out)).previous = A.previous := by
  by_cases h : (trigger_fire env A cnt out).status = fetch_status.xlerror
  · have := ((fire_status env A cnt out).2.2.2.1 h).2
    have hh : input_holder (trigger_fire env A cnt out) = A := by
      rw [holder_of_blocks _ bs (by rw [this]; exact hA), this]
    rw [hh]
    exact ⟨rfl, rfl, rfl, rfl⟩
  · obtain ⟨clone, c0, c1, c2, c3, c4, _⟩ := fire_clone env A cnt out h
    have hh : input_holder (trigger_fire env A cnt out) = clone := by
      simp [input_holder, c0]
    rw [hh]
    exact ⟨c1, c2, c3, c4⟩

theorem fire_terminate_cnt (env : Env) (A : trigger_susp_node) (cnt : Int)
    (out : List sample_type) :
    (trigger_fire env A cnt out).susp.terminate_cnt = A.terminate_cnt := by
  unfold trigger_fire
  split
  · split
    · rfl
    · simp only [transmuted, select_add_fetch]
      split <;> rfl
  · rfl

theorem finish_end (env : Env) (h0 : snd_susp_node) (c0 : Option Nat) (p0 : sample_type)
    (R0 : List sample_type) (S : trigger_susp_node) (hS : end_node env h0 c0 p0 R0 S)
    (hn : 0 ≤ h0.current) :
    (R0 = [] → trigger_finish S (R0.length : Int) 0 (List.replicate R0.length 0) =
      { status := fetch_status.returned, susp := S, snd_list := snd_list_terminate,
        evals := [], delegated := none } ∧ at_end env S ∧ input_cursor S = h0.current) ∧
    (R0 ≠ [] → trigger_finish S (R0.length : Int) 0 (List.replicate R0.length 0) =
      { status := fetch_status.returned, susp := advance_current S R0.length,
        snd_list := { block := List.replicate R0.length 0, block_len := R0.length,
                      terminated := false },
        evals := [], delegated := none }) := by
  constructor
  · intro h
    subst h
    refine ⟨by simp [trigger_finish], ⟨hS.blocks, hS.cnt_ok, hS.ptr_ok, ?_, ?_⟩, ?_⟩
    · rw [hS.known, hS.header]; simp
    · rw [hS.header]; exact hn
    · rw [hS.cursor]; simp
  · intro h
    have : (R0.length : Int) ≠ 0 := by
      have := List.length_pos.mpr h
      exact_mod_cast (by omega : R0.length ≠ 0)
    simp [trigger_finish, this]

/-- The accounting of one call on a node in the middle of its input:
`susp.current` and the input cursor advance by `block_len`, the block written
has that length, and a call that does not evaluate the closure returns and
leaves a node that is again in the middle of its input or at its end. -/
theorem call_summary (env : Env) (hok : env_ok env) (susp : trigger_susp_node)
    (hin : in_stream env susp 0) :
    (trigger_fetch env susp).susp.susp.current =
      susp.susp.current + (trigger_fetch env susp).snd_list.block_len ∧
    ((trigger_fetch env susp).snd_list.block.length : Int) =
      (trigger_fetch env susp).snd_list.block_len ∧
    input_cursor (input_holder (trigger_fetch env susp)) =
      input_cursor susp + (trigger_fetch env susp).snd_list.block_len ∧
    ((trigger_fetch env susp).evals = [] →
      (trigger_fetch env susp).status = fetch_status.returned ∧
      (trigger_fetch env susp).delegated = none ∧
      (trigger_fetch env susp).susp.susp.fetch = susp.susp.fetch ∧
      ((trigger_fetch env susp).snd_list.terminated = true →
        at_end env (trigger_fetch env susp).susp ∧
        (trigger_fetch env susp).snd_list.block_len = 0) ∧
      ((trigger_fetch env susp).snd_list.terminated = false →
        (in_stream env (trigger_fetch env susp).susp 0 ∨
          at_end env (trigger_fetch env susp).susp) ∧
        1 ≤ (trigger_fetch env susp).snd_list.block_len)) := by
  have hal : input_cursor susp = susp.susp.current := by
    have := hin.aligned; simp only [Nat.cast_zero, add_zero] at this; exact this.symm
  rcases fetch_post env hok susp hin with
    ⟨j, A, h1, h2, h3, hA⟩ | ⟨h1, h2, S, togo, h3, hS⟩ | ⟨h1, h2, S, h3, hS⟩
  · obtain ⟨e1, e2, e3, e4⟩ := fire_evals env A (j : Int) (List.replicate j 0)
    obtain ⟨g1, _, _⟩ := fire_header env A (j : Int) (List.replicate j 0)
    obtain ⟨k1, k2, k3, _⟩ := fire_holder env A (j : Int) (List.replicate j 0) _ hA.stream.blocks
    have hAal := hA.stream.aligned
    simp only [Nat.cast_zero, add_zero] at hAal
    rw [h3]
    refine ⟨by rw [g1, e3, hA.header], by rw [e2, e3]; simp, ?_, ?_⟩
    · have hc : A.susp.current = susp.susp.current + j := by rw [hA.header]
      simp only [input_cursor, k1, k3, e3] at hal hAal ⊢
      linarith
    · intro h; rw [e1] at h; simp at h
  · rw [h3, finish_full env hok]
    obtain ⟨n1, n2, n3, n4, n5⟩ := full_next env _ _ _ _ S hS
    have hNal := n1.aligned
    simp only [Nat.cast_zero, add_zero] at hNal
    have hm : (1 : Int) ≤ env.max_sample_block_len := by exact_mod_cast hok.1
    refine ⟨by rw [n4], by simp, ?_, ?_⟩
    · rw [holder_of_blocks _ _ n1.blocks]
      simp only
      rw [← hNal, n4, hal]
    · intro _
      refine ⟨rfl, rfl, by rw [n4], by simp, ?_⟩
      intro _
      exact ⟨Or.inl n1, hm⟩
  · obtain ⟨z1, z2⟩ := finish_end env _ _ _ _ S hS hin.nonneg
    by_cases hR : remaining_input susp = []
    · obtain ⟨z3, z4, z5⟩ := z1 hR
      rw [h3, z3]
      refine ⟨by simp [snd_list_terminate, hS.header], by simp [snd_list_terminate], ?_, ?_⟩
      · rw [holder_of_blocks _ _ hS.blocks]
        simp only [snd_list_terminate, add_zero]
        rw [z5, hal]
      · intro _
        refine ⟨rfl, rfl, by rw [hS.header], ?_, ?_⟩
        · intro _; exact ⟨z4, rfl⟩
        · intro h; simp [snd_list_terminate] at h
    · obtain ⟨n1, n2, n3, n4⟩ := end_next env _ _ _ _ S hS hin.nonneg
      have hlen : 1 ≤ (remaining_input susp).length := List.length_pos.mpr hR
      rw [h3, z2 hR]
      refine ⟨by rw [n2], by simp, ?_, ?_⟩
      · rw [holder_of_blocks _ _ n1.blocks]
        simp only
        have : input_cursor (advance_current S (remaining_input susp).length) = input_cursor S :=
          rfl
        rw [this, hS.cursor, hal]
      · intro _
        refine ⟨rfl, rfl, by rw [n2], by simp, ?_⟩
        intro _
        refine ⟨Or.inr n1, ?_⟩
        show (1 : Int) ≤ ((remaining_input susp).length : Int)
        exact_mod_cast hlen

theorem fire_delegated (env : Env) (A : trigger_susp_node) (cnt : Int) (out : List sample_type)
    (h : (trigger_fire env A cnt out).delegated ≠ none) : cnt = 0 := by
  unfold trigger_fire at h
  split at h
  · split at h
    · simp at h
    · by_contra hc
      simp [hc] at h
  · simp at h

theorem fetch_evals_le (env : Env) (susp : trigger_susp_node) :
    (trigger_fetch env susp).evals.length ≤ 1 := by
  rcases fetch_any env susp with ⟨A, cnt1, out1, h1, _, _⟩ | ⟨h1, _⟩
  · rw [h1, (fire_evals env A cnt1 out1).1]; simp
  · rw [h1]; simp

theorem fetch_transmuted (env : Env) (susp : trigger_susp_node)
    (hst : (trigger_fetch env susp).status = fetch_status.returned)
    (hev : (trigger_fetch env susp).evals ≠ []) :
    (trigger_fetch env susp).susp.closure = none ∧
    ((trigger_fetch env susp).susp.susp.fetch = fetch_routine.add_s1_nn_fetch ∨
      (trigger_fetch env susp).susp.susp.fetch = fetch_routine.add_s1_s2_nn_fetch) := by
  rcases fetch_any env susp with ⟨A, cnt1, out1, h1, _, _⟩ | ⟨h1, _⟩
  · rw [h1] at hst ⊢
    obtain ⟨snd, _, _, hsusp, _⟩ := fire_returned env A cnt1 out1 hst
    rw [hsusp]
    exact ⟨(transmuted_fetch env A snd).2, (transmuted_fetch env A snd).1⟩
  · exact absurd h1 hev

theorem fetch_continue (env : Env) (susp : trigger_susp_node)
    (hst : (trigger_fetch env susp).status = fetch_status.returned)
    (hf : (trigger_fetch env susp).susp.susp.fetch = fetch_routine.trigger_fetch) :
    (trigger_fetch env susp).evals = [] := by
  by_contra hev
  rcases (fetch_transmuted env susp hst hev).2 with h | h <;> rw [h] at hf <;> simp at hf

theorem fetch_delegated (env : Env) (susp : trigger_susp_node)
    (h : (trigger_fetch env susp).delegated ≠ none) :
    (trigger_fetch env susp).snd_list.block_len = 0 := by
  rcases fetch_any env susp with ⟨A, cnt1, out1, h1, _, _⟩ | ⟨_, h2, _⟩
  · rw [h1] at h ⊢
    rw [(fire_evals env A cnt1 out1).2.2.1]
    exact fire_delegated env A cnt1 out1 h
  · exact absurd h2 h

theorem run_at_end (env : Env) (hok : env_ok env) (calls : Nat) (susp : trigger_susp_node)
    (h : at_end env susp) (hf : susp.susp.fetch = fetch_routine.trigger_fetch) :
    trigger_run env (calls + 1) susp =
      { blocks := [], unreturned := [], evals := [], ending := run_end.terminated,
        susp := susp } := by
  simp [trigger_run, fetch_at_end env hok susp h, hf, snd_list_terminate]

theorem run_evals_le (env : Env) :
    ∀ (calls : Nat) (susp : trigger_susp_node), (trigger_run env calls susp).evals.length ≤ 1 := by
  intro calls
  induction calls with
  | zero => intro susp; simp [trigger_run]
  | succ calls ih =>
    intro susp
    unfold trigger_run
    split
    · exact fetch_evals_le env susp
    · rename_i hst
      split
      · exact fetch_evals_le env susp
      · rename_i hf
        split
        · exact fetch_evals_le env susp
        · simp only [ne_eq, not_not] at hst hf
          simp only [fetch_continue env susp hst hf, List.nil_append]
          exact ih _

/-- The accounting of a run of calls: the samples in the blocks the trigger
returned, together with those of a block closed off by a failing call, are as
many as `susp.current` has advanced. -/
theorem run_account (env : Env) (hok : env_ok env) :
    ∀ (calls : Nat) (susp : trigger_susp_node),
    (in_stream env susp 0 ∨ at_end env susp) →
    susp.susp.fetch = fetch_routine.trigger_fetch →
    (((trigger_run env calls susp).blocks.flatten.length +
        (trigger_run env calls susp).unreturned.length : Nat) : Int) =
      (trigger_run env calls susp).susp.susp.current - susp.susp.current := by
  intro calls
  induction calls with
  | zero => intro susp _ _; simp [trigger_run]
  | succ calls ih =>
    intro susp hst hfetch
    rcases hst with hin | hend
    · obtain ⟨s1, s2, _, s4⟩ := call_summary env hok susp hin
      unfold trigger_run
      split
      · simp only [List.flatten_nil, List.length_nil, Nat.zero_add]
        rw [s2, s1]; ring
      · rename_i hs
        simp only [ne_eq, not_not] at hs
        split
        · simp only [List.length_nil, Nat.add_zero]
          by_cases hd : (trigger_fetch env susp).delegated = none
          · have hev : (trigger_fetch env susp).evals ≠ [] := by
              intro hev
              have := (s4 hev).2.2.1
              rename_i hf
              exact hf (by rw [this]; exact hfetch)
            have htm : (trigger_fetch env susp).snd_list.terminated = false := by
              rcases fetch_any env susp with ⟨A, cnt1, out1, h1, _, _⟩ | ⟨h1, _⟩
              · rw [h1]; exact (fire_evals env A cnt1 out1).2.2.2
              · exact absurd h1 hev
            simp only [own_block, hs, htm, hd, Option.isNone_none, and_self, if_true,
              Option.toList_some, List.flatten_cons, List.flatten_nil, List.append_nil]
            rw [s2, s1]; ring
          · have hb := fetch_delegated env susp hd
            have : (trigger_fetch env susp).delegated.isNone = false := by
              cases hdd : (trigger_fetch env susp).delegated with
              | none => exact absurd hdd hd
              | some v => rfl
            simp only [own_block, this, Bool.false_eq_true, and_false, if_false,
              Option.toList_none, List.flatten_nil, List.length_nil, Nat.cast_zero]
            rw [s1, hb]; ring
        · rename_i hf
          simp only [ne_eq, not_not] at hf
          have hev := fetch_continue env susp hs hf
          obtain ⟨_, _, _, t1, t2⟩ := s4 hev
          split
          · rename_i ht
            simp only [List.flatten_nil, List.length_nil, Nat.add_zero, Nat.cast_zero]
            rw [s1, (t1 ht).2]; ring
          · rename_i ht
            simp only [Bool.not_eq_true] at ht
            have := ih (trigger_fetch env susp).susp (t2 ht).1 hf
            simp only [List.flatten_cons, List.length_append]
            push_cast at this ⊢
            rw [s1] at this
            linarith
    · rw [run_at_end env hok calls susp hend hfetch]
      simp

theorem run_step_continue (env : Env) (calls : Nat) (susp N : trigger_susp_node)
    (b : List sample_type) (n : Int)
    (h : trigger_fetch env susp =
      { status := fetch_status.returned, susp := N,
        snd_list := { block := b, block_len := n, terminated := false },
        evals := [], delegated := none })
    (hNf : N.susp.fetch = fetch_routine.trigger_fetch) :
    trigger_run env (calls + 1) susp =
      { blocks := b :: (trigger_run env calls N).blocks,
        unreturned := (trigger_run env calls N).unreturned,
        evals := (trigger_run env calls N).evals,
        ending := (trigger_run env calls N).ending,
        susp := (trigger_run env calls N).susp } := by
  simp only [trigger_run, h, ne_eq, not_true_eq_false, if_false, hNf, Bool.false_eq_true,
    List.nil_append]

theorem run_to_end (env : Env) (hok : env_ok env) :
    ∀ (calls : Nat) (susp : trigger_susp_node),
    in_stream env susp 0 → susp.susp.fetch = fetch_routine.trigger_fetch →
    first_edge susp.previous (remaining_input susp) = none →
    (remaining_input susp).length < calls →
    (trigger_run env calls susp).blocks.flatten =
      List.replicate (remaining_input susp).length 0 ∧
    (trigger_run env calls susp).evals = [] ∧
    (trigger_run env calls susp).unreturned = [] ∧
    (trigger_run env calls susp).ending = run_end.terminated := by
  intro calls
  induction calls with
  | zero => intro susp _ _ _ h; omega
  | succ calls ih =>
    intro susp hin hfetch hfe hlen
    have hm := hok.1
    by_cases hge : env.max_sample_block_len ≤ (remaining_input susp).length
    · obtain ⟨f1, f2⟩ := first_edge_split_none _ _ env.max_sample_block_len hfe
      obtain ⟨S, htf, hS⟩ := call_full env hok susp hin f1 hge
      obtain ⟨n1, n2, n3, n4, n5⟩ := full_next env _ _ _ _ S hS
      generalize advance_current S env.max_sample_block_len = N at htf n1 n2 n3 n4 n5
      have hNf : N.susp.fetch = fetch_routine.trigger_fetch := by rw [n4]; exact hfetch
      obtain ⟨i1, i2, i3, i4⟩ := ih N n1 hNf (by rw [n2, n3]; exact f2)
        (by rw [n2]; simp; omega)
      simp only [trigger_run, htf, ne_eq, not_true_eq_false, if_false, hNf,
        Bool.false_eq_true, List.flatten_cons, List.nil_append]
      refine ⟨?_, i2, i3, i4⟩
      rw [i1, n2, ← List.replicate_add]
      congr 1
      simp; omega
    · obtain ⟨S, htf, hS⟩ := call_end env hok susp hin hfe (by omega)
      obtain ⟨z1, z2⟩ := finish_end env _ _ _ _ S hS hin.nonneg
      by_cases hR : remaining_input susp = []
      · obtain ⟨z3, _, _⟩ := z1 hR
        have hSf : S.susp.fetch = fetch_routine.trigger_fetch := by rw [hS.header]; exact hfetch
        have htf2 := htf.trans z3
        simp only [trigger_run, htf2, ne_eq, not_true_eq_false, if_false, hSf,
          snd_list_terminate, if_true]
        simp [hR]
      · obtain ⟨n1, n2, _, _⟩ := end_next env _ _ _ _ S hS hin.nonneg
        have hpos := List.length_pos.mpr hR
        obtain ⟨c, rfl⟩ : ∃ c, calls = c + 1 := ⟨calls - 1, by omega⟩
        have htf2 := htf.trans (z2 hR)
        generalize advance_current S (remaining_input susp).length = N at htf2 n1 n2
        have hNf : N.susp.fetch = fetch_routine.trigger_fetch := by rw [n2]; exact hfetch
        rw [run_step_continue env (c + 1) susp N _ _ htf2 hNf, run_at_end env hok c N n1 hNf]
        simp

theorem first_edge_pos (R : List sample_type) :
    ∀ (p : sample_type) (j : Nat), first_edge p R = some j → 0 < R.getD j 0 := by
  induction R with
  | nil => intro p j h; simp [first_edge] at h
  | cons s rest ih =>
    intro p j h
    simp only [first_edge] at h
    by_cases hc : p ≤ 0 ∧ s > 0
    · simp only [hc, and_self, if_true, Option.some.injEq] at h
      subst h
      simpa using hc.2
    · simp only [hc, if_false, Option.map_eq_some'] at h
      obtain ⟨i, hi, rfl⟩ := h
      simpa using ih s i hi

theorem first_edge_not_zero (s : sample_type) (R : List sample_type) (hs : 0 < s) :
    first_edge s (s :: R) ≠ some 0 := by
  have : ¬ (s ≤ 0 ∧ s > 0) := fun h => absurd h.1 (not_le.mpr hs)
  simp only [first_edge, this, if_false]
  cases first_edge s R <;> simp

theorem in_stream_congr (env : Env) (A B : trigger_susp_node) (k : Nat)
    (h : in_stream env A k) (h1 : B.s1 = A.s1) (h2 : B.s1_ptr = A.s1_ptr)
    (h3 : B.s1_cnt = A.s1_cnt) (h4 : B.terminate_cnt = A.terminate_cnt)
    (h5 : B.susp = A.susp) :
    in_stream env B k ∧ remaining_input B = remaining_input A := by
  obtain ⟨a1, a2, a3, a4, a5⟩ := h
  refine ⟨⟨by rw [h1]; exact a1, by rw [h3, h2]; exact a2, by rw [h4]; exact a3, ?_,
    by rw [h5]; exact a5⟩, by simp only [remaining_input, h1, h2]⟩
  simp only [input_cursor, h1, h3, h5] at a4 ⊢
  exact a4

/-- The block a call writes on a node in the middle of its input holds only
zeros, `susp.current` advances by its length, an evaluation of the closure in
the call is at the time of the advanced index, and the block is not empty
unless the input is used up or its first sample is an edge. -/
theorem call_zeros (env : Env) (hok : env_ok env) (susp : trigger_susp_node)
    (hin : in_stream env susp 0) :
    ∃ n : Nat, (trigger_fetch env susp).snd_list.block = List.replicate n 0 ∧
      (trigger_fetch env susp).snd_list.block_len = n ∧
      (trigger_fetch env susp).susp.susp.current = susp.susp.current + n ∧
      (∀ t ∈ (trigger_fetch env susp).evals,
        t = susp.susp.t0 + ((trigger_fetch env susp).susp.susp.current : Rat) / susp.susp.sr) ∧
      (first_edge susp.previous (remaining_input susp) ≠ some 0 →
        remaining_input susp ≠ [] → 1 ≤ n) := by
  have hm := hok.1
  rcases fetch_post env hok susp hin with
    ⟨j, A, h1, h2, h3, hA⟩ | ⟨h1, h2, S, togo, h3, hS⟩ | ⟨h1, h2, S, h3, hS⟩
  · obtain ⟨e1, e2, e3, _⟩ := fire_evals env A (j : Int) (List.replicate j 0)
    obtain ⟨g1, _, _⟩ := fire_header env A (j : Int) (List.replicate j 0)
    refine ⟨j, by rw [h3, e2], by rw [h3, e3], by rw [h3, g1, hA.header], ?_, ?_⟩
    · intro t ht
      rw [h3, e1] at ht
      simp only [List.mem_singleton] at ht
      rw [ht, h3, g1]
      simp only [now_of, hA.header]
    · intro hne _
      rw [h1] at hne
      have : j ≠ 0 := fun h => hne (by rw [h])
      omega
  · rw [h3, finish_full env hok]
    obtain ⟨_, _, _, n4, _⟩ := full_next env _ _ _ _ S hS
    exact ⟨env.max_sample_block_len, rfl, rfl, by rw [n4], by simp, fun _ _ => hm⟩
  · obtain ⟨z1, z2⟩ := finish_end env _ _ _ _ S hS hin.nonneg
    by_cases hR : remaining_input susp = []
    · rw [h3, (z1 hR).1]
      exact ⟨0, rfl, rfl, by simp [hS.header], by simp, fun _ h => absurd hR h⟩
    · obtain ⟨_, n2, _, _⟩ := end_next env _ _ _ _ S hS hin.nonneg
      rw [h3, z2 hR]
      exact ⟨(remaining_input susp).length, rfl, rfl, by rw [n2], by simp,
        fun _ _ => List.length_pos.mpr hR⟩

/-- C1: on a freshly constructed trigger whose input has its first rising edge
at index `k`, successive calls of `trigger_fetch` reach the evaluation of the
closure within `k + 1` calls, and the blocks the trigger closed off up to then
hold only zeros and total exactly `k` samples (all of them returned when the
firing succeeds); a sample equal to 0 always takes the branch that writes a
zero, whatever its predecessor. -/
theorem C1_zeros_until_first_edge (env : Env) (s1 : sound_type) (closure : Option Nat)
    (bs : List (List sample_type)) (node : trigger_susp_node) (k calls : Nat)
    (hok : env_ok env) (hs1 : s1.list = snd_list.blocks bs) (hscale : s1.scale = 1)
    (hcur : s1.current = 0)
    (hnode : sound_susp (snd_make_trigger env s1 closure) = some node)
    (hedge : first_edge 0 bs.flatten = some k) (hcalls : k < calls) :
    ((trigger_run env calls node).blocks.flatten ++ (trigger_run env calls node).unreturned
        = List.replicate k 0) ∧
    ((trigger_run env calls node).ending = run_end.fired ∨
      (trigger_run env calls node).ending = run_end.failed) ∧
    ((trigger_run env calls node).ending = run_end.fired →
      (trigger_run env calls node).unreturned = []) ∧
    (∀ (previous : sample_type) (n : Int) (rest out : List sample_type),
      inner_loop previous n (0 :: rest) out =
        if n - 1 ≠ 0 then inner_loop 0 (n - 1) rest (out ++ [0])
        else inner_result.done 0 (out ++ [0])) := by
  obtain ⟨i1, i2, i3, i4, _, _, _, _⟩ := init_in_stream env s1 closure bs node hs1 hscale hcur hnode
  obtain ⟨r1, _, r3, r4⟩ := run_to_edge env hok calls node k i1 i4 (by rw [i2, i3]; exact hedge) hcalls
  refine ⟨r1, r3, r4, ?_⟩
  intro previous n rest out
  simp [inner_loop]

theorem C1_zeros_until_first_edge_witness :
    ((trigger_run example_env 3 (trigger_susp_init example_env
        (example_input [[-1, -1], [2, 3]]) (some 0))).blocks.flatten ++
      (trigger_run example_env 3 (trigger_susp_init example_env
        (example_input [[-1, -1], [2, 3]]) (some 0))).unreturned = List.replicate 2 0) :=
  (C1_zeros_until_first_edge example_env (example_input [[-1, -1], [2, 3]]) (some 0)
    [[-1, -1], [2, 3]] _ 2 3 ⟨by decide, by decide⟩ rfl rfl rfl rfl (by decide) (by decide)).1

theorem first_edge_example (rest : List sample_type) :
    first_edge 0 (-1 :: -1 :: 2 :: 3 :: rest) = some 2 := by
  norm_num [first_edge]

/-- C2: on a freshly constructed trigger whose input has its first rising edge
at index `k`, the closure is evaluated exactly once in the run of calls, at
`now = t0 + k / sr`, the time of the positive sample; in particular at `t0`
when the first input sample is positive, and for an input that starts
`-1, -1, 2, 3` at `t0 + 2 / sr` after exactly two zeros, which form one block
closed off by the first call when a block has room for three samples. -/
theorem C2_closure_time_of_positive_sample (env : Env) (s1 : sound_type)
    (closure : Option Nat) (bs : List (List sample_type)) (node : trigger_susp_node)
    (calls : Nat) (hok : env_ok env) (hs1 : s1.list = snd_list.blocks bs)
    (hscale : s1.scale = 1) (hcur : s1.current = 0)
    (hnode : sound_susp (snd_make_trigger env s1 closure) = some node) :
    (∀ k : Nat, first_edge 0 bs.flatten = some k → k < calls →
      (trigger_run env calls node).evals = [s1.t0 + (k : Rat) / s1.sr]) ∧
    (∀ (s : sample_type) (rest : List sample_type), bs.flatten = s :: rest → 0 < s →
      0 < calls → (trigger_run env calls node).evals = [s1.t0]) ∧
    (∀ rest : List sample_type, bs.flatten = -1 :: -1 :: 2 :: 3 :: rest → 2 < calls →
      (trigger_run env calls node).evals = [s1.t0 + 2 / s1.sr] ∧
      (trigger_run env calls node).blocks.flatten ++ (trigger_run env calls node).unreturned
        = [0, 0]) ∧
    (∀ rest : List sample_type, bs.flatten = -1 :: -1 :: 2 :: 3 :: rest →
      3 ≤ env.max_sample_block_len →
      (trigger_fetch env node).snd_list.block = [0, 0] ∧
      (trigger_fetch env node).snd_list.block_len = 2 ∧
      (trigger_fetch env node).evals = [s1.t0 + 2 / s1.sr]) := by
  obtain ⟨i1, i2, i3, i4, i5, i6, i7, _⟩ :=
    init_in_stream env s1 closure bs node hs1 hscale hcur hnode
  have gen : ∀ k : Nat, first_edge 0 bs.flatten = some k → k < calls →
      (trigger_run env calls node).evals = [s1.t0 + (k : Rat) / s1.sr] := by
    intro k hk hc
    obtain ⟨_, r2, _, _⟩ := run_to_edge env hok calls node k i1 i4 (by rw [i2, i3]; exact hk) hc
    rw [r2, i5, i6, i7]
    simp
  refine ⟨gen, ?_, ?_, ?_⟩
  · intro s rest hb hs hc
    have := gen 0 (by rw [hb]; simp [first_edge, hs]) hc
    simpa using this
  · intro rest hb hc
    have hfe : first_edge 0 bs.flatten = some 2 := by rw [hb]; exact first_edge_example rest
    obtain ⟨r1, _, _, _⟩ := run_to_edge env hok calls node 2 i1 i4 (by rw [i2, i3]; exact hfe) hc
    refine ⟨by simpa using gen 2 hfe hc, ?_⟩
    rw [r1]; rfl
  · intro rest hb hm
    have hfe : first_edge 0 bs.flatten = some 2 := by rw [hb]; exact first_edge_example rest
    obtain ⟨A, htf, hA⟩ := call_edge env hok node i1 2 (by rw [i2, i3]; exact hfe) (by omega)
    obtain ⟨e1, e2, e3, _⟩ := fire_evals env A ((2 : Nat) : Int) (List.replicate 2 0)
    rw [htf, e1, e2, e3]
    refine ⟨rfl, rfl, ?_⟩
    simp only [now_of, hA.header, i5, i6, i7]
    norm_num

theorem C2_closure_time_of_positive_sample_witness :
    (trigger_run example_env 3 (trigger_susp_init example_env
        (example_input [[-1, -1], [2, 3]]) (some 0))).evals = [(5 : Rat) + (2 : Nat) / 10] :=
  (C2_closure_time_of_positive_sample example_env (example_input [[-1, -1], [2, 3]]) (some 0)
    [[-1, -1], [2, 3]] _ 3 ⟨by decide, by decide⟩ rfl rfl rfl rfl).1 2 (by decide) (by decide)

/-- C3 (as amended): on edge detection `trigger_fetch` advances `susp.current`
by the number of input samples the call consumed before the triggering sample
(the triggering sample excluded), which is the length of the block it closes
off, and evaluates the closure at `now = t0 + susp.current / sr` computed from
that advanced index. -/
theorem C3_current_advances_to_triggering_sample (env : Env) (susp : trigger_susp_node)
    (j : Nat) (hok : env_ok env) (hin : in_stream env susp 0)
    (hedge : first_edge susp.previous (remaining_input susp) = some j)
    (hj : j < env.max_sample_block_len) :
    (trigger_fetch env susp).susp.susp.current = susp.susp.current + j ∧
    (trigger_fetch env susp).snd_list.block_len = j ∧
    (trigger_fetch env susp).evals =
      [susp.susp.t0 + ((trigger_fetch env susp).susp.susp.current : Rat) / susp.susp.sr] := by
  obtain ⟨h1, _, h3, h4⟩ := call_edge_summary env hok susp hin j hedge hj
  exact ⟨h1, h3, by rw [h4, h1]⟩

theorem C3_current_advances_to_triggering_sample_witness :
    (trigger_fetch example_env (trigger_susp_init example_env
        (example_input [[-1, -1], [2, 3]]) (some 0))).susp.susp.current
      = (trigger_susp_init example_env
          (example_input [[-1, -1], [2, 3]]) (some 0)).susp.current + (2 : Nat) :=
  (C3_current_advances_to_triggering_sample example_env _ 2 ⟨by decide, by decide⟩
    (example_node_in_stream example_env [[-1, -1], [2, 3]]).1
    (by rw [(example_node_in_stream example_env [[-1, -1], [2, 3]]).2.1,
          (example_node_in_stream example_env [[-1, -1], [2, 3]]).2.2.1]; decide)
    (by decide)).1

/-- C3 (counterexample): for the input `-1, -1 | 2, 3` the first call meets the
edge at the third sample, so three samples have been consumed including the
triggering one; `susp.current` is advanced to 2, not 3, and the closure is
evaluated at `5 + 2 / 10`, not at `5 + 3 / 10`. -/
theorem C3_counterexample :
    first_edge 0 [-1, -1, 2, 3] = some 2 ∧
    (trigger_fetch example_env (trigger_susp_init example_env
        (example_input [[-1, -1], [2, 3]]) (some 0))).susp.susp.current = 2 ∧
    (trigger_fetch example_env (trigger_susp_init example_env
        (example_input [[-1, -1], [2, 3]]) (some 0))).evals = [5 + 2 / 10] ∧
    ¬ ((trigger_fetch example_env (trigger_susp_init example_env
        (example_input [[-1, -1], [2, 3]]) (some 0))).susp.susp.current = 0 + 3 ∧
       (trigger_fetch example_env (trigger_susp_init example_env
        (example_input [[-1, -1], [2, 3]]) (some 0))).evals = [5 + 3 / 10]) := by
  obtain ⟨i1, i2, i3, _, i5, i6, i7, _⟩ := example_node_in_stream example_env [[-1, -1], [2, 3]]
  have hfe : first_edge 0 [-1, -1, 2, 3] = some 2 := by decide
  obtain ⟨h1, _, _, h4⟩ := call_edge_summary example_env ⟨by decide, by decide⟩ _ i1 2
    (by rw [i2, i3]; exact hfe) (by decide)
  rw [i7] at h1
  rw [i5, i6, i7] at h4
  refine ⟨hfe, by rw [h1]; rfl, by rw [h4]; norm_num, ?_⟩
  rw [h1]
  intro h
  exact absurd h.1 (by decide)

/-- C4 (as amended): at every successful firing the add strategy follows the
rounded delay `delay = ROUNDBIG ((s2.t0 - now) * sr)` that the code computes
from the start time `s2.t0` of the (normalized) closure result: the gap-filling
strategy `add_s1_nn_fetch` is selected exactly when `delay > 0` and the
immediate-overlap strategy `add_s1_s2_nn_fetch` exactly when `delay ≤ 0`; in
particular, at a sample rate that is not negative, a result that starts at or
before `now` gets the immediate-overlap strategy. -/
theorem C4_add_strategy_by_rounded_delay (env : Env) (susp : trigger_susp_node)
    (now : time_type) (snd : sound_type)
    (hev : (trigger_fetch env susp).evals = [now])
    (hx : env.xleval susp.closure now = LVAL.sound snd)
    (hst : (trigger_fetch env susp).status = fetch_status.returned) :
    ((trigger_fetch env susp).susp.susp.fetch = fetch_routine.add_s1_nn_fetch ↔
      0 < ROUNDBIG (((normalized_s2 env snd).t0 - now) * susp.susp.sr)) ∧
    ((trigger_fetch env susp).susp.susp.fetch = fetch_routine.add_s1_s2_nn_fetch ↔
      ROUNDBIG (((normalized_s2 env snd).t0 - now) * susp.susp.sr) ≤ 0) ∧
    (0 ≤ susp.susp.sr → (normalized_s2 env snd).t0 ≤ now →
      ROUNDBIG (((normalized_s2 env snd).t0 - now) * susp.susp.sr) ≤ 0 ∧
      (trigger_fetch env susp).susp.susp.fetch = fetch_routine.add_s1_s2_nn_fetch) := by
  have hsel : (trigger_fetch env susp).susp.susp.fetch =
      if 0 < ROUNDBIG (((normalized_s2 env snd).t0 - now) * susp.susp.sr) then
        fetch_routine.add_s1_nn_fetch
      else fetch_routine.add_s1_s2_nn_fetch := by
    rw [fetch_select env susp now snd hev hx hst]
    simp only [ROUNDBIG_pos_iff]
  refine ⟨?_, ?_, ?_⟩
  · by_cases h : 0 < ROUNDBIG (((normalized_s2 env snd).t0 - now) * susp.susp.sr)
    · rw [hsel, if_pos h]; simp [h]
    · rw [hsel, if_neg h]; simp [h]
  · by_cases h : 0 < ROUNDBIG (((normalized_s2 env snd).t0 - now) * susp.susp.sr)
    · rw [hsel, if_pos h]; simp [h]
    · rw [hsel, if_neg h]; simp only [true_iff]; exact not_lt.mp h
  · intro hsr ht
    have hle : ((normalized_s2 env snd).t0 - now) * susp.susp.sr ≤ 0 :=
      mul_nonpos_of_nonpos_of_nonneg (by linarith) hsr
    have hn : ¬ 0 < ROUNDBIG (((normalized_s2 env snd).t0 - now) * susp.susp.sr) := by
      rw [ROUNDBIG_pos_iff]; intro h; linarith
    exact ⟨not_lt.mp hn, by rw [hsel, if_neg hn]⟩

theorem C4_add_strategy_by_rounded_delay_witness :
    (trigger_fetch example_env (trigger_susp_init example_env
        (example_input [[1, -1]]) (some 0))).susp.susp.fetch
      = fetch_routine.add_s1_s2_nn_fetch := by
  obtain ⟨i1, i2, i3, _, i5, i6, i7, i8⟩ := example_node_in_stream example_env [[1, -1]]
  have hok : env_ok example_env := ⟨by decide, by decide⟩
  have hfe : first_edge (trigger_susp_init example_env (example_input [[1, -1]]) (some 0)).previous
      (remaining_input (trigger_susp_init example_env (example_input [[1, -1]]) (some 0)))
        = some 0 := by rw [i2, i3]; decide
  have hev := (call_edge_summary example_env hok _ i1 0 hfe (by decide)).2.2.2
  have hst := ((call_edge_status example_env hok _ i1 0 hfe (by decide)).2
    (example_sound _ 10) rfl).2 (by rw [i6]; rfl)
  refine ((C4_add_strategy_by_rounded_delay example_env _ _ (example_sound _ 10) hev rfl hst).2.2
    (by rw [i6]; norm_num) ?_).2
  simp [normalized_s2, example_sound]

/-- C4 (counterexample): the closure result starts at `5 + 1/40`, strictly
after `now = 5` (a quarter of a sample period at rate 10), and the firing
selects the immediate-overlap strategy `add_s1_s2_nn_fetch`, not the
gap-filling one. -/
theorem C4_counterexample :
    (trigger_fetch example_env_late (trigger_susp_init example_env_late
        (example_input [[1, -1]]) (some 0))).status = fetch_status.returned ∧
    (trigger_fetch example_env_late (trigger_susp_init example_env_late
        (example_input [[1, -1]]) (some 0))).evals = [5] ∧
    example_env_late.xleval (trigger_susp_init example_env_late
        (example_input [[1, -1]]) (some 0)).closure 5
      = LVAL.sound (example_sound (5 + 1 / 40) 10) ∧
    (5 : time_type) < (example_sound (5 + 1 / 40) 10).t0 ∧
    (trigger_fetch example_env_late (trigger_susp_init example_env_late
        (example_input [[1, -1]]) (some 0))).susp.susp.fetch
      = fetch_routine.add_s1_s2_nn_fetch ∧
    (trigger_fetch example_env_late (trigger_susp_init example_env_late
        (example_input [[1, -1]]) (some 0))).susp.susp.fetch
      ≠ fetch_routine.add_s1_nn_fetch := by
  obtain ⟨i1, i2, i3, _, i5, i6, i7, i8⟩ := example_node_in_stream example_env_late [[1, -1]]
  have hok : env_ok example_env_late := ⟨by decide, by decide⟩
  have hfe : first_edge
      (trigger_susp_init example_env_late (example_input [[1, -1]]) (some 0)).previous
      (remaining_input (trigger_susp_init example_env_late (example_input [[1, -1]]) (some 0)))
        = some 0 := by rw [i2, i3]; decide
  have hev := (call_edge_summary example_env_late hok _ i1 0 hfe (by decide)).2.2.2
  have hnow : (trigger_susp_init example_env_late (example_input [[1, -1]]) (some 0)).susp.t0 +
      (((trigger_susp_init example_env_late (example_input [[1, -1]]) (some 0)).susp.current
        + (0 : Nat) : Int) : Rat) /
      (trigger_susp_init example_env_late (example_input [[1, -1]]) (some 0)).susp.sr = 5 := by
    rw [i5, i6, i7]; norm_num
  rw [hnow] at hev
  have hst := ((call_edge_status example_env_late hok _ i1 0 hfe (by decide)).2
    (example_sound (5 + 1 / 40) 10) (by rw [hnow]; rfl)).2 (by rw [i6]; rfl)
  have hsel := fetch_select example_env_late _ 5 (example_sound (5 + 1 / 40) 10) hev rfl hst
  have hfetch : (trigger_fetch example_env_late (trigger_susp_init example_env_late
        (example_input [[1, -1]]) (some 0))).susp.susp.fetch
      = fetch_routine.add_s1_s2_nn_fetch := by
    rw [hsel, i6, if_neg]
    simp only [normalized_s2, example_sound]
    norm_num
  refine ⟨hst, hev, rfl, ?_, hfetch, ?_⟩
  · simp only [example_sound]; norm_num
  · rw [hfetch]; decide

/-- C5: every call of `trigger_fetch` on a trigger node advances `susp.current`
by exactly `block_len` and the input cursor by the same number of samples; a
block the trigger itself returns has that length; a call that returns the
terminal block has `block_len = 0` and so changes neither; in the firing call
the clone takes over the input exactly `block_len` samples further on, so no
input sample is skipped or duplicated; hence over any run of calls the number
of samples reported equals the advance of `susp.current`. -/
theorem C5_sample_accounting (env : Env) (susp : trigger_susp_node) (hok : env_ok env)
    (hst : in_stream env susp 0 ∨ at_end env susp)
    (hfetch : susp.susp.fetch = fetch_routine.trigger_fetch) :
    ((trigger_fetch env susp).susp.susp.current =
        susp.susp.current + (trigger_fetch env susp).snd_list.block_len ∧
      input_cursor (input_holder (trigger_fetch env susp)) =
        input_cursor susp + (trigger_fetch env susp).snd_list.block_len) ∧
    (∀ blk, own_block (trigger_fetch env susp) = some blk →
      (blk.length : Int) = (trigger_fetch env susp).snd_list.block_len) ∧
    ((trigger_fetch env susp).snd_list.terminated = true →
      (trigger_fetch env susp).snd_list.block_len = 0) ∧
    ((trigger_fetch env susp).evals ≠ [] →
      remaining_input (input_holder (trigger_fetch env susp)) =
        (remaining_input susp).drop (trigger_fetch env susp).snd_list.block_len.toNat) ∧
    (∀ calls : Nat,
      (((trigger_run env calls susp).blocks.flatten.length +
          (trigger_run env calls susp).unreturned.length : Nat) : Int) =
        (trigger_run env calls susp).susp.susp.current - susp.susp.current) := by
  refine ⟨?_, ?_, ?_, ?_, fun calls => run_account env hok calls susp hst hfetch⟩
  · rcases hst with hin | hend
    · obtain ⟨s1, _, s3, _⟩ := call_summary env hok susp hin
      exact ⟨s1, s3⟩
    · rw [fetch_at_end env hok susp hend]
      rw [holder_of_blocks _ _ hend.blocks]
      simp [snd_list_terminate]
  · intro blk hb
    rcases hst with hin | hend
    · obtain ⟨_, s2, _, _⟩ := call_summary env hok susp hin
      simp only [own_block] at hb
      split at hb
      · simp only [Option.some.injEq] at hb
        rw [← hb]; exact s2
      · simp at hb
    · rw [fetch_at_end env hok susp hend] at hb
      simp [own_block, snd_list_terminate] at hb
  · intro ht
    rcases fetch_any env susp with ⟨A, cnt1, out1, h1, _, _⟩ | ⟨h1, _⟩
    · rw [h1, (fire_evals env A cnt1 out1).2.2.2] at ht
      simp at ht
    · rcases hst with hin | hend
      · exact (((call_summary env hok susp hin).2.2.2 h1).2.2.2.1 ht).2
      · rw [fetch_at_end env hok susp hend]; rfl
  · intro hev
    rcases hst with hin | hend
    · rcases fetch_post env hok susp hin with
        ⟨j, A, _, _, h3, hA⟩ | ⟨_, _, S, togo, h3, _⟩ | ⟨_, _, S, h3, _⟩
      · obtain ⟨k1, k2, _, _⟩ := fire_holder env A (j : Int) (List.replicate j 0) _
          hA.stream.blocks
        rw [h3, (fire_evals env A (j : Int) (List.replicate j 0)).2.2.1]
        simp only [remaining_input, k1, k2, Int.toNat_ofNat]
        exact hA.input
      · rw [h3, (finish_any S _ togo _).1] at hev
        exact absurd rfl hev
      · rw [h3, (finish_any S _ 0 _).1] at hev
        exact absurd rfl hev
    · rw [fetch_at_end env hok susp hend] at hev
      exact absurd rfl hev

theorem C5_sample_accounting_witness :
    (trigger_fetch example_env (trigger_susp_init example_env
        (example_input [[-1, -1], [2, 3]]) (some 0))).susp.susp.current =
      (trigger_susp_init example_env (example_input [[-1, -1], [2, 3]]) (some 0)).susp.current +
        (trigger_fetch example_env (trigger_susp_init example_env
          (example_input [[-1, -1], [2, 3]]) (some 0))).snd_list.block_len :=
  (C5_sample_accounting example_env _ ⟨by decide, by decide⟩
    (Or.inl (example_node_in_stream example_env [[-1, -1], [2, 3]]).1)
    (example_node_in_stream example_env [[-1, -1], [2, 3]]).2.2.2.1).1.1

/-- C6: a call of `trigger_fetch` evaluates the closure at most once; on a node
in the middle of its input it does so at the first rising edge in scan order,
and what is left for the continuation starts with the triggering sample, so
nothing after it was scanned; after a successful firing the closure of the
node is none and its fetch routine is one of the two add routines, never
`trigger_fetch`; and a run of calls dispatched on `susp.fetch` evaluates the
closure at most once. -/
theorem C6_fires_at_most_once (env : Env) (susp : trigger_susp_node) :
    (trigger_fetch env susp).evals.length ≤ 1 ∧
    ((trigger_fetch env susp).status = fetch_status.returned →
      (trigger_fetch env susp).evals ≠ [] →
      (trigger_fetch env susp).susp.closure = none ∧
      ((trigger_fetch env susp).susp.susp.fetch = fetch_routine.add_s1_nn_fetch ∨
        (trigger_fetch env susp).susp.susp.fetch = fetch_routine.add_s1_s2_nn_fetch) ∧
      (trigger_fetch env susp).susp.susp.fetch ≠ fetch_routine.trigger_fetch) ∧
    (∀ calls : Nat, (trigger_run env calls susp).evals.length ≤ 1) ∧
    (env_ok env → in_stream env susp 0 → ∀ j : Nat,
      first_edge susp.previous (remaining_input susp) = some j →
      j < env.max_sample_block_len →
      (trigger_fetch env susp).evals =
        [susp.susp.t0 + ((susp.susp.current + j : Int) : Rat) / susp.susp.sr] ∧
      remaining_input (input_holder (trigger_fetch env susp)) =
        (remaining_input susp).drop j) := by
  refine ⟨fetch_evals_le env susp, ?_, fun calls => run_evals_le env calls susp, ?_⟩
  · intro hst hev
    obtain ⟨h1, h2⟩ := fetch_transmuted env susp hst hev
    refine ⟨h1, h2, ?_⟩
    rcases h2 with h | h <;> rw [h] <;> simp
  · intro hok hin j hedge hj
    obtain ⟨A, htf, hA⟩ := call_edge env hok susp hin j hedge hj
    obtain ⟨k1, k2, _, _⟩ := fire_holder env A (j : Int) (List.replicate j 0) _ hA.stream.blocks
    refine ⟨(call_edge_summary env hok susp hin j hedge hj).2.2.2, ?_⟩
    rw [htf]
    simp only [remaining_input, k1, k2]
    exact hA.input

theorem C6_fires_at_most_once_witness :
    (trigger_fetch example_env (trigger_susp_init example_env
        (example_input [[-1, 2, -1, 3]]) (some 0))).evals =
      [(trigger_susp_init example_env (example_input [[-1, 2, -1, 3]]) (some 0)).susp.t0 +
        (((trigger_susp_init example_env (example_input [[-1, 2, -1, 3]]) (some 0)).susp.current
          + (1 : Nat) : Int) : Rat) /
        (trigger_susp_init example_env (example_input [[-1, 2, -1, 3]]) (some 0)).susp.sr] ∧
    remaining_input (input_holder (trigger_fetch example_env (trigger_susp_init example_env
        (example_input [[-1, 2, -1, 3]]) (some 0)))) =
      (remaining_input (trigger_susp_init example_env
        (example_input [[-1, 2, -1, 3]]) (some 0))).drop 1 :=
  (C6_fires_at_most_once example_env _).2.2.2 ⟨by decide, by decide⟩
    (example_node_in_stream example_env [[-1, 2, -1, 3]]).1 1
    (by rw [(example_node_in_stream example_env [[-1, 2, -1, 3]]).2.1,
          (example_node_in_stream example_env [[-1, 2, -1, 3]]).2.2.1]; decide)
    (by decide)

/-- C7: after a successful firing at the sample `s` the clone behind `s1` has
`previous = s > 0` and its input cursor stands on `s`, so `s` is the first
sample it consumes; its next call of `trigger_fetch` writes a zero for `s`
(the block it closes off starts with 0 and `susp.current` advances by at
least one), and an evaluation of the closure in that call is at the time of a
later sample. -/
theorem C7_clone_does_not_retrigger (env : Env) (susp : trigger_susp_node) (j : Nat)
    (hok : env_ok env) (hin : in_stream env susp 0)
    (hedge : first_edge susp.previous (remaining_input susp) = some j)
    (hj : j < env.max_sample_block_len)
    (hst : (trigger_fetch env susp).status = fetch_status.returned) :
    ∃ clone, sound_susp (trigger_fetch env susp).susp.s1 = some clone ∧
      clone.previous = (remaining_input susp).getD j 0 ∧ 0 < clone.previous ∧
      clone.s1_ptr.head? = some clone.previous ∧
      remaining_input clone = (remaining_input susp).drop j ∧
      (trigger_fetch env clone).snd_list.block.head? = some 0 ∧
      1 ≤ (trigger_fetch env clone).snd_list.block_len ∧
      clone.susp.current + 1 ≤ (trigger_fetch env clone).susp.susp.current ∧
      (∀ t ∈ (trigger_fetch env clone).evals,
        t = clone.susp.t0 + ((trigger_fetch env clone).susp.susp.current : Rat) /
          clone.susp.sr) := by
  obtain ⟨A, htf, hA⟩ := call_edge env hok susp hin j hedge hj
  have hne : (trigger_fire env A (j : Int) (List.replicate j 0)).status ≠
      fetch_status.xlerror := by
    rw [← htf, hst]; simp
  obtain ⟨clone, c0, c1, c2, c3, c4, c5, c6, _, _⟩ := fire_clone env A _ _ hne
  obtain ⟨cin, crem⟩ := in_stream_congr env A clone 0 hA.stream c1 c2 c3 c6 c5
  have hpos : 0 < clone.previous := by
    rw [c4, hA.previous]; exact first_edge_pos _ _ _ hedge
  have hhead : clone.s1_ptr.head? = some clone.previous := by
    rw [c2, c4, hA.previous]; exact hA.at_sample
  have hrem : remaining_input clone ≠ [] := by
    intro h
    simp only [remaining_input, List.append_eq_nil] at h
    rw [h.1] at hhead
    simp at hhead
  have hfirst : first_edge clone.previous (remaining_input clone) ≠ some 0 := by
    have : remaining_input clone = clone.previous :: (remaining_input clone).tail := by
      cases hq : clone.s1_ptr with
      | nil => rw [hq] at hhead; simp at hhead
      | cons a t =>
        rw [hq] at hhead
        simp only [List.head?_cons, Option.some.injEq] at hhead
        simp [remaining_input, hq, hhead]
    rw [this]
    exact first_edge_not_zero _ _ hpos
  obtain ⟨n, z1, z2, z3, z4, z5⟩ := call_zeros env hok clone cin
  have hn := z5 hfirst hrem
  refine ⟨clone, by rw [htf]; exact c0, by rw [c4, hA.previous], hpos, hhead,
    by rw [crem, hA.input], ?_, ?_, ?_, z4⟩
  · rw [z1, List.head?_replicate]
    simp; omega
  · rw [z2]; exact_mod_cast hn
  · rw [z3]
    have : (1 : Int) ≤ (n : Int) := by exact_mod_cast hn
    linarith

theorem C7_clone_does_not_retrigger_witness :
    ∃ clone, sound_susp (trigger_fetch example_env (trigger_susp_init example_env
        (example_input [[-1, 2, -1, 3]]) (some 0))).susp.s1 = some clone ∧
      (trigger_fetch example_env clone).snd_list.block.head? = some 0 := by
  obtain ⟨i1, i2, i3, _, i5, i6, i7, i8⟩ := example_node_in_stream example_env [[-1, 2, -1, 3]]
  have hok : env_ok example_env := ⟨by decide, by decide⟩
  have hfe : first_edge
      (trigger_susp_init example_env (example_input [[-1, 2, -1, 3]]) (some 0)).previous
      (remaining_input (trigger_susp_init example_env (example_input [[-1, 2, -1, 3]]) (some 0)))
        = some 1 := by rw [i2, i3]; decide
  have hst := ((call_edge_status example_env hok _ i1 1 hfe (by decide)).2
    (example_sound _ 10) rfl).2 (by rw [i6]; rfl)
  obtain ⟨clone, h1, _, _, _, _, h6, _⟩ :=
    C7_clone_does_not_retrigger example_env _ 1 hok i1 hfe (by decide) hst
  exact ⟨clone, h1, h6⟩

/-- C8: on a freshly constructed trigger whose finite input of `N` samples has
no rising edge, successive calls of `trigger_fetch` never evaluate the closure,
return blocks of zeros that total exactly `N` samples and then return the
terminal block; and a call returns the terminal block exactly when it has
computed no sample and the termination index is known and equal to the
current sample index. -/
theorem C8_terminates_with_input (env : Env) (s1 : sound_type) (closure : Option Nat)
    (bs : List (List sample_type)) (node : trigger_susp_node) (calls : Nat)
    (hok : env_ok env) (hs1 : s1.list = snd_list.blocks bs) (hscale : s1.scale = 1)
    (hcur : s1.current = 0)
    (hnode : sound_susp (snd_make_trigger env s1 closure) = some node)
    (hno : first_edge 0 bs.flatten = none) (hcalls : bs.flatten.length < calls) :
    (trigger_run env calls node).blocks.flatten = List.replicate bs.flatten.length 0 ∧
    (trigger_run env calls node).evals = [] ∧
    (trigger_run env calls node).unreturned = [] ∧
    (trigger_run env calls node).ending = run_end.terminated ∧
    (∀ susp : trigger_susp_node, in_stream env susp 0 ∨ at_end env susp →
      ((trigger_fetch env susp).snd_list.terminated = true ↔
        (trigger_fetch env susp).snd_list.block_len = 0 ∧
        (trigger_fetch env susp).susp.terminate_cnt ≠ env.UNKNOWN ∧
        (trigger_fetch env susp).susp.terminate_cnt =
          (trigger_fetch env susp).susp.susp.current)) := by
  obtain ⟨i1, i2, i3, i4, _, _, _, _⟩ :=
    init_in_stream env s1 closure bs node hs1 hscale hcur hnode
  obtain ⟨r1, r2, r3, r4⟩ := run_to_end env hok calls node i1 i4 (by rw [i2, i3]; exact hno)
    (by rw [i2]; exact hcalls)
  rw [i2] at r1
  refine ⟨r1, r2, r3, r4, ?_⟩
  intro susp hst
  have hu := hok.2
  have hm := hok.1
  rcases hst with hin | hend
  · rcases fetch_post env hok susp hin with
      ⟨j, A, _, _, h3, hA⟩ | ⟨_, _, S, togo, h3, hS⟩ | ⟨_, _, S, h3, hS⟩
    · rw [h3, (fire_evals env A _ _).2.2.2, fire_terminate_cnt, hA.stream.unknown]
      simp
    · rw [h3, finish_full env hok]
      have : (env.max_sample_block_len : Int) ≠ 0 := by exact_mod_cast (by omega : env.max_sample_block_len ≠ 0)
      simp [this]
    · obtain ⟨z1, z2⟩ := finish_end env _ _ _ _ S hS hin.nonneg
      by_cases hR : remaining_input susp = []
      · obtain ⟨z3, z4, _⟩ := z1 hR
        rw [h3, z3]
        have hn := z4.nonneg
        simp only [snd_list_terminate, true_iff, true_and]
        exact ⟨by rw [z4.known]; omega, z4.known⟩
      · rw [h3, z2 hR]
        have : ((remaining_input susp).length : Int) ≠ 0 := by
          have := List.length_pos.mpr hR
          exact_mod_cast (by omega : (remaining_input susp).length ≠ 0)
        simp [this]
  · rw [fetch_at_end env hok susp hend]
    have hn := hend.nonneg
    simp only [snd_list_terminate, true_iff, true_and]
    exact ⟨by rw [hend.known]; omega, hend.known⟩

theorem C8_terminates_with_input_witness :
    (trigger_run example_env 4 (trigger_susp_init example_env
        (example_input [[-1, 0], [-2]]) (some 0))).blocks.flatten = List.replicate 3 0 ∧
    (trigger_run example_env 4 (trigger_susp_init example_env
        (example_input [[-1, 0], [-2]]) (some 0))).ending = run_end.terminated :=
  ⟨(C8_terminates_with_input example_env (example_input [[-1, 0], [-2]]) (some 0)
      [[-1, 0], [-2]] _ 4 ⟨by decide, by decide⟩ rfl rfl rfl rfl (by decide) (by decide)).1,
   (C8_terminates_with_input example_env (example_input [[-1, 0], [-2]]) (some 0)
      [[-1, 0], [-2]] _ 4 ⟨by decide, by decide⟩ rfl rfl rfl rfl (by decide)
      (by decide)).2.2.2.1⟩

/-- C9: whenever a call of `trigger_fetch` evaluates the closure and the
closure returns a sound whose sample rate differs from that of the node, the
call fails with `xlfail` ("sample rates must match") and hands no block to its
caller, however many zeros it had computed before the edge; when the rates are
equal the call does not fail with this error (it returns); and the call fails
this way only on such a mismatch. -/
theorem C9_rate_mismatch_fails (env : Env) (susp : trigger_susp_node) (now : time_type)
    (snd : sound_type) (hev : (trigger_fetch env susp).evals = [now])
    (hx : env.xleval susp.closure now = LVAL.sound snd) :
    (snd.sr ≠ susp.susp.sr →
      (trigger_fetch env susp).status = fetch_status.xlfail ∧
      own_block (trigger_fetch env susp) = none ∧
      (trigger_fetch env susp).delegated = none) ∧
    (snd.sr = susp.susp.sr →
      (trigger_fetch env susp).status ≠ fetch_status.xlfail ∧
      (trigger_fetch env susp).status = fetch_status.returned) ∧
    ((trigger_fetch env susp).status = fetch_status.xlfail → snd.sr ≠ susp.susp.sr) := by
  obtain ⟨A, cnt1, out1, h1, h2, h3, h4⟩ := fetch_fired env susp now hev
  obtain ⟨_, s2, s3, _⟩ := fire_status env A cnt1 out1
  have hsr : A.susp.sr = susp.susp.sr := by rw [h3]
  have hxA : env.xleval A.closure (now_of A) = LVAL.sound snd := by rw [h2, h4]; exact hx
  obtain ⟨m1, m2⟩ := s2 snd hxA
  rw [hsr] at m1 m2
  refine ⟨?_, ?_, ?_⟩
  · intro h
    obtain ⟨f1, f2⟩ := m1 h
    rw [h1]
    refine ⟨f1, ?_, f2⟩
    simp [own_block, f1]
  · intro h
    have := m2 h
    rw [h1, this]
    simp
  · intro h hsr2
    have := m2 hsr2
    rw [h1] at h
    rw [h] at this
    simp at this

theorem C9_rate_mismatch_fails_witness :
    (trigger_fetch example_env_rate (trigger_susp_init example_env_rate
        (example_input [[-1, -1], [2, 3]]) (some 0))).status = fetch_status.xlfail := by
  obtain ⟨i1, i2, i3, _, i5, i6, i7, i8⟩ :=
    example_node_in_stream example_env_rate [[-1, -1], [2, 3]]
  have hok : env_ok example_env_rate := ⟨by decide, by decide⟩
  have hfe : first_edge
      (trigger_susp_init example_env_rate (example_input [[-1, -1], [2, 3]]) (some 0)).previous
      (remaining_input (trigger_susp_init example_env_rate
        (example_input [[-1, -1], [2, 3]]) (some 0))) = some 2 := by rw [i2, i3]; decide
  have hev := (call_edge_summary example_env_rate hok _ i1 2 hfe (by decide)).2.2.2
  exact ((C9_rate_mismatch_fails example_env_rate _ _ (example_sound _ 20) hev rfl).1
    (by rw [i6]; simp [example_sound])).1

/-- C10: a call of `trigger_fetch` fails with `xlerror` ("closure did not
return a (monophonic) sound") if and only if it evaluated the closure, which
it does on detecting an edge, and the value returned is not a sound; in that
case no block is handed to the caller and the closure has been evaluated
exactly once; a call that does not evaluate the closure fails with neither
error, and on a well-formed node it returns. -/
theorem C10_evaluation_error (env : Env) (susp : trigger_susp_node) :
    ((trigger_fetch env susp).status = fetch_status.xlerror ↔
      ∃ now, (trigger_fetch env susp).evals = [now] ∧
        ∀ snd, env.xleval susp.closure now ≠ LVAL.sound snd) ∧
    ((trigger_fetch env susp).status = fetch_status.xlerror →
      own_block (trigger_fetch env susp) = none ∧
      (trigger_fetch env susp).delegated = none ∧
      (trigger_fetch env susp).evals.length = 1) ∧
    ((trigger_fetch env susp).evals = [] →
      (trigger_fetch env susp).status ≠ fetch_status.xlerror ∧
      (trigger_fetch env susp).status ≠ fetch_status.xlfail) ∧
    (env_ok env → in_stream env susp 0 ∨ at_end env susp →
      (trigger_fetch env susp).evals = [] →
      (trigger_fetch env susp).status = fetch_status.returned) := by
  refine ⟨?_, ?_, ?_, ?_⟩
  · rcases fetch_any env susp with ⟨A, cnt1, out1, h1, h2, h3⟩ | ⟨h1, _, h3, _⟩
    · obtain ⟨s1, _⟩ := fire_status env A cnt1 out1
      obtain ⟨e1, _⟩ := fire_evals env A cnt1 out1
      rw [h1, s1, e1, h2]
      constructor
      · intro h; exact ⟨now_of A, rfl, h⟩
      · rintro ⟨now, hn, h⟩
        simp only [List.cons.injEq, and_true] at hn
        rw [hn]; exact h
    · constructor
      · intro h; exact absurd h h3
      · rintro ⟨now, hn, _⟩
        rw [h1] at hn; simp at hn
  · intro h
    rcases fetch_any env susp with ⟨A, cnt1, out1, h1, _, _⟩ | ⟨_, _, h3, _⟩
    · rw [h1] at h ⊢
      obtain ⟨_, _, _, s4, _⟩ := fire_status env A cnt1 out1
      refine ⟨by simp [own_block, h], (s4 h).1, ?_⟩
      rw [(fire_evals env A cnt1 out1).1]; rfl
    · exact absurd h h3
  · intro hev
    rcases fetch_any env susp with ⟨A, cnt1, out1, h1, _, _⟩ | ⟨_, _, h3, h4, _⟩
    · rw [h1, (fire_evals env A cnt1 out1).1] at hev
      simp at hev
    · exact ⟨h3, h4⟩
  · intro hok hst hev
    rcases hst with hin | hend
    · exact ((call_summary env hok susp hin).2.2.2 hev).1
    · rw [fetch_at_end env hok susp hend]

theorem C10_evaluation_error_witness :
    (trigger_fetch example_env_nil (trigger_susp_init example_env_nil
        (example_input [[-1, -1], [2, 3]]) (some 0))).status = fetch_status.xlerror := by
  obtain ⟨i1, i2, i3, _, i5, i6, i7, i8⟩ :=
    example_node_in_stream example_env_nil [[-1, -1], [2, 3]]
  have hok : env_ok example_env_nil := ⟨by decide, by decide⟩
  have hfe : first_edge
      (trigger_susp_init example_env_nil (example_input [[-1, -1], [2, 3]]) (some 0)).previous
      (remaining_input (trigger_susp_init example_env_nil
        (example_input [[-1, -1], [2, 3]]) (some 0))) = some 2 := by rw [i2, i3]; decide
  have hev := (call_edge_summary example_env_nil hok _ i1 2 hfe (by decide)).2.2.2
  exact (C10_evaluation_error example_env_nil _).1.mpr
    ⟨_, hev, fun snd h => by simp [example_env_nil] at h⟩

/-- What a call that returned after evaluating the closure left behind,
whatever the node: the transmuted node, and the result of the add fetch on it
exactly when no sample had been computed. -/
theorem fetch_fired_outcome (env : Env) (susp : trigger_susp_node)
    (hst : (trigger_fetch env susp).status = fetch_status.returned)
    (hev : (trigger_fetch env susp).evals ≠ []) :
    (trigger_fetch env susp).snd_list.terminated = false ∧
    (trigger_fetch env susp).delegated =
      (if (trigger_fetch env susp).snd_list.block_len = 0 then
        some (env.add_fetch (trigger_fetch env susp).susp.susp.fetch (trigger_fetch env susp).susp)
      else none) := by
  rcases fetch_any env susp with ⟨A, cnt1, out1, h1, _, _⟩ | ⟨h1, _⟩
  · rw [h1] at hst ⊢
    obtain ⟨snd, _, _, hsusp, hdel⟩ := fire_returned env A cnt1 out1 hst
    obtain ⟨_, _, e3, e4⟩ := fire_evals env A cnt1 out1
    rw [hdel, e3, hsusp]
    exact ⟨e4, rfl⟩
  · exact absurd h1 hev

theorem ROUNDBIG_trunc (x : Rat) :
    (0 ≤ x + 1 / 2 → ROUNDBIG x = ⌊x + 1 / 2⌋) ∧
    (x + 1 / 2 < 0 → ROUNDBIG x = ⌈x + 1 / 2⌉) := by
  unfold ROUNDBIG
  generalize x + 1 / 2 = y
  have hd : (0 : Int) ≤ y.den := by exact_mod_cast (Nat.zero_le y.den)
  constructor
  · intro h
    have hn : 0 ≤ y.num := Rat.num_nonneg.mpr h
    rw [Int.tdiv_eq_ediv hn hd, Rat.floor_def]
  · intro h
    have hn : 0 ≤ (-y).num := Rat.num_nonneg.mpr (by linarith)
    have h1 : ⌈y⌉ = -⌊-y⌋ := by rw [Int.floor_neg, neg_neg]
    have h2 : y.num = -((-y).num) := by simp
    rw [h1, Rat.floor_def, h2, Int.neg_tdiv, Int.tdiv_eq_ediv hn hd]
    simp

theorem fetch_select_round (env : Env) (susp : trigger_susp_node) (now : time_type)
    (snd : sound_type) (hev : (trigger_fetch env susp).evals = [now])
    (hx : env.xleval susp.closure now = LVAL.sound snd)
    (hst : (trigger_fetch env susp).status = fetch_status.returned) :
    (trigger_fetch env susp).susp.susp.fetch =
      if 0 < ROUNDBIG (((normalized_s2 env snd).t0 - now) * susp.susp.sr) then
        fetch_routine.add_s1_nn_fetch
      else fetch_routine.add_s1_s2_nn_fetch := by
  rw [fetch_select env susp now snd hev hx hst]
  simp only [ROUNDBIG_pos_iff]

theorem check_s1_frame (env : Env) (susp : trigger_susp_node) (bs : List (List sample_type))
    (h : susp.s1.list = snd_list.blocks bs) :
    (∃ bs1, (susp_check_term_samples env susp).s1.list = snd_list.blocks bs1) ∧
    (susp_check_term_samples env susp).s1.t0 = susp.s1.t0 ∧
    (susp_check_term_samples env susp).s1.sr = susp.s1.sr ∧
    (susp_check_term_samples env susp).s1.scale = susp.s1.scale := by
  unfold susp_check_term_samples
  split
  · cases bs with
    | nil =>
      have hg : sound_get_next env susp.s1 =
          (List.replicate env.max_sample_block_len 0, true,
            { susp.s1 with current := susp.s1.current + env.max_sample_block_len }) := by
        simp only [sound_get_next, h]
      simp only [hg, if_true]
      simp [h]
    | cons b rest =>
      have hg : sound_get_next env susp.s1 =
          (b, false, { susp.s1 with list := snd_list.blocks rest,
                                    current := susp.s1.current + b.length }) := by
        simp only [sound_get_next, h]
      simp only [hg, Bool.false_eq_true, if_false]
      simp
  · exact ⟨⟨bs, h⟩, rfl, rfl, rfl⟩

/-- The input a call leaves to its continuation is the stream the node had:
the handle that the node or its clone holds after the call has the start time,
sample rate and scale of the input handle before the call. -/
theorem outer_loop_input_frame (env : Env) :
    ∀ (fuel : Nat) (susp : trigger_susp_node) (cnt togo : Int) (out : List sample_type)
      (bs : List (List sample_type)), susp.s1.list = snd_list.blocks bs →
    (input_holder (trigger_outer_loop env fuel susp cnt togo out)).s1.t0 = susp.s1.t0 ∧
    (input_holder (trigger_outer_loop env fuel susp cnt togo out)).s1.sr = susp.s1.sr ∧
    (input_holder (trigger_outer_loop env fuel susp cnt togo out)).s1.scale = susp.s1.scale := by
  intro fuel
  induction fuel with
  | zero =>
    intro susp cnt togo out bs h
    rw [holder_of_blocks _ bs (by simpa [trigger_outer_loop] using h)]
    simp [trigger_outer_loop]
  | succ fuel ih =>
    intro susp cnt togo out bs h
    obtain ⟨⟨bs1, c0⟩, c1, c2, c3⟩ := check_s1_frame env susp bs h
    have hfin : ∀ (S : trigger_susp_node) (c t : Int) (o : List sample_type) (b : List (List sample_type)),
        S.s1.list = snd_list.blocks b →
        (input_holder (trigger_finish S c t o)).s1 = S.s1 := by
      intro S c t o b hb
      have : (trigger_finish S c t o).susp.s1 = S.s1 := by
        unfold trigger_finish; split <;> rfl
      rw [holder_of_blocks _ b (by rw [this]; exact hb), this]
    unfold trigger_outer_loop
    split
    · split
      · rw [hfin _ _ _ _ bs1 c0]
        exact ⟨c1, c2, c3⟩
      · split
        · split
          · rename_i s n out1 _
            have hA : (close_off_block (susp_check_term_samples env susp) s cnt
                (run_length env (susp_check_term_samples env susp) cnt) n).s1.list
                  = snd_list.blocks bs1 := c0
            obtain ⟨k1, _, _, _⟩ := fire_holder env _
              (cnt + (run_length env (susp_check_term_samples env susp) cnt - n)) out1 bs1 hA
            simp only [trigger_edge]
            rw [k1]
            exact ⟨c1, c2, c3⟩
          · rename_i previous out1 _
            obtain ⟨h1, h2, h3⟩ := ih (advance_input (susp_check_term_samples env susp) previous
              (run_length env (susp_check_term_samples env susp) cnt))
              (cnt + run_length env (susp_check_term_samples env susp) cnt)
              (run_length env (susp_check_term_samples env susp) cnt) out1 bs1 c0
            exact ⟨h1.trans c1, h2.trans c2, h3.trans c3⟩
          · rw [holder_of_blocks _ bs1 c0]
            exact ⟨c1, c2, c3⟩
        · obtain ⟨h1, h2, h3⟩ := ih (advance_input (susp_check_term_samples env susp)
              (susp_check_term_samples env susp).previous 0) (cnt + 0) 0 out bs1 c0
          exact ⟨h1.trans c1, h2.trans c2, h3.trans c3⟩
    · rw [hfin _ _ _ _ bs h]
      exact ⟨rfl, rfl, rfl⟩

theorem fetch_input_frame (env : Env) (susp : trigger_susp_node) (bs : List (List sample_type))
    (h : susp.s1.list = snd_list.blocks bs) :
    (input_holder (trigger_fetch env susp)).s1.t0 = susp.s1.t0 ∧
    (input_holder (trigger_fetch env susp)).s1.sr = susp.s1.sr ∧
    (input_holder (trigger_fetch env susp)).s1.scale = susp.s1.scale :=
  outer_loop_input_frame env _ susp 0 0 [] bs h

theorem transmuted_fields (env : Env) (A : trigger_susp_node) (snd : sound_type) :
    (transmuted env A snd).s1.t0 = now_of A ∧
    (transmuted env A snd).s1.sr = A.susp.sr ∧
    (transmuted env A snd).s1.scale = 1 ∧
    (transmuted env A snd).s1_cnt = 0 ∧
    (transmuted env A snd).s1_ptr = [] ∧
    (transmuted env A snd).s2 = some (normalized_s2 env snd) ∧
    (transmuted env A snd).susp.mark = mark_routine.add_mark ∧
    (transmuted env A snd).susp.print_tree = print_tree_routine.add_print_tree ∧
    (transmuted env A snd).susp.log_stop_cnt = env.UNKNOWN ∧
    (transmuted env A snd).previous = A.previous ∧
    (transmuted env A snd).terminate_cnt = A.terminate_cnt := by
  unfold transmuted select_add_fetch
  split <;> simp [convert_to_add, sound_create, sound_copy]

theorem rising_edges_none (R : List sample_type) :
    ∀ p : sample_type, first_edge p R = none → rising_edges p R = [] := by
  induction R with
  | nil => intro p _; rfl
  | cons s rest ih =>
    intro p h
    simp only [first_edge] at h
    by_cases hc : p ≤ 0 ∧ s > 0
    · simp [hc] at h
    · simp only [hc, if_false, Option.map_eq_none'] at h
      simp [rising_edges, hc, ih s h]

theorem rising_edges_some (R : List sample_type) :
    ∀ (p : sample_type) (k : Nat), first_edge p R = some k →
    rising_edges p R =
      k :: (rising_edges (R.getD k 0) (R.drop k)).map (fun i => i + k) := by
  induction R with
  | nil => intro p k h; simp [first_edge] at h
  | cons s rest ih =>
    intro p k h
    simp only [first_edge] at h
    by_cases hc : p ≤ 0 ∧ s > 0
    · simp only [hc, and_self, if_true, Option.some.injEq] at h
      subst h
      have hs : ¬ (s ≤ 0) := not_le.mpr hc.2
      simp [rising_edges, hc, hs]
    · simp only [hc, if_false, Option.map_eq_some'] at h
      obtain ⟨i, hi, rfl⟩ := h
      simp only [rising_edges, hc, if_false, ih s i hi, List.map_cons, List.map_map,
        List.getD_cons_succ, List.drop_succ_cons]
      simp [Function.comp_def, Nat.add_assoc]

/-- The run of calls on a node whose input has its first rising edge at index
`k`, when the closure returns a sound of the node's sample rate: the run ends
with the firing, after one evaluation at the time of the edge, and leaves
behind `s1` a clone that is a trigger node in the middle of the same input,
with the same closure, its cursor on the triggering sample and `previous`
set to it. -/
theorem run_fired_clone (env : Env) (hok : env_ok env) :
    ∀ (calls : Nat) (susp : trigger_susp_node) (k : Nat),
    in_stream env susp 0 → susp.susp.fetch = fetch_routine.trigger_fetch →
    first_edge susp.previous (remaining_input susp) = some k → k < calls →
    (∀ now, ∃ snd, env.xleval susp.closure now = LVAL.sound snd ∧ snd.sr = susp.susp.sr) →
    (trigger_run env calls susp).ending = run_end.fired ∧
    (trigger_run env calls susp).evals =
      [susp.susp.t0 + ((susp.susp.current + k : Int) : Rat) / susp.susp.sr] ∧
    ∃ clone, sound_susp (trigger_run env calls susp).susp.s1 = some clone ∧
      in_stream env clone 0 ∧
      clone.closure = susp.closure ∧
      clone.susp = { susp.susp with current := susp.susp.current + k } ∧
      remaining_input clone = (remaining_input susp).drop k ∧
      clone.previous = (remaining_input susp).getD k 0 := by
  intro calls
  induction calls with
  | zero => intro susp k _ _ _ h; omega
  | succ calls ih =>
    intro susp k hin hfetch hfe hk hgood
    by_cases hlt : k < env.max_sample_block_len
    · obtain ⟨A, htf, hA⟩ := call_edge env hok susp hin k hfe hlt
      obtain ⟨_, r2, _, _, r5⟩ := run_fire env calls susp A k htf
      obtain ⟨snd, hx, hsr⟩ := hgood (now_of A)
      have hst : (trigger_fire env A (k : Int) (List.replicate k 0)).status
          = fetch_status.returned :=
        ((fire_status env A _ _).2.1 snd (by rw [hA.closure]; exact hx)).2
          (by rw [hsr, hA.header])
      have hne : (trigger_fire env A (k : Int) (List.replicate k 0)).status ≠
          fetch_status.xlerror := by rw [hst]; simp
      obtain ⟨clone, c0, c1, c2, c3, c4, c5, c6, c7, _⟩ := fire_clone env A _ _ hne
      obtain ⟨cin, crem⟩ := in_stream_congr env A clone 0 hA.stream c1 c2 c3 c6 c5
      have hfired : (trigger_run env (calls + 1) susp).ending = run_end.fired :=
        r5.mpr (by rw [htf]; exact hst)
      have hsusp : (trigger_run env (calls + 1) susp).susp = (trigger_fetch env susp).susp := by
        have hf : (trigger_fetch env susp).susp.susp.fetch ≠ fetch_routine.trigger_fetch := by
          rw [htf, (fire_returned env A _ _ hst).choose_spec.2.2.1]
          rcases (transmuted_fetch env A _).1 with h | h <;> rw [h] <;> simp
        have hs : (trigger_fetch env susp).status = fetch_status.returned := by
          rw [htf]; exact hst
        simp only [trigger_run, hs, ne_eq, not_true_eq_false, if_false, hf,
          not_false_eq_true, if_true]
      refine ⟨hfired, ?_, clone, by rw [hsusp, htf]; exact c0, cin, by rw [c7, hA.closure],
        by rw [c5, hA.header], by rw [crem, hA.input], by rw [c4, hA.previous]⟩
      rw [r2]
      simp only [now_of, hA.header]
    · have hge : env.max_sample_block_len ≤ k := by omega
      obtain ⟨f1, f2, f3⟩ := (first_edge_split_some _ _ env.max_sample_block_len k hfe).2 hge
      obtain ⟨S, htf, hS⟩ := call_full env hok susp hin f1 f3
      obtain ⟨n1, n2, n3, n4, n5⟩ := full_next env _ _ _ _ S hS
      have hm := hok.1
      generalize advance_current S env.max_sample_block_len = N at htf n1 n2 n3 n4 n5
      have hNf : N.susp.fetch = fetch_routine.trigger_fetch := by rw [n4]; exact hfetch
      obtain ⟨i1, i2, clone, i3, i4, i5, i6, i7, i8⟩ :=
        ih N (k - env.max_sample_block_len) n1 hNf
          (by rw [n2, n3]; exact f2) (by omega)
          (by intro now; rw [n5, n4]; exact hgood now)
      rw [run_step_continue env calls susp N _ _ htf hNf]
      refine ⟨i1, ?_, clone, i3, i4, by rw [i5, n5], ?_, ?_, ?_⟩
      · rw [i2, n4]
        simp only
        congr 2
        push_cast [Nat.cast_sub hge]
        ring
      · rw [i6, n4]
        simp only [snd_susp_node.mk.injEq, true_and, and_true]
        push_cast [Nat.cast_sub hge]
        ring
      · rw [i7, n2, List.drop_drop]
        congr 1; omega
      · rw [i8, n2, List.getD_eq_getElem?_getD, List.getD_eq_getElem?_getD, List.getElem?_drop]
        congr 2; omega

/-- The closure is evaluated once per rising edge of the input along the chain
of clones, at the time of each edge, when every evaluation returns a sound of
the node's sample rate. -/
theorem chain_evals (env : Env) (hok : env_ok env) (calls : Nat) :
    ∀ (clones : Nat) (susp : trigger_susp_node),
    in_stream env susp 0 → susp.susp.fetch = fetch_routine.trigger_fetch →
    (∀ now, ∃ snd, env.xleval susp.closure now = LVAL.sound snd ∧ snd.sr = susp.susp.sr) →
    (remaining_input susp).length < calls →
    (rising_edges susp.previous (remaining_input susp)).length < clones →
    trigger_chain env calls clones susp =
      (rising_edges susp.previous (remaining_input susp)).map
        (fun k : Nat => susp.susp.t0 + ((susp.susp.current + k : Int) : Rat) / susp.susp.sr) := by
  intro clones
  induction clones with
  | zero => intro susp _ _ _ _ h; omega
  | succ clones ih =>
    intro susp hin hfetch hgood hcalls hclones
    cases hfe : first_edge susp.previous (remaining_input susp) with
    | none =>
      obtain ⟨_, r2, _, r4⟩ := run_to_end env hok calls susp hin hfetch hfe hcalls
      simp [trigger_chain, r4, r2, rising_edges_none _ _ hfe]
    | some k =>
      have hk := first_edge_lt_length _ _ _ hfe
      obtain ⟨r1, r2, clone, c0, cin, c1, c2, c3, c4⟩ :=
        run_fired_clone env hok calls susp k hin hfetch hfe (by omega) hgood
      have hre := rising_edges_some _ _ _ hfe
      rw [hre] at hclones ⊢
      simp only [List.length_cons, List.length_map] at hclones
      have := ih clone cin (by rw [c2]; exact hfetch)
        (by intro now; rw [c1, c2]; exact hgood now)
        (by rw [c3]; simp; omega)
        (by rw [c3, c4]; omega)
      simp only [trigger_chain, r1, if_true, c0, r2, this, c3, c4, c2, List.singleton_append,
        List.map_cons, List.map_map]
      congr 1
      apply List.map_congr_left
      intro a _
      simp only [Function.comp_apply]
      congr 2
      push_cast
      ring

/-- The length of the block a call closes off on a well-formed node: at most
a full block, less than a full block when the closure was evaluated, and at
least one sample when the trigger itself returns it and it is not the
terminal block. -/
theorem call_block_bounds (env : Env) (hok : env_ok env) (susp : trigger_susp_node)
    (hst : in_stream env susp 0 ∨ at_end env susp) :
    ∃ n : Nat, (trigger_fetch env susp).snd_list.block.length = n ∧
      (trigger_fetch env susp).snd_list.block_len = n ∧
      n ≤ env.max_sample_block_len ∧
      ((trigger_fetch env susp).evals ≠ [] → n < env.max_sample_block_len) ∧
      ((trigger_fetch env susp).status = fetch_status.returned →
        (trigger_fetch env susp).delegated = none →
        (trigger_fetch env susp).snd_list.terminated = false → 1 ≤ n) := by
  have hm := hok.1
  rcases hst with hin | hend
  · rcases fetch_post env hok susp hin with
      ⟨j, A, h1, h2, h3, hA⟩ | ⟨h1, h2, S, togo, h3, hS⟩ | ⟨h1, h2, S, h3, hS⟩
    · obtain ⟨e1, e2, e3, _⟩ := fire_evals env A (j : Int) (List.replicate j 0)
      refine ⟨j, by rw [h3, e2]; simp, by rw [h3, e3], by omega, fun _ => h2, ?_⟩
      intro hs hd _
      rw [h3] at hs hd
      obtain ⟨_, _, _, _, hdel⟩ := fire_returned env A _ _ hs
      rw [hdel] at hd
      by_contra hj
      have : (j : Int) = 0 := by exact_mod_cast (by omega : j = 0)
      simp [this] at hd
    · rw [h3, finish_full env hok]
      exact ⟨env.max_sample_block_len, by simp, rfl, le_refl _, by simp, fun _ _ _ => hm⟩
    · obtain ⟨z1, z2⟩ := finish_end env _ _ _ _ S hS hin.nonneg
      by_cases hR : remaining_input susp = []
      · rw [h3, (z1 hR).1]
        exact ⟨0, rfl, rfl, Nat.zero_le _, by simp, by simp [snd_list_terminate]⟩
      · rw [h3, z2 hR]
        exact ⟨(remaining_input susp).length, by simp, rfl, by omega, by simp,
          fun _ _ _ => List.length_pos.mpr hR⟩
  · rw [fetch_at_end env hok susp hend]
    exact ⟨0, rfl, rfl, Nat.zero_le _, by simp, by simp [snd_list_terminate]⟩

theorem fire_xlfail (env : Env) (A : trigger_susp_node) (cnt : Int) (out : List sample_type)
    (h : (trigger_fire env A cnt out).status = fetch_status.xlfail) :
    ∃ snd, env.xleval A.closure (now_of A) = LVAL.sound snd ∧ snd.sr ≠ A.susp.sr ∧
      (trigger_fire env A cnt out).susp = convert_to_add env A (now_of A) snd := by
  unfold trigger_fire at h ⊢
  split at h
  · rename_i snd hx
    split at h
    · rename_i hsr
      refine ⟨snd, hx, ?_, ?_⟩
      · intro e; exact hsr e.symm
      · simp [hx, hsr]
    · simp at h
  · simp at h

theorem run_length_pre (env : Env) (S : trigger_susp_node) (cnt : Int)
    (hc : cnt < (env.max_sample_block_len : Int)) (h1 : 1 ≤ S.s1_cnt)
    (h2 : S.terminate_cnt = env.UNKNOWN ∨ S.susp.current + cnt ≤ S.terminate_cnt) :
    0 ≤ run_length env S cnt ∧
    run_length env S cnt ≤ (env.max_sample_block_len : Int) - cnt ∧
    run_length env S cnt ≤ S.s1_cnt ∧
    (at_terminate env S cnt = true ∨ 1 ≤ run_length env S cnt) ∧
    (at_terminate env S cnt = true → run_length env S cnt = 0) := by
  have hmin1 : (1 : Int) ≤ min ((env.max_sample_block_len : Int) - cnt) S.s1_cnt :=
    le_min (by omega) h1
  have hminl := min_le_left ((env.max_sample_block_len : Int) - cnt) S.s1_cnt
  have hminr := min_le_right ((env.max_sample_block_len : Int) - cnt) S.s1_cnt
  by_cases hcond : S.terminate_cnt ≠ env.UNKNOWN ∧
      S.terminate_cnt ≤ S.susp.current + cnt +
        min ((env.max_sample_block_len : Int) - cnt) S.s1_cnt
  · have hT : S.susp.current + cnt ≤ S.terminate_cnt := by
      rcases h2 with h | h
      · exact absurd h hcond.1
      · exact h
    have hrl : run_length env S cnt = S.terminate_cnt - (S.susp.current + cnt) := by
      unfold run_length
      rw [if_pos hcond]
    rw [hrl]
    refine ⟨by omega, by omega, by omega, ?_, ?_⟩
    · by_cases h0 : S.terminate_cnt - (S.susp.current + cnt) = 0
      · left
        simp only [at_terminate, decide_eq_true_eq]
        exact ⟨hcond.1, hcond.2, h0⟩
      · right; omega
    · intro h
      simp only [at_terminate, decide_eq_true_eq] at h
      exact h.2.2
  · have hrl : run_length env S cnt =
        min ((env.max_sample_block_len : Int) - cnt) S.s1_cnt := by
      unfold run_length
      rw [if_neg hcond]
    rw [hrl]
    refine ⟨by omega, hminl, hminr, Or.inr hmin1, ?_⟩
    intro h
    simp only [at_terminate, decide_eq_true_eq] at h
    exact absurd ⟨h.1, h.2.1⟩ hcond

/-- The passes of the outer loop under the preconditions of each pass: the run
length is never negative, every pass breaks at the termination index, returns
at an edge or goes on with `cnt` increased by `togo ≥ 1`, there are at most
`max_sample_block_len - cnt` passes, and the loop is left before the bound on
the passes followed is reached. -/
theorem passes_bound (env : Env) :
    ∀ (fuel : Nat) (susp : trigger_susp_node) (cnt togo : Int) (out : List sample_type),
    cnt ≤ (env.max_sample_block_len : Int) →
    (∀ p ∈ outer_loop_passes env fuel susp cnt out, pass_pre env p) →
    (∀ p ∈ outer_loop_passes env fuel susp cnt out,
      0 ≤ p.togo ∧ cnt ≤ p.cnt ∧ p.cnt + p.togo ≤ (env.max_sample_block_len : Int) ∧
      (p.leaves = pass_exit.break_at_terminate ∨ p.leaves = pass_exit.edge_return ∨
        (p.leaves = pass_exit.continues ∧ 1 ≤ p.togo))) ∧
    List.Chain' (fun p q : loop_pass => q.cnt = p.cnt + p.togo)
      (outer_loop_passes env fuel susp cnt out) ∧
    (∀ p ∈ (outer_loop_passes env fuel susp cnt out).head?, p.cnt = cnt) ∧
    ((outer_loop_passes env fuel susp cnt out).length : Int) ≤
      (env.max_sample_block_len : Int) - cnt ∧
    ((env.max_sample_block_len : Int) - cnt + 1 ≤ fuel →
      (trigger_outer_loop env fuel susp cnt togo out).status ≠ fetch_status.no_progress) := by
  intro fuel
  induction fuel with
  | zero =>
    intro susp cnt togo out hc _
    refine ⟨by simp [outer_loop_passes], by simp [outer_loop_passes],
      by simp [outer_loop_passes], by simp [outer_loop_passes]; omega, ?_⟩
    intro h; simp at h; omega
  | succ fuel ih =>
    intro susp cnt togo out hc hpre
    by_cases hlt : cnt < (env.max_sample_block_len : Int)
    · generalize hS : susp_check_term_samples env susp = S at hpre
      by_cases hat : at_terminate env S cnt = true
      · have hp : outer_loop_passes env (fuel + 1) susp cnt out =
            [pass_of env S cnt pass_exit.break_at_terminate] := by
          simp only [outer_loop_passes, hlt, if_true, hS, hat]
        rw [hp] at hpre ⊢
        obtain ⟨p1, p2, p3⟩ := hpre _ (List.mem_singleton.mpr rfl)
        obtain ⟨r1, r2, r3, r4, r5⟩ := run_length_pre env S cnt hlt p1 p3
        refine ⟨?_, by simp, by simp [pass_of], by simp; omega, ?_⟩
        · intro p hp1
          rw [List.mem_singleton.mp hp1]
          exact ⟨r1, le_refl _, by simp only [pass_of]; omega, Or.inl rfl⟩
        · intro _
          simp only [trigger_outer_loop, hlt, if_true, hS, hat]
          rw [(finish_any S cnt 0 out).2.2.1]
          simp
      · simp only [Bool.not_eq_true] at hat
        by_cases hrl : run_length env S cnt ≠ 0
        · cases hil : inner_loop S.previous (run_length env S cnt) S.s1_ptr out with
          | edge s n out1 =>
            have hp : outer_loop_passes env (fuel + 1) susp cnt out =
                [pass_of env S cnt pass_exit.edge_return] := by
              simp only [outer_loop_passes, hlt, if_true, hS, hat, Bool.false_eq_true,
                if_false, hrl, ne_eq, not_false_eq_true, hil]
            rw [hp] at hpre ⊢
            obtain ⟨p1, p2, p3⟩ := hpre _ (List.mem_singleton.mpr rfl)
            obtain ⟨r1, r2, r3, r4, r5⟩ := run_length_pre env S cnt hlt p1 p3
            refine ⟨?_, by simp, by simp [pass_of], by simp; omega, ?_⟩
            · intro p hp1
              rw [List.mem_singleton.mp hp1]
              exact ⟨r1, le_refl _, by simp only [pass_of]; omega, Or.inr (Or.inl rfl)⟩
            · intro _
              simp only [trigger_outer_loop, hlt, if_true, hS, hat, Bool.false_eq_true,
                if_false, hrl, ne_eq, not_false_eq_true, hil, trigger_edge]
              exact (fire_status env _ _ _).2.2.2.2.2
          | done previous out1 =>
            have hp : outer_loop_passes env (fuel + 1) susp cnt out =
                pass_of env S cnt pass_exit.continues ::
                  outer_loop_passes env fuel (advance_input S previous (run_length env S cnt))
                    (cnt + run_length env S cnt) out1 := by
              simp only [outer_loop_passes, hlt, if_true, hS, hat, Bool.false_eq_true,
                if_false, hrl, ne_eq, not_false_eq_true, hil]
            rw [hp] at hpre ⊢
            obtain ⟨p1, p2, p3⟩ := hpre _ (List.mem_cons_self _ _)
            obtain ⟨r1, r2, r3, r4, r5⟩ := run_length_pre env S cnt hlt p1 p3
            have hge : 1 ≤ run_length env S cnt := by
              rcases r4 with h | h
              · rw [hat] at h; simp at h
              · exact h
            obtain ⟨i1, i2, i3, i4, i5⟩ := ih (advance_input S previous (run_length env S cnt))
              (cnt + run_length env S cnt) (run_length env S cnt) out1 (by omega)
              (fun p hp1 => hpre p (List.mem_cons_of_mem _ hp1))
            refine ⟨?_, ?_, by simp [pass_of], ?_, ?_⟩
            · intro p hp1
              rcases List.mem_cons.mp hp1 with h | h
              · rw [h]
                exact ⟨r1, le_refl _, by simp only [pass_of]; omega,
                  Or.inr (Or.inr ⟨rfl, hge⟩)⟩
              · obtain ⟨a1, a2, a3, a4⟩ := i1 p h
                exact ⟨a1, by omega, a3, a4⟩
            · rw [List.chain'_cons']
              refine ⟨?_, i2⟩
              intro q hq
              rw [i3 q hq]; rfl
            · simp only [List.length_cons]
              push_cast
              omega
            · intro hf
              simp only [trigger_outer_loop, hlt, if_true, hS, hat, Bool.false_eq_true,
                if_false, hrl, ne_eq, not_false_eq_true, hil]
              exact i5 (by push_cast at hf ⊢; omega)
          | fault =>
            exfalso
            have hp : outer_loop_passes env (fuel + 1) susp cnt out =
                [pass_of env S cnt pass_exit.fault] := by
              simp only [outer_loop_passes, hlt, if_true, hS, hat, Bool.false_eq_true,
                if_false, hrl, ne_eq, not_false_eq_true, hil]
            rw [hp] at hpre
            obtain ⟨p1, p2, p3⟩ := hpre _ (List.mem_singleton.mpr rfl)
            obtain ⟨r1, r2, r3, r4, r5⟩ := run_length_pre env S cnt hlt p1 p3
            have hge : 1 ≤ run_length env S cnt := by
              rcases r4 with h | h
              · rw [hat] at h; simp at h
              · exact h
            simp only [pass_of] at p2
            obtain ⟨t, ht⟩ : ∃ t : Nat, run_length env S cnt = t :=
              ⟨(run_length env S cnt).toNat, by omega⟩
            rw [ht] at hil hge r3
            have ht1 : 1 ≤ t := by exact_mod_cast hge
            have ht2 : t ≤ S.s1_ptr.length := by
              have : (t : Int) ≤ (S.s1_ptr.length : Int) := le_trans r3 p2
              exact_mod_cast this
            rw [inner_loop_spec S.s1_ptr S.previous t out ht1 ht2] at hil
            split at hil <;> simp at hil
        · exfalso
          simp only [ne_eq, not_not] at hrl
          have hp : outer_loop_passes env (fuel + 1) susp cnt out =
              pass_of env S cnt pass_exit.continues ::
                outer_loop_passes env fuel (advance_input S S.previous 0) (cnt + 0) out := by
            simp only [outer_loop_passes, hlt, if_true, hS, hat, Bool.false_eq_true,
              if_false, hrl, ne_eq, not_true_eq_false]
          rw [hp] at hpre
          obtain ⟨p1, p2, p3⟩ := hpre _ (List.mem_cons_self _ _)
          obtain ⟨r1, r2, r3, r4, r5⟩ := run_length_pre env S cnt hlt p1 p3
          rcases r4 with h | h
          · rw [hat] at h; simp at h
          · omega
    · have hp : outer_loop_passes env (fuel + 1) susp cnt out = [] := by
        simp only [outer_loop_passes, hlt, if_false]
      rw [hp]
      refine ⟨by simp, by simp, by simp, by simp; omega, ?_⟩
      intro _
      simp only [trigger_outer_loop, hlt, if_false]
      rw [(finish_any susp cnt togo out).2.2.1]
      simp

theorem check_nonempty (env : Env) (susp : trigger_susp_node) (k : Nat)
    (h : in_stream env susp k) (hne : ¬ (susp.s1_ptr = [] ∧ blocks_of susp.s1 = []))
    (hb : ∀ b ∈ blocks_of susp.s1, b ≠ []) :
    (susp_check_term_samples env susp).s1_ptr ≠ [] ∧
    (∀ b ∈ blocks_of (susp_check_term_samples env susp).s1, b ≠ []) := by
  obtain ⟨hbl, hc, hu, ha, hn⟩ := h
  by_cases hz : susp.s1_cnt = 0
  · have hq : susp.s1_ptr = [] := by
      rw [hc] at hz
      exact List.length_eq_zero.mp (by exact_mod_cast hz)
    cases hbs : blocks_of susp.s1 with
    | nil => exact absurd ⟨hq, hbs⟩ hne
    | cons b rest =>
      rw [hbs] at hbl hb
      have hg : sound_get_next env susp.s1 =
          (b, false, { susp.s1 with list := snd_list.blocks rest,
                                    current := susp.s1.current + b.length }) := by
        simp only [sound_get_next, hbl]
      simp only [susp_check_term_samples, hz, if_true, hg]
      refine ⟨hb b (List.mem_cons_self _ _), ?_⟩
      intro c hcm
      simp only [blocks_of] at hcm
      exact hb c (List.mem_cons_of_mem _ hcm)
  · simp only [susp_check_term_samples, hz, if_false]
    refine ⟨?_, hb⟩
    intro hq
    apply hz; rw [hc, hq]; simp

theorem in_stream_advance (env : Env) (S : trigger_susp_node) (k t : Nat)
    (previous : sample_type) (h : in_stream env S k) (ht : t ≤ S.s1_ptr.length) :
    in_stream env (advance_input S previous (t : Int)) (k + t) := by
  obtain ⟨hbl, hc, hu, ha, hn⟩ := h
  refine ⟨hbl, ?_, hu, ?_, hn⟩
  · simp only [advance_input, Int.toNat_ofNat, List.length_drop, hc]
    push_cast [Nat.cast_sub ht]; ring
  · simp only [input_cursor, advance_input] at ha ⊢
    push_cast
    linarith

/-- On a trigger node in the middle of an input all of whose blocks are
non-empty, every pass of the outer loop meets the preconditions: the block at
hand has a sample and the termination index is unknown or not below
`susp.current + cnt`. -/
theorem passes_pre (env : Env) (hok : env_ok env) :
    ∀ (fuel : Nat) (susp : trigger_susp_node) (k : Nat) (out : List sample_type),
    in_stream env susp k → (∀ b ∈ blocks_of susp.s1, b ≠ []) →
    ∀ p ∈ outer_loop_passes env fuel susp k out, pass_pre env p := by
  intro fuel
  induction fuel with
  | zero => intro susp k out _ _ p hp; simp [outer_loop_passes] at hp
  | succ fuel ih =>
    intro susp k out hin hb p hp
    by_cases hlt : (k : Int) < (env.max_sample_block_len : Int)
    · by_cases heos : susp.s1_ptr = [] ∧ blocks_of susp.s1 = []
      · obtain ⟨hq, hbl⟩ := heos
        obtain ⟨e1, e2, e3, e4, _, e5, e6, e7⟩ := check_eos env susp k hin hq hbl
        have hm := hok.1
        have hat : at_terminate env (susp_check_term_samples env susp) k = true := by
          simp only [at_terminate, decide_eq_true_eq, e4, e6, e2]
          refine ⟨?_, ?_, by ring⟩
          · have := hin.nonneg; have := hok.2; omega
          · have : (0:Int) ≤ min ((env.max_sample_block_len : Int) - k)
                env.max_sample_block_len := by
              apply le_min <;> omega
            omega
        simp only [outer_loop_passes, hlt, if_true, hat, List.mem_singleton] at hp
        rw [hp]
        refine ⟨?_, ?_, ?_⟩
        · simp only [pass_of, e2]; exact_mod_cast hm
        · simp only [pass_of, e2, e3, List.length_replicate]; exact le_refl _
        · right; simp only [pass_of, e4, e6]; exact le_refl _
      · obtain ⟨m1, _, _, _, _, _, _⟩ := check_more env susp k hin heos
        obtain ⟨n1, n2⟩ := check_nonempty env susp k hin heos hb
        simp only [outer_loop_passes, hlt, if_true] at hp
        generalize susp_check_term_samples env susp = S1 at m1 n1 n2 hp
        have hlen : 1 ≤ S1.s1_ptr.length := List.length_pos.mpr n1
        have hhead : ∀ l : pass_exit, pass_pre env (pass_of env S1 k l) := by
          intro l
          refine ⟨?_, ?_, Or.inl m1.unknown⟩
          · simp only [pass_of, m1.cnt_ok]; exact_mod_cast hlen
          · simp only [pass_of, m1.cnt_ok]; exact le_refl _
        obtain ⟨hrl, hat⟩ := run_length_unknown env S1 k m1.unknown
        have hk : k ≤ env.max_sample_block_len := by
          have : (k : Int) ≤ (env.max_sample_block_len : Int) := le_of_lt hlt
          exact_mod_cast this
        have hrl2 : run_length env S1 k =
            ((min (env.max_sample_block_len - k) S1.s1_ptr.length : Nat) : Int) := by
          rw [hrl, m1.cnt_ok]; push_cast [Nat.cast_sub hk]; rfl
        generalize ht : min (env.max_sample_block_len - k) S1.s1_ptr.length = t at hrl2
        have ht2 : t ≤ S1.s1_ptr.length := by rw [← ht]; exact Nat.min_le_right _ _
        simp only [hat, Bool.false_eq_true, if_false] at hp
        split at hp
        · split at hp
          · rw [List.mem_singleton.mp hp]; exact hhead _
          · rename_i previous out1 _
            rcases List.mem_cons.mp hp with h | h
            · rw [h]; exact hhead _
            · rw [hrl2] at h
              have hcast : (k : Int) + (t : Int) = ((k + t : Nat) : Int) := by push_cast; ring
              rw [hcast] at h
              exact ih _ (k + t) out1 (in_stream_advance env S1 k t previous m1 ht2) n2 p h
          · rw [List.mem_singleton.mp hp]; exact hhead _
        · rcases List.mem_cons.mp hp with h | h
          · rw [h]; exact hhead _
          · rename_i hz
            simp only [ne_eq, not_not] at hz
            have ht0 : t = 0 := by
              rw [hrl2] at hz; exact_mod_cast hz
            have hcast : (k : Int) + 0 = ((k + 0 : Nat) : Int) := by push_cast; ring
            rw [hcast] at h
            have := in_stream_advance env S1 k 0 S1.previous m1 (Nat.zero_le _)
            exact ih _ (k + 0) out this n2 p (by simpa using h)
    · simp [outer_loop_passes, hlt] at hp

/-- C11: at a successful firing, when the call had computed no sample before
the edge the caller gets exactly the result of one call of the newly selected
add fetch on the transmuted node and nothing from the trigger's own block;
when it had computed `cnt > 0` samples the caller gets the trigger's block of
exactly `cnt` zeros and the add fetch is not called.  The add fetch is called
only in the first case, so at most once per call of `trigger_fetch`. -/
theorem C11_delegation_only_when_no_samples (env : Env) (susp : trigger_susp_node) :
    ((trigger_fetch env susp).status = fetch_status.returned →
      (trigger_fetch env susp).evals ≠ [] →
      ((trigger_fetch env susp).snd_list.block_len = 0 →
        (trigger_fetch env susp).delegated =
          some (env.add_fetch (trigger_fetch env susp).susp.susp.fetch
            (trigger_fetch env susp).susp) ∧
        fetch_outcome (trigger_fetch env susp) =
          env.add_fetch (trigger_fetch env susp).susp.susp.fetch
            (trigger_fetch env susp).susp ∧
        own_block (trigger_fetch env susp) = none ∧
        ((trigger_fetch env susp).susp.susp.fetch = fetch_routine.add_s1_nn_fetch ∨
          (trigger_fetch env susp).susp.susp.fetch = fetch_routine.add_s1_s2_nn_fetch)) ∧
      ((trigger_fetch env susp).snd_list.block_len ≠ 0 →
        (trigger_fetch env susp).delegated = none ∧
        fetch_outcome (trigger_fetch env susp) =
          ((trigger_fetch env susp).susp, (trigger_fetch env susp).snd_list) ∧
        own_block (trigger_fetch env susp) = some (trigger_fetch env susp).snd_list.block)) ∧
    ((trigger_fetch env susp).delegated ≠ none →
      (trigger_fetch env susp).status = fetch_status.returned ∧
      (trigger_fetch env susp).evals.length = 1 ∧
      (trigger_fetch env susp).snd_list.block_len = 0) ∧
    (env_ok env → in_stream env susp 0 →
      (trigger_fetch env susp).evals ≠ [] →
      (trigger_fetch env susp).snd_list.block_len ≠ 0 →
      ∃ n : Nat, 0 < n ∧ (trigger_fetch env susp).snd_list.block_len = n ∧
        (trigger_fetch env susp).snd_list.block = List.replicate n 0) := by
  refine ⟨?_, ?_, ?_⟩
  · intro hst hev
    obtain ⟨htm, hdel⟩ := fetch_fired_outcome env susp hst hev
    constructor
    · intro h0
      rw [if_pos h0] at hdel
      refine ⟨hdel, by simp [fetch_outcome, hdel], by simp [own_block, hdel],
        (fetch_transmuted env susp hst hev).2⟩
    · intro h0
      rw [if_neg h0] at hdel
      exact ⟨hdel, by simp [fetch_outcome, hdel], by simp [own_block, hdel, hst, htm]⟩
  · intro hd
    rcases fetch_any env susp with ⟨A, cnt1, out1, h1, _, _⟩ | ⟨_, h2, _⟩
    · rw [h1] at hd ⊢
      have hc := fire_delegated env A cnt1 out1 hd
      obtain ⟨e1, _, e3, _⟩ := fire_evals env A cnt1 out1
      refine ⟨?_, by rw [e1]; rfl, by rw [e3]; exact hc⟩
      obtain ⟨_, s2, s3, s4, s5, s6⟩ := fire_status env A cnt1 out1
      cases hs : (trigger_fire env A cnt1 out1).status with
      | returned => rfl
      | xlerror => exact absurd (s4 hs).1 hd
      | xlfail =>
        obtain ⟨snd, hx, hsr⟩ := s3 hs
        exact absurd ((s2 snd hx).1 hsr).2 hd
      | fault => exact absurd hs s5
      | no_progress => exact absurd hs s6
    · exact absurd h2 hd
  · intro hok hin hev h0
    obtain ⟨n, z1, z2, _, _, _⟩ := call_zeros env hok susp hin
    refine ⟨n, ?_, z2, z1⟩
    rw [z2] at h0
    have : n ≠ 0 := fun h => h0 (by rw [h]; rfl)
    omega

theorem C11_delegation_only_when_no_samples_witness :
    (trigger_fetch example_env (trigger_susp_init example_env
        (example_input [[1, -1]]) (some 0))).delegated =
      some (example_env.add_fetch
        (trigger_fetch example_env (trigger_susp_init example_env
          (example_input [[1, -1]]) (some 0))).susp.susp.fetch
        (trigger_fetch example_env (trigger_susp_init example_env
          (example_input [[1, -1]]) (some 0))).susp) := by
  obtain ⟨i1, i2, i3, _, i5, i6, i7, i8⟩ := example_node_in_stream example_env [[1, -1]]
  have hok : env_ok example_env := ⟨by decide, by decide⟩
  have hfe : first_edge (trigger_susp_init example_env (example_input [[1, -1]]) (some 0)).previous
      (remaining_input (trigger_susp_init example_env (example_input [[1, -1]]) (some 0)))
        = some 0 := by rw [i2, i3]; decide
  obtain ⟨_, _, s3, s4⟩ := call_edge_summary example_env hok _ i1 0 hfe (by decide)
  have hst := ((call_edge_status example_env hok _ i1 0 hfe (by decide)).2
    (example_sound _ 10) rfl).2 (by rw [i6]; rfl)
  exact (((C11_delegation_only_when_no_samples example_env _).1 hst
    (by rw [s4]; simp)).1 (by rw [s3]; rfl)).1

/-- C12: `snd_trigger` (and `snd_make_trigger`) returns a stream of scale 1
whose sample rate and start time are those of the input the node stores (those
of the caller's stream when that has scale 1 or when normalizing keeps them),
wrapping a trigger node with `previous = 0`, `susp.current = 0`, termination
index unknown, `s1_cnt = 0`, no `s2` and the given closure; the node's input is
a copy of the caller's stream, normalized exactly when its scale is not 1, and
the copy leaves the caller's stream value as it is. -/
theorem C12_constructor_initial_state (env : Env) (s1 : sound_type) (closure : Option Nat) :
    (snd_trigger env s1 closure).scale = 1 ∧
    (snd_trigger env s1 closure).sr = (trigger_input env (sound_copy s1)).sr ∧
    (snd_trigger env s1 closure).t0 = (trigger_input env (sound_copy s1)).t0 ∧
    (∃ node, sound_susp (snd_trigger env s1 closure) = some node ∧
      node.susp.fetch = fetch_routine.trigger_fetch ∧
      node.previous = 0 ∧ node.susp.current = 0 ∧ node.terminate_cnt = env.UNKNOWN ∧
      node.s1_cnt = 0 ∧ node.s1_ptr = [] ∧ node.s2 = none ∧ node.closure = closure ∧
      node.susp.sr = node.s1.sr ∧ node.susp.t0 = node.s1.t0 ∧
      node.s1 = trigger_input env (sound_copy s1) ∧
      (s1.scale ≠ 1 → node.s1 = env.snd_make_normalize (sound_copy s1)) ∧
      (s1.scale = 1 → node.s1 = sound_copy s1)) ∧
    sound_copy s1 = s1 ∧
    snd_trigger env s1 closure = snd_make_trigger env (sound_copy s1) closure ∧
    (s1.scale = 1 →
      (snd_trigger env s1 closure).sr = s1.sr ∧ (snd_trigger env s1 closure).t0 = s1.t0) ∧
    ((env.snd_make_normalize s1).sr = s1.sr → (env.snd_make_normalize s1).t0 = s1.t0 →
      (snd_trigger env s1 closure).sr = s1.sr ∧ (snd_trigger env s1 closure).t0 = s1.t0) := by
  refine ⟨rfl, rfl, rfl, ⟨trigger_susp_init env (sound_copy s1) closure, rfl, rfl, rfl, rfl,
    rfl, rfl, rfl, rfl, rfl, rfl, rfl, rfl, ?_, ?_⟩, rfl, rfl, ?_, ?_⟩
  · intro h
    simp [trigger_susp_init, trigger_input, sound_copy, h]
  · intro h
    simp [trigger_susp_init, trigger_input, sound_copy, h]
  · intro h
    simp [snd_trigger, snd_make_trigger, sound_create, trigger_susp_init, trigger_input,
      sound_copy, h]
  · intro h1 h2
    by_cases h : s1.scale = 1
    · simp [snd_trigger, snd_make_trigger, sound_create, trigger_susp_init, trigger_input,
        sound_copy, h]
    · simp [snd_trigger, snd_make_trigger, sound_create, trigger_susp_init, trigger_input,
        sound_copy, h, h1, h2]

theorem C12_constructor_initial_state_witness :
    (snd_trigger example_env (example_input [[1, -1]]) (some 0)).sr
        = (example_input [[1, -1]]).sr ∧
    (snd_trigger example_env (example_input [[1, -1]]) (some 0)).t0
        = (example_input [[1, -1]]).t0 :=
  (C12_constructor_initial_state example_env (example_input [[1, -1]]) (some 0)).2.2.2.2.2.2.1 rfl

/-- C13: at every successful firing the add strategy is chosen from
`delay = ROUNDBIG ((s2.t0 - now) * sr)`, where `ROUNDBIG` adds one half and
truncates to an integer: `add_s1_nn_fetch` is selected exactly when
`delay > 0` and `add_s1_s2_nn_fetch` exactly when `delay ≤ 0`. -/
theorem C13_strategy_from_rounded_delay (env : Env) (susp : trigger_susp_node)
    (now : time_type) (snd : sound_type)
    (hev : (trigger_fetch env susp).evals = [now])
    (hx : env.xleval susp.closure now = LVAL.sound snd)
    (hst : (trigger_fetch env susp).status = fetch_status.returned) :
    ((trigger_fetch env susp).susp.susp.fetch = fetch_routine.add_s1_nn_fetch ↔
      0 < ROUNDBIG (((normalized_s2 env snd).t0 - now) * susp.susp.sr)) ∧
    ((trigger_fetch env susp).susp.susp.fetch = fetch_routine.add_s1_s2_nn_fetch ↔
      ROUNDBIG (((normalized_s2 env snd).t0 - now) * susp.susp.sr) ≤ 0) ∧
    (∀ x : Rat, (0 ≤ x + 1 / 2 → ROUNDBIG x = ⌊x + 1 / 2⌋) ∧
      (x + 1 / 2 < 0 → ROUNDBIG x = ⌈x + 1 / 2⌉)) := by
  have hsel := fetch_select_round env susp now snd hev hx hst
  refine ⟨?_, ?_, ROUNDBIG_trunc⟩
  · rw [hsel]
    by_cases h : 0 < ROUNDBIG (((normalized_s2 env snd).t0 - now) * susp.susp.sr)
    · simp [h]
    · simp [h]
  · rw [hsel]
    by_cases h : 0 < ROUNDBIG (((normalized_s2 env snd).t0 - now) * susp.susp.sr)
    · simp [h]
    · simp [h, not_lt.mp h]

theorem C13_strategy_from_rounded_delay_witness :
    ((trigger_fetch example_env_late (trigger_susp_init example_env_late
        (example_input [[1, -1]]) (some 0))).susp.susp.fetch
      = fetch_routine.add_s1_s2_nn_fetch ↔
    ROUNDBIG (((normalized_s2 example_env_late (example_sound (5 + 1 / 40) 10)).t0 - 5) *
      (trigger_susp_init example_env_late (example_input [[1, -1]]) (some 0)).susp.sr) ≤ 0) := by
  obtain ⟨i1, i2, i3, _, i5, i6, i7, i8⟩ := example_node_in_stream example_env_late [[1, -1]]
  have hok : env_ok example_env_late := ⟨by decide, by decide⟩
  have hfe : first_edge
      (trigger_susp_init example_env_late (example_input [[1, -1]]) (some 0)).previous
      (remaining_input (trigger_susp_init example_env_late (example_input [[1, -1]]) (some 0)))
        = some 0 := by rw [i2, i3]; decide
  have hev := (call_edge_summary example_env_late hok _ i1 0 hfe (by decide)).2.2.2
  have hnow : (trigger_susp_init example_env_late (example_input [[1, -1]]) (some 0)).susp.t0 +
      (((trigger_susp_init example_env_late (example_input [[1, -1]]) (some 0)).susp.current
        + (0 : Nat) : Int) : Rat) /
      (trigger_susp_init example_env_late (example_input [[1, -1]]) (some 0)).susp.sr = 5 := by
    rw [i5, i6, i7]; norm_num
  rw [hnow] at hev
  have hst := ((call_edge_status example_env_late hok _ i1 0 hfe (by decide)).2
    (example_sound (5 + 1 / 40) 10) (by rw [hnow]; rfl)).2 (by rw [i6]; rfl)
  exact (C13_strategy_from_rounded_delay example_env_late _ 5 (example_sound (5 + 1 / 40) 10)
    hev rfl hst).2.1

/-- C14: after a successful firing of a node at the sample with index `j` of
its unconsumed input, at time `now`: `s1` is a new stream with start time
`now`, the sample rate of the node and scale 1 that wraps a clone; the clone
holds the node's input stream, with the cursor on the triggering sample and
the remaining count of the current block, the node's `previous` (the
triggering sample) and `susp.current`, and has no `s2`; the node's own cursor
is cleared (`s1_cnt = 0`, `s1_ptr = NULL`); `s2` is the closure result
(normalized when its scale is not 1); and `susp.t0` and `susp.sr` are
unchanged. -/
theorem C14_state_after_firing (env : Env) (susp : trigger_susp_node) (j : Nat)
    (hok : env_ok env) (hin : in_stream env susp 0)
    (hedge : first_edge susp.previous (remaining_input susp) = some j)
    (hj : j < env.max_sample_block_len)
    (hst : (trigger_fetch env susp).status = fetch_status.returned) :
    ∃ clone snd,
      env.xleval susp.closure
        (susp.susp.t0 + ((susp.susp.current + j : Int) : Rat) / susp.susp.sr)
          = LVAL.sound snd ∧
      (trigger_fetch env susp).susp.s1.t0 =
        susp.susp.t0 + ((susp.susp.current + j : Int) : Rat) / susp.susp.sr ∧
      (trigger_fetch env susp).susp.s1.sr = susp.susp.sr ∧
      (trigger_fetch env susp).susp.s1.scale = 1 ∧
      sound_susp (trigger_fetch env susp).susp.s1 = some clone ∧
      remaining_input clone = (remaining_input susp).drop j ∧
      input_cursor clone = input_cursor susp + j ∧
      clone.s1_cnt = clone.s1_ptr.length ∧
      clone.s1_ptr.head? = some ((remaining_input susp).getD j 0) ∧
      clone.s1.t0 = susp.s1.t0 ∧ clone.s1.sr = susp.s1.sr ∧ clone.s1.scale = susp.s1.scale ∧
      clone.previous = (remaining_input susp).getD j 0 ∧
      clone.susp.current = (trigger_fetch env susp).susp.susp.current ∧
      clone.susp.current = susp.susp.current + j ∧
      clone.s2 = none ∧
      (trigger_fetch env susp).susp.s1_cnt = 0 ∧
      (trigger_fetch env susp).susp.s1_ptr = [] ∧
      (trigger_fetch env susp).susp.s2 = some (normalized_s2 env snd) ∧
      (trigger_fetch env susp).susp.susp.t0 = susp.susp.t0 ∧
      (trigger_fetch env susp).susp.susp.sr = susp.susp.sr := by
  obtain ⟨A, htf, hA⟩ := call_edge env hok susp hin j hedge hj
  obtain ⟨f1, f2, f3⟩ := fetch_input_frame env susp _ hin.blocks
  have hnow : now_of A =
      susp.susp.t0 + ((susp.susp.current + j : Int) : Rat) / susp.susp.sr := by
    simp only [now_of, hA.header]
  rw [htf] at hst f1 f2 f3 ⊢
  obtain ⟨snd, hx, _, hsusp, _⟩ := fire_returned env A _ _ hst
  have hne : (trigger_fire env A (j : Int) (List.replicate j 0)).status ≠
      fetch_status.xlerror := by rw [hst]; simp
  obtain ⟨clone, c0, c1, c2, c3, c4, c5, c6, _, c8⟩ := fire_clone env A _ _ hne
  obtain ⟨cin, crem⟩ := in_stream_congr env A clone 0 hA.stream c1 c2 c3 c6 c5
  obtain ⟨g1, g2, g3⟩ := fire_header env A (j : Int) (List.replicate j 0)
  obtain ⟨t1, t2, t3, t4, t5, t6, _⟩ := transmuted_fields env A snd
  have hh : input_holder (trigger_fire env A (j : Int) (List.replicate j 0)) = clone := by
    simp [input_holder, c0]
  rw [hh] at f1 f2 f3
  have hal : input_cursor susp = susp.susp.current := by
    have := hin.aligned; simp only [Nat.cast_zero, add_zero] at this; exact this.symm
  have hcal : input_cursor clone = clone.susp.current := by
    have := cin.aligned; simp only [Nat.cast_zero, add_zero] at this; exact this.symm
  have hcur : clone.susp.current = susp.susp.current + j := by rw [c5, hA.header]
  refine ⟨clone, snd, by rw [← hnow, ← hA.closure]; exact hx, by rw [hsusp, t1, hnow],
    by rw [hsusp, t2, hA.header], by rw [hsusp, t3], c0, by rw [crem, hA.input],
    by rw [hcal, hcur, hal], cin.cnt_ok, by rw [c2]; exact hA.at_sample, f1, f2, f3,
    by rw [c4, hA.previous], by rw [g1, c5], hcur, c8, by rw [hsusp, t4], by rw [hsusp, t5],
    by rw [hsusp, t6], by rw [g2, hA.header], by rw [g3, hA.header]⟩

theorem C14_state_after_firing_witness :
    ∃ clone snd,
      sound_susp (trigger_fetch example_env (trigger_susp_init example_env
        (example_input [[-1, -1], [2, 3]]) (some 0))).susp.s1 = some clone ∧
      clone.s2 = none ∧
      (trigger_fetch example_env (trigger_susp_init example_env
        (example_input [[-1, -1], [2, 3]]) (some 0))).susp.s2
          = some (normalized_s2 example_env snd) := by
  obtain ⟨i1, i2, i3, _, i5, i6, i7, i8⟩ :=
    example_node_in_stream example_env [[-1, -1], [2, 3]]
  have hok : env_ok example_env := ⟨by decide, by decide⟩
  have hfe : first_edge
      (trigger_susp_init example_env (example_input [[-1, -1], [2, 3]]) (some 0)).previous
      (remaining_input (trigger_susp_init example_env
        (example_input [[-1, -1], [2, 3]]) (some 0))) = some 2 := by rw [i2, i3]; decide
  have hst := ((call_edge_status example_env hok _ i1 2 hfe (by decide)).2
    (example_sound _ 10) rfl).2 (by rw [i6]; rfl)
  obtain ⟨clone, snd, h⟩ := C14_state_after_firing example_env _ 2 hok i1 hfe (by decide) hst
  exact ⟨clone, snd, h.2.2.2.2.1, h.2.2.2.2.2.2.2.2.2.2.2.2.2.2.2.1,
    h.2.2.2.2.2.2.2.2.2.2.2.2.2.2.2.2.2.2.1⟩

/-- C15: when `snd_make_normalize` returns streams of scale 1, every stream a
trigger node or the add it becomes holds as an input has scale 1: the input
stored by `snd_make_trigger`, the input a node or its clone keeps across a
call, the stream `s1` that wraps the clone after a firing, and the stream `s2`
stored by a successful firing. -/
theorem C15_inputs_have_scale_one (env : Env)
    (hnorm : ∀ snd : sound_type, (env.snd_make_normalize snd).scale = 1) :
    (∀ (s1 : sound_type) (closure : Option Nat) (node : trigger_susp_node),
      sound_susp (snd_make_trigger env s1 closure) = some node → node.s1.scale = 1) ∧
    (∀ (susp : trigger_susp_node) (bs : List (List sample_type)),
      susp.s1.list = snd_list.blocks bs → susp.s1.scale = 1 →
      (input_holder (trigger_fetch env susp)).s1.scale = 1) ∧
    (∀ susp : trigger_susp_node,
      (trigger_fetch env susp).status = fetch_status.returned →
      (trigger_fetch env susp).evals ≠ [] →
      (trigger_fetch env susp).susp.s1.scale = 1 ∧
      ∃ s2, (trigger_fetch env susp).susp.s2 = some s2 ∧ s2.scale = 1) := by
  have hn2 : ∀ snd : sound_type, (normalized_s2 env snd).scale = 1 := by
    intro snd
    unfold normalized_s2
    split
    · exact hnorm snd
    · rename_i h; exact not_not.mp h
  refine ⟨?_, ?_, ?_⟩
  · intro s1 closure node hnode
    simp only [snd_make_trigger, sound_create, sound_susp, Option.some.injEq] at hnode
    subst hnode
    show (trigger_input env s1).scale = 1
    unfold trigger_input
    split
    · exact hnorm s1
    · rename_i h; exact not_not.mp h
  · intro susp bs hb hs
    rw [(fetch_input_frame env susp bs hb).2.2, hs]
  · intro susp hst hev
    rcases fetch_any env susp with ⟨A, cnt1, out1, h1, _, _⟩ | ⟨h1, _⟩
    · rw [h1] at hst ⊢
      obtain ⟨snd, _, _, hsusp, _⟩ := fire_returned env A cnt1 out1 hst
      obtain ⟨_, _, t3, _, _, t6, _⟩ := transmuted_fields env A snd
      rw [hsusp]
      exact ⟨t3, normalized_s2 env snd, t6, hn2 snd⟩
    · exact absurd h1 hev

theorem C15_inputs_have_scale_one_witness :
    (trigger_susp_init example_env (example_input [[1, -1]]) (some 0)).s1.scale = 1 :=
  (C15_inputs_have_scale_one example_env (fun _ => rfl)).1 (example_input [[1, -1]]) (some 0)
    _ rfl

/-- C16: the clone a firing leaves behind `s1` is itself a live trigger: it
still holds the closure of the node (which the node itself has cleared after
a successful firing) and the fetch routine `trigger_fetch`, with `previous`
set to the triggering sample; so along the chain of clones the closure is
evaluated again at every later rising edge of the input, once per rising
edge, when every evaluation returns a sound of the node's sample rate. -/
theorem C16_clone_is_live_trigger (env : Env) (susp : trigger_susp_node) (j : Nat)
    (hok : env_ok env) (hin : in_stream env susp 0)
    (hfetch : susp.susp.fetch = fetch_routine.trigger_fetch)
    (hedge : first_edge susp.previous (remaining_input susp) = some j)
    (hj : j < env.max_sample_block_len)
    (hgood : ∀ now, ∃ snd, env.xleval susp.closure now = LVAL.sound snd ∧
      snd.sr = susp.susp.sr) :
    (trigger_fetch env susp).status = fetch_status.returned ∧
    (trigger_fetch env susp).susp.closure = none ∧
    (trigger_fetch env susp).susp.susp.fetch ≠ fetch_routine.trigger_fetch ∧
    (∃ clone, sound_susp (trigger_fetch env susp).susp.s1 = some clone ∧
      clone.closure = susp.closure ∧
      clone.susp.fetch = fetch_routine.trigger_fetch ∧
      clone.previous = (remaining_input susp).getD j 0 ∧
      ∀ (j1 calls : Nat), first_edge clone.previous (remaining_input clone) = some j1 →
        j1 < calls →
        (trigger_run env calls clone).ending = run_end.fired ∧
        (trigger_run env calls clone).evals =
          [susp.susp.t0 + ((susp.susp.current + j + j1 : Int) : Rat) / susp.susp.sr]) ∧
    (∀ calls clones : Nat, (remaining_input susp).length < calls →
      (rising_edges susp.previous (remaining_input susp)).length < clones →
      trigger_chain env calls clones susp =
        (rising_edges susp.previous (remaining_input susp)).map
          (fun k : Nat => susp.susp.t0 + ((susp.susp.current + k : Int) : Rat) / susp.susp.sr)) := by
  obtain ⟨A, htf, hA⟩ := call_edge env hok susp hin j hedge hj
  obtain ⟨snd, hx, hsr⟩ := hgood (now_of A)
  have hst : (trigger_fire env A (j : Int) (List.replicate j 0)).status
      = fetch_status.returned :=
    ((fire_status env A _ _).2.1 snd (by rw [hA.closure]; exact hx)).2
      (by rw [hsr, hA.header])
  have hne : (trigger_fire env A (j : Int) (List.replicate j 0)).status ≠
      fetch_status.xlerror := by rw [hst]; simp
  obtain ⟨clone, c0, c1, c2, c3, c4, c5, c6, c7, _⟩ := fire_clone env A _ _ hne
  obtain ⟨cin, crem⟩ := in_stream_congr env A clone 0 hA.stream c1 c2 c3 c6 c5
  have hst2 : (trigger_fetch env susp).status = fetch_status.returned := by rw [htf]; exact hst
  have hev : (trigger_fetch env susp).evals ≠ [] := by
    rw [htf, (fire_evals env A _ _).1]; simp
  obtain ⟨t1, t2⟩ := fetch_transmuted env susp hst2 hev
  have hcf : clone.susp.fetch = fetch_routine.trigger_fetch := by
    rw [c5, hA.header]; exact hfetch
  refine ⟨hst2, t1, ?_, ⟨clone, by rw [htf]; exact c0, by rw [c7, hA.closure], hcf,
    by rw [c4, hA.previous], ?_⟩, ?_⟩
  · rcases t2 with h | h <;> rw [h] <;> simp
  · intro j1 calls hj1 hc
    obtain ⟨r1, r2, _⟩ := run_fired_clone env hok calls clone j1 cin hcf hj1 hc
      (by intro now; rw [c7, hA.closure, c5, hA.header]; exact hgood now)
    refine ⟨r1, ?_⟩
    rw [r2, c5, hA.header]
  · intro calls clones h1 h2
    exact chain_evals env hok calls clones susp hin hfetch hgood h1 h2

theorem C16_clone_is_live_trigger_witness :
    trigger_chain example_env 5 3 (trigger_susp_init example_env
        (example_input [[-1, 2], [-1, 3]]) (some 0)) =
      (rising_edges (trigger_susp_init example_env
          (example_input [[-1, 2], [-1, 3]]) (some 0)).previous
        (remaining_input (trigger_susp_init example_env
          (example_input [[-1, 2], [-1, 3]]) (some 0)))).map
        (fun k : Nat => (trigger_susp_init example_env
            (example_input [[-1, 2], [-1, 3]]) (some 0)).susp.t0 +
          (((trigger_susp_init example_env
            (example_input [[-1, 2], [-1, 3]]) (some 0)).susp.current + k : Int) : Rat) /
          (trigger_susp_init example_env
            (example_input [[-1, 2], [-1, 3]]) (some 0)).susp.sr) := by
  obtain ⟨i1, i2, i3, i4, i5, i6, i7, i8⟩ :=
    example_node_in_stream example_env [[-1, 2], [-1, 3]]
  have hok : env_ok example_env := ⟨by decide, by decide⟩
  have hfe : first_edge
      (trigger_susp_init example_env (example_input [[-1, 2], [-1, 3]]) (some 0)).previous
      (remaining_input (trigger_susp_init example_env
        (example_input [[-1, 2], [-1, 3]]) (some 0))) = some 1 := by rw [i2, i3]; decide
  exact (C16_clone_is_live_trigger example_env _ 1 hok i1 i4 hfe (by decide)
    (fun now => ⟨example_sound now 10, rfl, by rw [i6]; rfl⟩)).2.2.2.2 5 3
    (by rw [i2]; decide) (by rw [i2, i3]; decide)

/-- C17: on a well-formed trigger node every block that `trigger_fetch` itself
returns is either the terminal block or has a length between 1 and
`max_sample_block_len`: the trigger never returns an empty block that is not
terminal, and a block closed off at an edge is shorter than
`max_sample_block_len`. -/
theorem C17_block_length_bounds (env : Env) (susp : trigger_susp_node) (hok : env_ok env)
    (hst : in_stream env susp 0 ∨ at_end env susp) :
    (∀ blk, own_block (trigger_fetch env susp) = some blk →
      1 ≤ blk.length ∧ blk.length ≤ env.max_sample_block_len ∧
      (blk.length : Int) = (trigger_fetch env susp).snd_list.block_len ∧
      ((trigger_fetch env susp).evals ≠ [] → blk.length < env.max_sample_block_len)) ∧
    ((trigger_fetch env susp).status = fetch_status.returned →
      (trigger_fetch env susp).delegated = none →
      (trigger_fetch env susp).snd_list.terminated = true ∨
      (1 ≤ (trigger_fetch env susp).snd_list.block_len ∧
        (trigger_fetch env susp).snd_list.block_len ≤ env.max_sample_block_len)) := by
  obtain ⟨n, b1, b2, b3, b4, b5⟩ := call_block_bounds env hok susp hst
  constructor
  · intro blk hb
    simp only [own_block] at hb
    split at hb
    · rename_i hc
      simp only [Option.some.injEq] at hb
      subst hb
      have hd : (trigger_fetch env susp).delegated = none := by
        cases hdd : (trigger_fetch env susp).delegated with
        | none => rfl
        | some v => rw [hdd] at hc; simp at hc
      rw [b1, b2]
      exact ⟨b5 hc.1 hd hc.2.1, b3, rfl, b4⟩
    · simp at hb
  · intro hs hd
    cases ht : (trigger_fetch env susp).snd_list.terminated with
    | true => exact Or.inl rfl
    | false =>
      right
      rw [b2]
      exact ⟨by exact_mod_cast b5 hs hd ht, by exact_mod_cast b3⟩

theorem C17_block_length_bounds_witness :
    (trigger_fetch example_env (trigger_susp_init example_env
        (example_input [[-1, -1], [2, 3]]) (some 0))).snd_list.terminated = true ∨
    (1 ≤ (trigger_fetch example_env (trigger_susp_init example_env
        (example_input [[-1, -1], [2, 3]]) (some 0))).snd_list.block_len ∧
      (trigger_fetch example_env (trigger_susp_init example_env
        (example_input [[-1, -1], [2, 3]]) (some 0))).snd_list.block_len
          ≤ example_env.max_sample_block_len) := by
  obtain ⟨i1, i2, i3, _, i5, i6, i7, i8⟩ :=
    example_node_in_stream example_env [[-1, -1], [2, 3]]
  have hok : env_ok example_env := ⟨by decide, by decide⟩
  have hfe : first_edge
      (trigger_susp_init example_env (example_input [[-1, -1], [2, 3]]) (some 0)).previous
      (remaining_input (trigger_susp_init example_env
        (example_input [[-1, -1], [2, 3]]) (some 0))) = some 2 := by rw [i2, i3]; decide
  obtain ⟨_, _, s3, s4⟩ := call_edge_summary example_env hok _ i1 2 hfe (by decide)
  have hst := ((call_edge_status example_env hok _ i1 2 hfe (by decide)).2
    (example_sound _ 10) rfl).2 (by rw [i6]; rfl)
  have hd := (fetch_fired_outcome example_env _ hst (by rw [s4]; simp)).2
  rw [s3] at hd
  exact (C17_block_length_bounds example_env _ hok (Or.inl i1)).2 hst
    (by rw [hd]; simp)

/-- C18: `trigger_fetch` is not atomic on failure.  When a call on a
well-formed node meets the edge at index `j` of its input and fails, with
`xlerror` or with `xlfail`, `previous` is already the triggering sample and
`susp.current` and the input cursor are already advanced by the `j` samples
computed, while `susp.fetch` and the closure are as before the call (the
closure is not cleared); on `xlfail` moreover `s1` is already the stream that
wraps the clone (which holds the advanced cursor, the node's own cursor being
cleared) and `s2` is already the closure result. -/
theorem C18_not_atomic_on_failure (env : Env) (susp : trigger_susp_node) (j : Nat)
    (hok : env_ok env) (hin : in_stream env susp 0)
    (hedge : first_edge susp.previous (remaining_input susp) = some j)
    (hj : j < env.max_sample_block_len) :
    (((trigger_fetch env susp).status = fetch_status.xlerror ∨
        (trigger_fetch env susp).status = fetch_status.xlfail) →
      (trigger_fetch env susp).susp.previous = (remaining_input susp).getD j 0 ∧
      (trigger_fetch env susp).susp.susp.current = susp.susp.current + j ∧
      input_cursor (input_holder (trigger_fetch env susp)) = input_cursor susp + j ∧
      remaining_input (input_holder (trigger_fetch env susp)) =
        (remaining_input susp).drop j ∧
      (trigger_fetch env susp).susp.susp.fetch = susp.susp.fetch ∧
      (trigger_fetch env susp).susp.closure = susp.closure) ∧
    ((trigger_fetch env susp).status = fetch_status.xlerror →
      input_holder (trigger_fetch env susp) = (trigger_fetch env susp).susp) ∧
    ((trigger_fetch env susp).status = fetch_status.xlfail →
      ∃ clone snd,
        env.xleval susp.closure
          (susp.susp.t0 + ((susp.susp.current + j : Int) : Rat) / susp.susp.sr)
            = LVAL.sound snd ∧
        snd.sr ≠ susp.susp.sr ∧
        sound_susp (trigger_fetch env susp).susp.s1 = some clone ∧
        input_holder (trigger_fetch env susp) = clone ∧
        (trigger_fetch env susp).susp.s2 = some snd ∧
        (trigger_fetch env susp).susp.s1_cnt = 0 ∧
        (trigger_fetch env susp).susp.s1_ptr = [] ∧
        (trigger_fetch env susp).susp.susp.mark = mark_routine.add_mark) := by
  obtain ⟨A, htf, hA⟩ := call_edge env hok susp hin j hedge hj
  obtain ⟨k1, k2, k3, _⟩ := fire_holder env A (j : Int) (List.replicate j 0) _ hA.stream.blocks
  obtain ⟨g1, _, _⟩ := fire_header env A (j : Int) (List.replicate j 0)
  obtain ⟨_, _, _, s4, _, _⟩ := fire_status env A (j : Int) (List.replicate j 0)
  have hnow : now_of A =
      susp.susp.t0 + ((susp.susp.current + j : Int) : Rat) / susp.susp.sr := by
    simp only [now_of, hA.header]
  have hAsr : A.susp.sr = susp.susp.sr := by rw [hA.header]
  have hal : input_cursor susp = susp.susp.current := by
    have := hin.aligned; simp only [Nat.cast_zero, add_zero] at this; exact this.symm
  have hAal : input_cursor A = A.susp.current := by
    have := hA.stream.aligned; simp only [Nat.cast_zero, add_zero] at this; exact this.symm
  have hcur : input_cursor (input_holder (trigger_fire env A (j : Int) (List.replicate j 0)))
      = input_cursor susp + j := by
    have : input_cursor (input_holder (trigger_fire env A (j : Int) (List.replicate j 0)))
        = input_cursor A := by simp only [input_cursor, k1, k3]
    rw [this, hAal, hA.header, hal]
  have hrem : remaining_input (input_holder (trigger_fire env A (j : Int) (List.replicate j 0)))
      = (remaining_input susp).drop j := by
    have : remaining_input (input_holder (trigger_fire env A (j : Int) (List.replicate j 0)))
        = remaining_input A := by simp only [remaining_input, k1, k2]
    rw [this, hA.input]
  rw [htf]
  refine ⟨?_, ?_, ?_⟩
  · intro hs
    rcases hs with hs | hs
    · have hsusp := (s4 hs).2
      exact ⟨by rw [hsusp]; exact hA.previous, by rw [g1, hA.header], hcur, hrem,
        by rw [hsusp, hA.header], by rw [hsusp]; exact hA.closure⟩
    · obtain ⟨snd, _, _, hsusp⟩ := fire_xlfail env A _ _ hs
      refine ⟨?_, by rw [g1, hA.header], hcur, hrem, ?_, ?_⟩
      · rw [hsusp]; exact hA.previous
      · rw [hsusp]
        show A.susp.fetch = susp.susp.fetch
        rw [hA.header]
      · rw [hsusp]; exact hA.closure
  · intro hs
    have hsusp := (s4 hs).2
    rw [holder_of_blocks _ _ (by rw [hsusp]; exact hA.stream.blocks)]
  · intro hs
    obtain ⟨snd, hx, hsr, hsusp⟩ := fire_xlfail env A _ _ hs
    have hne : (trigger_fire env A (j : Int) (List.replicate j 0)).status ≠
        fetch_status.xlerror := by rw [hs]; simp
    obtain ⟨clone, c0, _⟩ := fire_clone env A _ _ hne
    refine ⟨clone, snd, by rw [← hnow, ← hA.closure]; exact hx, by rw [← hAsr]; exact hsr,
      c0, by simp [input_holder, c0], by rw [hsusp]; rfl, by rw [hsusp]; rfl,
      by rw [hsusp]; rfl, by rw [hsusp]; rfl⟩

theorem C18_not_atomic_on_failure_witness :
    (trigger_fetch example_env_nil (trigger_susp_init example_env_nil
        (example_input [[-1, -1], [2, 3]]) (some 0))).susp.susp.current =
      (trigger_susp_init example_env_nil
        (example_input [[-1, -1], [2, 3]]) (some 0)).susp.current + (2 : Nat) ∧
    (trigger_fetch example_env_nil (trigger_susp_init example_env_nil
        (example_input [[-1, -1], [2, 3]]) (some 0))).susp.closure =
      (trigger_susp_init example_env_nil
        (example_input [[-1, -1], [2, 3]]) (some 0)).closure := by
  obtain ⟨i1, i2, i3, _, i5, i6, i7, i8⟩ :=
    example_node_in_stream example_env_nil [[-1, -1], [2, 3]]
  have hok : env_ok example_env_nil := ⟨by decide, by decide⟩
  have hfe : first_edge
      (trigger_susp_init example_env_nil (example_input [[-1, -1], [2, 3]]) (some 0)).previous
      (remaining_input (trigger_susp_init example_env_nil
        (example_input [[-1, -1], [2, 3]]) (some 0))) = some 2 := by rw [i2, i3]; decide
  have hst := (call_edge_status example_env_nil hok _ i1 2 hfe (by decide)).1.mpr
    (fun snd h => by simp [example_env_nil] at h)
  have h := (C18_not_atomic_on_failure example_env_nil _ 2 hok i1 hfe (by decide)).1
    (Or.inl hst)
  exact ⟨h.2.1, h.2.2.2.2.2⟩

/-- C19: when every pass of the outer loop of `trigger_fetch` finds a sample in
the input block at hand (`s1_cnt` is at least 1 and counts samples that the
block holds) and a known termination index is not below `susp.current + cnt`,
the run length `togo` is never negative, every pass breaks at the termination
index, returns at an edge or raises `cnt` by `togo`, which is then at least 1,
each pass starts at the `cnt` the previous one reached, and the loop ends
after at most `max_sample_block_len` passes. -/
theorem C19_outer_loop_terminates (env : Env) (susp : trigger_susp_node)
    (hpre : ∀ p ∈ trigger_fetch_passes env susp, pass_pre env p) :
    (∀ p ∈ trigger_fetch_passes env susp,
      0 ≤ p.togo ∧ 0 ≤ p.cnt ∧ p.cnt + p.togo ≤ (env.max_sample_block_len : Int) ∧
      (p.leaves = pass_exit.break_at_terminate ∨ p.leaves = pass_exit.edge_return ∨
        (p.leaves = pass_exit.continues ∧ 1 ≤ p.togo))) ∧
    List.Chain' (fun p q : loop_pass => q.cnt = p.cnt + p.togo)
      (trigger_fetch_passes env susp) ∧
    (∀ p ∈ (trigger_fetch_passes env susp).head?, p.cnt = 0) ∧
    (trigger_fetch_passes env susp).length ≤ env.max_sample_block_len ∧
    (trigger_fetch env susp).status ≠ fetch_status.no_progress := by
  have hb := passes_bound env (env.max_sample_block_len + pending_blocks susp.s1 + 2)
    susp 0 0 [] (by exact_mod_cast Nat.zero_le _) hpre
  obtain ⟨h1, h2, h3, h4, h5⟩ := hb
  refine ⟨h1, h2, h3, ?_, ?_⟩
  · have : ((trigger_fetch_passes env susp).length : Int)
        ≤ (env.max_sample_block_len : Int) := by
      simpa [trigger_fetch_passes] using h4
    exact_mod_cast this
  · apply h5
    push_cast
    omega

theorem C19_outer_loop_terminates_witness :
    (trigger_fetch_passes example_env (trigger_susp_init example_env
        (example_input [[-1, -1, -1], [-1, -1, 2]]) (some 0))).length
      ≤ example_env.max_sample_block_len ∧
    (trigger_fetch example_env (trigger_susp_init example_env
        (example_input [[-1, -1, -1], [-1, -1, 2]]) (some 0))).status
      ≠ fetch_status.no_progress := by
  have hok : env_ok example_env := ⟨by decide, by decide⟩
  have hin := (example_node_in_stream example_env [[-1, -1, -1], [-1, -1, 2]]).1
  have hpre := passes_pre example_env hok
    (example_env.max_sample_block_len + pending_blocks (trigger_susp_init example_env
        (example_input [[-1, -1, -1], [-1, -1, 2]]) (some 0)).s1 + 2)
    _ 0 [] hin (by
      intro b hb
      have hb2 : b ∈ [[(-1 : sample_type), -1, -1], [-1, -1, 2]] := hb
      simp only [List.mem_cons, List.mem_singleton, List.not_mem_nil, or_false] at hb2
      rcases hb2 with h | h <;> rw [h] <;> simp)
  have h := C19_outer_loop_terminates example_env _ hpre
  exact ⟨h.2.2.2.1, h.2.2.2.2⟩

end Trigger
